import Mathlib

/-!
# Data-port publisher (`RTC::PublisherPeriodic`) — shallow embedding

The definitions below follow `src/lib/rtm/PublisherPeriodic.cpp` and
`src/lib/rtm/DataPortStatus.h`.  Objects reached through pointers
(`m_consumer`, `m_buffer`, `m_listeners`, `m_task`) are `Option`s, `none`
being `nullptr`; dereferencing `none` is the fault `Fault.nullPointer`.
Calls that leave the publisher (listener notifications, the buffer's `write`,
the consumer's `put`) are recorded, in program order, in the field `trace`.
-/

namespace RTC

/-- Serialized sample (`ByteData`): a sequence of octets. -/
abbrev ByteData := List Nat

/-- The enumeration `DataPortStatus` of `DataPortStatus.h:113-129`.  The type
is an `enum class` over `uint8_t`; `unnamed raw` stands for a value of the
underlying type that is none of the enumerators (only a `default:` label of a
`switch` can take it). -/
inductive DataPortStatus
  | PORT_OK
  | PORT_ERROR
  | BUFFER_ERROR
  | BUFFER_FULL
  | BUFFER_EMPTY
  | BUFFER_TIMEOUT
  | SEND_FULL
  | SEND_TIMEOUT
  | RECV_EMPTY
  | RECV_TIMEOUT
  | INVALID_ARGS
  | PRECONDITION_NOT_MET
  | CONNECTION_LOST
  | UNKNOWN_ERROR
  | unnamed (raw : Nat)
  deriving DecidableEq

/-- Modelled from the spec: `BufferStatus.h` is not among the sources.  The
enumerators are those of spec §7 (and those named by the `switch` of
`PublisherPeriodic::convertReturn`); `unnamed raw` stands for any other value
of the underlying type, which the `default:` label receives. -/
inductive BufferStatus
  | OK
  | BUFFER_ERROR
  | FULL
  | EMPTY
  | TIMEOUT
  | PRECONDITION_NOT_MET
  | NOT_SUPPORTED
  | unnamed (raw : Nat)
  deriving DecidableEq

/-- Modelled from the spec: `ConnectorListener.h` is not among the sources.
Event types delivered with a sample (spec §4.2). -/
inductive ConnectorDataListenerType
  | ON_BUFFER_WRITE
  | ON_BUFFER_FULL
  | ON_BUFFER_WRITE_TIMEOUT
  | ON_BUFFER_OVERWRITE
  | ON_BUFFER_READ
  | ON_SEND
  | ON_RECEIVED
  | ON_RECEIVER_FULL
  | ON_RECEIVER_TIMEOUT
  | ON_RECEIVER_ERROR
  deriving DecidableEq

/-- Modelled from the spec: `ConnectorListener.h` is not among the sources.
Event types delivered without a sample (spec §4.2). -/
inductive ConnectorListenerType
  | ON_BUFFER_EMPTY
  | ON_BUFFER_READ_TIMEOUT
  | ON_SENDER_EMPTY
  | ON_SENDER_TIMEOUT
  | ON_SENDER_ERROR
  deriving DecidableEq

/-- One observable call made by the publisher on a collaborator, with the
value the collaborator returned. -/
inductive Event
  | notifyOut (type : ConnectorDataListenerType) (data : ByteData)
  | notify (type : ConnectorListenerType)
  | bufferWrite (data : ByteData) (timeout : Int) (ret : BufferStatus)
  | consumerPut (data : ByteData) (ret : DataPortStatus)
  deriving DecidableEq

/-- Ways in which an operation fails to return: a null pointer is
dereferenced, an `assert` fails, the bound on loop iterations given to the
model is used up, or a `std::vector` is indexed past its end. -/
inductive Fault
  | nullPointer
  | assertFailed
  | fuelExhausted
  | outOfRange
  deriving DecidableEq

/-- The push policies named in `PublisherPeriodic::svc` and `setPushPolicy`. -/
inductive Policy
  | PUBLISHER_POLICY_ALL
  | PUBLISHER_POLICY_FIFO
  | PUBLISHER_POLICY_SKIP
  | PUBLISHER_POLICY_NEW
  deriving DecidableEq

/-- The abstract buffer interface (`CdrBufferBase`) as far as the publisher
uses it: an implementation is a state type `β` with these operations.
`advanceRptr` returns a status in the source which the publisher discards. -/
structure CdrBufferBase (β : Type) where
  write : β → ByteData → Int → BufferStatus × β
  readable : β → Nat
  empty : β → Bool
  get : β → ByteData
  advanceRptr : β → Int → β

/-- The remote consumer (`InPortConsumer`, an external collaborator).  Its
`put` is an oracle: the call number `calls` of this consumer returns
`results calls`. -/
structure InPortConsumer where
  results : Nat → DataPortStatus
  calls : Nat

/-- `InPortConsumer::put(data)`. -/
def InPortConsumer.put (c : InPortConsumer) (_data : ByteData) :
    DataPortStatus × InPortConsumer :=
  (c.results c.calls, { c with calls := c.calls + 1 })

/-- Modelled from the spec: `PeriodicTask.cpp` is not among the sources.  The
fields are the period, the alive flag and the suspend flag declared in
`PeriodicTask.h:311-370` (spec §3, PeriodicTask). -/
structure PeriodicTask where
  m_period : Int
  m_alive : Bool
  m_suspend : Bool
  deriving DecidableEq

/-- Modelled from the spec: `PeriodicTask::resume()` leaves the suspended
state (spec §4.3). -/
def PeriodicTask.resume (t : PeriodicTask) : PeriodicTask :=
  { t with m_suspend := false }

/-- Modelled from the spec: `PeriodicTask::suspend()` enters the suspended
state (spec §4.3). -/
def PeriodicTask.suspend (t : PeriodicTask) : PeriodicTask :=
  { t with m_suspend := true }

/-- Connector profile handed to the listeners (`ConnectorInfo`). -/
structure ConnectorInfo where
  name : String
  id : String
  deriving DecidableEq

/-- The listener registry (`ConnectorListenersBase`); its notifications are
recorded in the publisher's `trace`. -/
abbrev ConnectorListenersBase := Unit

/-- State of a `PublisherPeriodic` object together with the objects it points
to.  The member list with its initial values is in `PublisherPeriodic.h`. -/
structure PublisherPeriodic (β : Type) where
  m_profile : ConnectorInfo
  m_consumer : Option InPortConsumer
  m_buffer : Option β
  m_listeners : Option ConnectorListenersBase
  m_task : Option PeriodicTask
  m_retcode : DataPortStatus
  m_pushPolicy : Policy
  m_skipn : Int
  m_active : Bool
  m_readback : Bool
  m_leftskip : Nat
  m_data : ByteData
  trace : List Event

/-- Modelled from the spec: `PublisherPeriodic.h` (member initialisers) is not
among the sources.  A constructed publisher has no consumer, buffer, listeners
or task, status `PORT_OK`, the default policy `new`, skip count 0, no carried
remainder, and is inactive (spec §4.4, state Uninitialized). -/
def PublisherPeriodic.new (β : Type) : PublisherPeriodic β :=
  { m_profile := { name := "", id := "" }
    m_consumer := none
    m_buffer := none
    m_listeners := none
    m_task := none
    m_retcode := .PORT_OK
    m_pushPolicy := .PUBLISHER_POLICY_NEW
    m_skipn := 0
    m_active := false
    m_readback := false
    m_leftskip := 0
    m_data := []
    trace := [] }

section Publisher

variable {β : Type}

/-- `m_listeners->notifyOut(type, m_profile, data)`: the inline helpers
`onBufferWrite`, `onBufferFull`, `onBufferWriteTimeout`, `onBufferRead`,
`onSend`, `onReceived`, `onReceiverFull`, `onReceiverTimeout` and
`onReceiverError` each make this call with their own type. -/
def notifyOut (st : PublisherPeriodic β) (type : ConnectorDataListenerType)
    (data : ByteData) : Except Fault (PublisherPeriodic β) :=
  match st.m_listeners with
  | none => .error .nullPointer
  | some _ => .ok { st with trace := st.trace ++ [Event.notifyOut type data] }

/-- `m_listeners->notify(type, m_profile)`: the inline helpers `onBufferEmpty`
and `onSenderEmpty`. -/
def notify (st : PublisherPeriodic β) (type : ConnectorListenerType) :
    Except Fault (PublisherPeriodic β) :=
  match st.m_listeners with
  | none => .error .nullPointer
  | some _ => .ok { st with trace := st.trace ++ [Event.notify type] }

/-- `PublisherPeriodic::setConsumer` (PublisherPeriodic.cpp:98-110). -/
def setConsumer (st : PublisherPeriodic β) (consumer : Option InPortConsumer) :
    DataPortStatus × PublisherPeriodic β :=
  match consumer with
  | none => (.INVALID_ARGS, st)
  | some c => (.PORT_OK, { st with m_consumer := some c })

/-- `PublisherPeriodic::setBuffer` (PublisherPeriodic.cpp:119-130). -/
def setBuffer (st : PublisherPeriodic β) (buffer : Option β) :
    DataPortStatus × PublisherPeriodic β :=
  match buffer with
  | none => (.INVALID_ARGS, st)
  | some b => (.PORT_OK, { st with m_buffer := some b })

/-- `PublisherPeriodic::setListener` (PublisherPeriodic.cpp:139-153). -/
def setListener (st : PublisherPeriodic β) (info : ConnectorInfo)
    (listeners : Option ConnectorListenersBase) :
    DataPortStatus × PublisherPeriodic β :=
  match listeners with
  | none => (.INVALID_ARGS, st)
  | some l => (.PORT_OK, { st with m_profile := info, m_listeners := some l })

/-- `PublisherPeriodic::convertReturn` (PublisherPeriodic.cpp:511-550). -/
def convertReturn (st : PublisherPeriodic β) (status : BufferStatus)
    (data : ByteData) : Except Fault (DataPortStatus × PublisherPeriodic β) :=
  match status with
  | .OK => .ok (.PORT_OK, st)
  | .BUFFER_ERROR => .ok (.BUFFER_ERROR, st)
  | .FULL =>
    (notifyOut st .ON_BUFFER_FULL data).map (fun st1 => (.BUFFER_FULL, st1))
  | .NOT_SUPPORTED => .ok (.PORT_ERROR, st)
  | .TIMEOUT =>
    (notifyOut st .ON_BUFFER_WRITE_TIMEOUT data).map
      (fun st1 => (.BUFFER_TIMEOUT, st1))
  | .PRECONDITION_NOT_MET => .ok (.PRECONDITION_NOT_MET, st)
  | .EMPTY => .ok (.PORT_ERROR, st)
  | .unnamed _ => .ok (.PORT_ERROR, st)

/-- `PublisherPeriodic::invokeListener` (PublisherPeriodic.cpp:559-602). -/
def invokeListener (st : PublisherPeriodic β) (status : DataPortStatus)
    (data : ByteData) : Except Fault (DataPortStatus × PublisherPeriodic β) :=
  match status with
  | .PORT_ERROR =>
    (notifyOut st .ON_RECEIVER_ERROR data).map (fun st1 => (.PORT_ERROR, st1))
  | .SEND_FULL =>
    (notifyOut st .ON_RECEIVER_FULL data).map (fun st1 => (.SEND_FULL, st1))
  | .SEND_TIMEOUT =>
    (notifyOut st .ON_RECEIVER_TIMEOUT data).map
      (fun st1 => (.SEND_TIMEOUT, st1))
  | .CONNECTION_LOST =>
    (notifyOut st .ON_RECEIVER_ERROR data).map
      (fun st1 => (.CONNECTION_LOST, st1))
  | .UNKNOWN_ERROR =>
    (notifyOut st .ON_RECEIVER_ERROR data).map
      (fun st1 => (.UNKNOWN_ERROR, st1))
  | _ =>
    (notifyOut st .ON_RECEIVER_ERROR data).map (fun st1 => (.PORT_ERROR, st1))

/-- `PublisherPeriodic::write` (PublisherPeriodic.cpp:162-192). -/
def write (B : CdrBufferBase β) (st : PublisherPeriodic β) (data : ByteData)
    (timeout : Int) : Except Fault (DataPortStatus × PublisherPeriodic β) :=
  match st.m_consumer with
  | none => .ok (.PRECONDITION_NOT_MET, st)
  | some _ =>
  match st.m_buffer with
  | none => .ok (.PRECONDITION_NOT_MET, st)
  | some buf =>
  match st.m_listeners with
  | none => .ok (.PRECONDITION_NOT_MET, st)
  | some _ =>
  if st.m_retcode = .CONNECTION_LOST then .ok (st.m_retcode, st)
  else
    let st1 := { st with m_data := data }
    if st1.m_retcode = .SEND_FULL then
      let r := B.write buf st1.m_data timeout
      .ok (.BUFFER_FULL,
        { st1 with
            m_buffer := some r.2
            trace := st1.trace ++ [Event.bufferWrite st1.m_data timeout r.1] })
    else
      match notifyOut st1 .ON_BUFFER_WRITE st1.m_data with
      | .error e => .error e
      | .ok st2 =>
        let r := B.write buf st2.m_data timeout
        let st3 :=
          { st2 with
              m_buffer := some r.2
              trace := st2.trace ++ [Event.bufferWrite st2.m_data timeout r.1] }
        match st3.m_task with
        | none => .error .nullPointer
        | some t =>
          convertReturn { st3 with m_task := some t.resume } r.1 st3.m_data

/-- `PublisherPeriodic::isActive` (PublisherPeriodic.cpp:201-204). -/
def isActive (st : PublisherPeriodic β) : Bool :=
  st.m_active

/-- `PublisherPeriodic::activate` (PublisherPeriodic.cpp:213-220). -/
def activate (st : PublisherPeriodic β) : DataPortStatus × PublisherPeriodic β :=
  match st.m_task with
  | none => (.PRECONDITION_NOT_MET, st)
  | some t =>
    match st.m_buffer with
    | none => (.PRECONDITION_NOT_MET, st)
    | some _ => (.PORT_OK, { st with m_active := true, m_task := some t.resume })

/-- `PublisherPeriodic::deactivate` (PublisherPeriodic.cpp:229-235). -/
def deactivate (st : PublisherPeriodic β) : DataPortStatus × PublisherPeriodic β :=
  match st.m_task with
  | none => (.PRECONDITION_NOT_MET, st)
  | some t => (.PORT_OK, { st with m_active := false, m_task := some t.suspend })

/-- Modelled from the spec: `PublisherPeriodic::bufferIsEmpty` is defined in
`PublisherPeriodic.h`, which is not among the sources.  The buffer counts as
empty when it holds no unread sample and read-back of the last sample has not
been enabled by the `new` policy (spec §4.4, policy new); the empty-buffer
listeners ON_BUFFER_EMPTY and ON_SENDER_EMPTY of spec §4.2 are then
notified. -/
def bufferIsEmpty (B : CdrBufferBase β) (st : PublisherPeriodic β) :
    Except Fault (Bool × PublisherPeriodic β) :=
  match st.m_buffer with
  | none => .error .nullPointer
  | some buf =>
    if B.empty buf && !st.m_readback then
      match notify st .ON_BUFFER_EMPTY with
      | .error e => .error e
      | .ok st1 =>
        match notify st1 .ON_SENDER_EMPTY with
        | .error e => .error e
        | .ok st2 => .ok (true, st2)
    else .ok (false, st)

/-- `m_buffer->advanceRptr(n)` on the publisher's buffer. -/
def advanceRptr (B : CdrBufferBase β) (st : PublisherPeriodic β) (n : Int) :
    Except Fault (PublisherPeriodic β) :=
  match st.m_buffer with
  | none => .error .nullPointer
  | some buf => .ok { st with m_buffer := some (B.advanceRptr buf n) }

/-- The block shared by the four push functions (PublisherPeriodic.cpp:278-282,
304-308, 341-345, 377-382):
`ByteData& cdr(m_buffer->get()); onBufferRead(cdr); onSend(cdr);
 ret = m_consumer->put(cdr);`.  Returns `cdr`, `ret` and the new state. -/
def getAndPut (B : CdrBufferBase β) (st : PublisherPeriodic β) :
    Except Fault (ByteData × DataPortStatus × PublisherPeriodic β) :=
  match st.m_buffer with
  | none => .error .nullPointer
  | some buf =>
    let cdr := B.get buf
    match notifyOut st .ON_BUFFER_READ cdr with
    | .error e => .error e
    | .ok st1 =>
      match notifyOut st1 .ON_SEND cdr with
      | .error e => .error e
      | .ok st2 =>
        match st2.m_consumer with
        | none => .error .nullPointer
        | some c =>
          let r := c.put cdr
          .ok (cdr, r.1,
            { st2 with
                m_consumer := some r.2
                trace := st2.trace ++ [Event.consumerPut cdr r.1] })

/-- The `while (m_buffer->readable() > 0)` loop of `pushAll`
(PublisherPeriodic.cpp:276-293); `fuel` bounds the number of evaluations of
the loop condition. -/
def pushAllLoop (B : CdrBufferBase β) :
    Nat → PublisherPeriodic β → Except Fault (DataPortStatus × PublisherPeriodic β)
  | 0, _ => .error .fuelExhausted
  | fuel + 1, st =>
    match st.m_buffer with
    | none => .error .nullPointer
    | some buf =>
      if B.readable buf > 0 then
        match getAndPut B st with
        | .error e => .error e
        | .ok (cdr, ret, st1) =>
          if ret ≠ .PORT_OK then invokeListener st1 ret cdr
          else
            match notifyOut st1 .ON_RECEIVED cdr with
            | .error e => .error e
            | .ok st2 =>
              match advanceRptr B st2 1 with
              | .error e => .error e
              | .ok st3 => pushAllLoop B fuel st3
      else .ok (.PORT_OK, st)

/-- `PublisherPeriodic::pushAll` (PublisherPeriodic.cpp:271-294). -/
def pushAll (B : CdrBufferBase β) (fuel : Nat) (st : PublisherPeriodic β) :
    Except Fault (DataPortStatus × PublisherPeriodic β) :=
  match bufferIsEmpty B st with
  | .error e => .error e
  | .ok (true, st1) => .ok (.BUFFER_EMPTY, st1)
  | .ok (false, st1) => pushAllLoop B fuel st1

/-- `PublisherPeriodic::pushFifo` (PublisherPeriodic.cpp:299-320). -/
def pushFifo (B : CdrBufferBase β) (st : PublisherPeriodic β) :
    Except Fault (DataPortStatus × PublisherPeriodic β) :=
  match bufferIsEmpty B st with
  | .error e => .error e
  | .ok (true, st1) => .ok (.BUFFER_EMPTY, st1)
  | .ok (false, st1) =>
    match getAndPut B st1 with
    | .error e => .error e
    | .ok (cdr, ret, st2) =>
      if ret ≠ .PORT_OK then invokeListener st2 ret cdr
      else
        match notifyOut st2 .ON_RECEIVED cdr with
        | .error e => .error e
        | .ok st3 =>
          match advanceRptr B st3 1 with
          | .error e => .error e
          | .ok st4 => .ok (.PORT_OK, st4)

/-- How the `for` loop of `pushSkip` is left: by the `return` inside it, or by
running to its end with the local variables `readable` and `ret`. -/
inductive SkipLoopExit (σ : Type)
  | returned (ret : DataPortStatus) (st : σ)
  | finished (readable : Nat) (ret : DataPortStatus) (st : σ)

/-- The `for (size_t i(0); i < loopcnt; ++i)` loop of `pushSkip`
(PublisherPeriodic.cpp:337-354).  The first argument is the number of
iterations still to run; `skipn` is `m_skipn` (non-negative here, by the
assertion before the loop); `postskip`, `readable` and `ret` are the local
variables. -/
def pushSkipLoop (B : CdrBufferBase β) (skipn : Nat) :
    Nat → Nat → Nat → DataPortStatus → PublisherPeriodic β →
      Except Fault (SkipLoopExit (PublisherPeriodic β))
  | 0, _, readable, ret, st => .ok (.finished readable ret st)
  | k + 1, postskip, readable, _, st =>
    match advanceRptr B st (postskip : Int) with
    | .error e => .error e
    | .ok st1 =>
      match getAndPut B st1 with
      | .error e => .error e
      | .ok (cdr, ret, st2) =>
        if ret ≠ .PORT_OK then
          match advanceRptr B st2 (-(postskip : Int)) with
          | .error e => .error e
          | .ok st3 =>
            match invokeListener st3 ret cdr with
            | .error e => .error e
            | .ok (r, st4) => .ok (.returned r st4)
        else
          match notifyOut st2 .ON_RECEIVED cdr with
          | .error e => .error e
          | .ok st3 =>
            pushSkipLoop B skipn k (skipn + 1) (readable - postskip) ret st3

/-- `PublisherPeriodic::pushSkip` (PublisherPeriodic.cpp:325-361).  The two
`assert`s are faults when they fail; past them `m_skipn` and
`m_skipn - m_leftskip` are non-negative and are used as naturals. -/
def pushSkip (B : CdrBufferBase β) (st : PublisherPeriodic β) :
    Except Fault (DataPortStatus × PublisherPeriodic β) :=
  match bufferIsEmpty B st with
  | .error e => .error e
  | .ok (true, st1) => .ok (.BUFFER_EMPTY, st1)
  | .ok (false, st1) =>
    match st1.m_buffer with
    | none => .error .nullPointer
    | some buf =>
      let readable := B.readable buf
      let preskip := readable + st1.m_leftskip
      if st1.m_skipn < 0 then .error .assertFailed
      else
        let skipn := st1.m_skipn.toNat
        let loopcnt := preskip / (skipn + 1)
        if st1.m_skipn < (st1.m_leftskip : Int) then .error .assertFailed
        else
          let postskip := skipn - st1.m_leftskip
          match pushSkipLoop B skipn loopcnt postskip readable .PORT_OK st1 with
          | .error e => .error e
          | .ok (.returned r st2) => .ok (r, st2)
          | .ok (.finished readable1 ret st2) =>
            match advanceRptr B st2 (readable1 : Int) with
            | .error e => .error e
            | .ok st3 =>
              .ok (ret, { st3 with m_leftskip := preskip % (skipn + 1) })

/-- `PublisherPeriodic::pushNew` (PublisherPeriodic.cpp:366-393). -/
def pushNew (B : CdrBufferBase β) (st : PublisherPeriodic β) :
    Except Fault (DataPortStatus × PublisherPeriodic β) :=
  match bufferIsEmpty B st with
  | .error e => .error e
  | .ok (true, st1) => .ok (.BUFFER_EMPTY, st1)
  | .ok (false, st1) =>
    let st2 := { st1 with m_readback := true }
    match st2.m_buffer with
    | none => .error .nullPointer
    | some buf =>
      match advanceRptr B st2 ((B.readable buf : Int) - 1) with
      | .error e => .error e
      | .ok st3 =>
        match getAndPut B st3 with
        | .error e => .error e
        | .ok (cdr, ret, st4) =>
          if ret ≠ .PORT_OK then invokeListener st4 ret cdr
          else
            match notifyOut st4 .ON_RECEIVED cdr with
            | .error e => .error e
            | .ok st5 =>
              match advanceRptr B st5 1 with
              | .error e => .error e
              | .ok st6 => .ok (.PORT_OK, st6)

/-- The `switch (m_pushPolicy)` of `PublisherPeriodic::svc`: the push function
of the configured policy. -/
def push (B : CdrBufferBase β) (fuel : Nat) (st : PublisherPeriodic β) :
    Except Fault (DataPortStatus × PublisherPeriodic β) :=
  match st.m_pushPolicy with
  | .PUBLISHER_POLICY_ALL => pushAll B fuel st
  | .PUBLISHER_POLICY_FIFO => pushFifo B st
  | .PUBLISHER_POLICY_SKIP => pushSkip B st
  | .PUBLISHER_POLICY_NEW => pushNew B st

/-- `PublisherPeriodic::svc` (PublisherPeriodic.cpp:244-266), one delivery
tick: the status returned by the push function is stored in `m_retcode`. -/
def svc (B : CdrBufferBase β) (fuel : Nat) (st : PublisherPeriodic β) :
    Except Fault (PublisherPeriodic β) :=
  match push B fuel st with
  | .error e => .error e
  | .ok (ret, st1) => .ok { st1 with m_retcode := ret }

end Publisher

/-! ## Ring buffer -/

/-- Modelled from the spec: the overflow policy of the Ring Buffer, fixed at
construction (`buffer.write.full_policy`: overwrite | do_nothing | block,
spec §6). -/
inductive FullPolicy
  | overwrite
  | do_nothing
  | block
  deriving DecidableEq

/-- Modelled from the spec: the Ring Buffer (`RingBuffer.h` is not among the
sources): a fixed-capacity circular array of samples with a write pointer, a
read pointer and the count of unread samples (spec §3).  `slots i` is the
content of slot `i` of the array, for `i < m_length`. -/
structure RingBuffer where
  m_length : Nat
  m_fullPolicy : FullPolicy
  slots : Nat → ByteData
  m_wpos : Nat
  m_rpos : Nat
  m_fillcount : Nat

namespace RingBuffer

/-- Modelled from the spec: a newly created, empty Ring Buffer of the given
capacity and overflow policy. -/
def create (length : Nat) (policy : FullPolicy) : RingBuffer :=
  { m_length := length
    m_fullPolicy := policy
    slots := fun _ => []
    m_wpos := 0
    m_rpos := 0
    m_fillcount := 0 }

/-- Modelled from the spec: `readable()`, the number of unread samples. -/
def readable (b : RingBuffer) : Nat :=
  b.m_fillcount

/-- Modelled from the spec: `empty()`. -/
def empty (b : RingBuffer) : Bool :=
  b.m_fillcount == 0

/-- Modelled from the spec: `full()`; `readable() <= capacity` is an
invariant, so the buffer is full when the count has reached the capacity. -/
def full (b : RingBuffer) : Bool :=
  b.m_length ≤ b.m_fillcount

/-- Modelled from the spec: `get()`, the sample at the read pointer (the
oldest unread sample when there is one). -/
def get (b : RingBuffer) : ByteData :=
  b.slots b.m_rpos

/-- Modelled from the spec: `advanceRptr(n)`.  A forward move (`n >= 0`)
consumes `n` unread samples; a backward move makes `-n` already read slots
unread again.  A move that would leave `0 <= readable() <= capacity` is
refused and changes nothing. -/
def advanceRptr (b : RingBuffer) (n : Int) : RingBuffer :=
  if 0 ≤ n then
    if n.toNat ≤ b.m_fillcount then
      { b with
          m_rpos := (b.m_rpos + n.toNat) % b.m_length
          m_fillcount := b.m_fillcount - n.toNat }
    else b
  else
    if (-n).toNat ≤ b.m_length - b.m_fillcount then
      { b with
          m_rpos := (b.m_rpos + (b.m_length - (-n).toNat)) % b.m_length
          m_fillcount := b.m_fillcount + (-n).toNat }
    else b

/-- Modelled from the spec: store a sample in the slot at the write pointer
and advance the write pointer by one (`put` followed by `advanceWptr(1)`). -/
def putAndAdvance (b : RingBuffer) (value : ByteData) : RingBuffer :=
  { b with
      slots := fun i => if i = b.m_wpos then value else b.slots i
      m_wpos := (b.m_wpos + 1) % b.m_length
      m_fillcount := b.m_fillcount + 1 }

/-- Modelled from the spec: `write(sample, timeout)` (spec §4.1).  On a full
buffer: the overwrite policy drops the oldest sample (the read pointer
advances as well) and the write succeeds; the reject policy returns FULL and
changes nothing; the block policy waits for the timeout and, no reader
running meanwhile in this sequential model, returns TIMEOUT. -/
def write (b : RingBuffer) (value : ByteData) (_timeout : Int) :
    BufferStatus × RingBuffer :=
  if b.full then
    match b.m_fullPolicy with
    | .overwrite => (.OK, (b.advanceRptr 1).putAndAdvance value)
    | .do_nothing => (.FULL, b)
    | .block => (.TIMEOUT, b)
  else (.OK, b.putAndAdvance value)

/-- The unread samples, oldest first: the slots from the read pointer on,
`m_fillcount` of them, around the circular array. -/
def unread (b : RingBuffer) : List ByteData :=
  (List.range b.m_fillcount).map (fun i => b.slots ((b.m_rpos + i) % b.m_length))

/-- The Ring Buffer as an implementation of the buffer interface. -/
def ops : CdrBufferBase RingBuffer :=
  { write := RingBuffer.write
    readable := RingBuffer.readable
    empty := RingBuffer.empty
    get := RingBuffer.get
    advanceRptr := RingBuffer.advanceRptr }

end RingBuffer

/-! ## Observations on traces -/

/-- The samples passed to the consumer's `put`, in call order. -/
def putSamples : List Event → List ByteData
  | [] => []
  | Event.consumerPut d _ :: es => d :: putSamples es
  | _ :: es => putSamples es

/-- The samples passed to the buffer's `write`, in call order. -/
def bufferWrites : List Event → List ByteData
  | [] => []
  | Event.bufferWrite d _ _ :: es => d :: bufferWrites es
  | _ :: es => bufferWrites es

/-- The events a step added: the trace after it without the trace before. -/
def newEvents {β : Type} (before after : PublisherPeriodic β) : List Event :=
  after.trace.drop before.trace.length

/-- The consumer, the buffer and the listener registry have all been set. -/
def Wired {β : Type} (st : PublisherPeriodic β) : Prop :=
  st.m_consumer.isSome = true ∧ st.m_buffer.isSome = true ∧
    st.m_listeners = some ()

/-- `st'` comes from `st` by a delivery step that made the calls `evs`: the
trace grew by `evs`, every pointer is set exactly if it was, and the
configuration, the task, the recorded status and the last written sample are
unchanged. -/
def Extends {β : Type} (st st' : PublisherPeriodic β) (evs : List Event) : Prop :=
  st'.trace = st.trace ++ evs ∧ st'.m_listeners = st.m_listeners ∧
    st'.m_consumer.isSome = st.m_consumer.isSome ∧
    st'.m_buffer.isSome = st.m_buffer.isSome ∧ st'.m_task = st.m_task ∧
    st'.m_pushPolicy = st.m_pushPolicy ∧ st'.m_skipn = st.m_skipn ∧
    st'.m_active = st.m_active ∧ st'.m_retcode = st.m_retcode ∧
    st'.m_data = st.m_data ∧ st'.m_profile = st.m_profile

/-- What one run of a push function from `st`, returning `ret` in state `st'`,
did with the consumer: it made the calls `evs` (see `Extends`); a `put` is only
made with consumer, buffer and listeners set; a `put` that returned a status
other than PORT_OK made the function return through `invokeListener` on that
status; and a returned status other than PORT_OK and BUFFER_EMPTY comes from
such a `put`. -/
def TickSummary {β : Type} (st : PublisherPeriodic β) (ret : DataPortStatus)
    (st' : PublisherPeriodic β) : Prop :=
  ∃ evs, Extends st st' evs ∧
    (∀ d r, Event.consumerPut d r ∈ evs →
      Wired st ∧
      (r ≠ .PORT_OK → ∃ st0, invokeListener st0 r d = .ok (ret, st'))) ∧
    (ret ≠ .PORT_OK → ret ≠ .BUFFER_EMPTY →
      ∃ d r, Event.consumerPut d r ∈ evs ∧ r ≠ .PORT_OK)

/-! ## Runs and concrete configurations -/

/-- An operation on a publisher: a `write` by the producer or one delivery
tick (`svc`) of the periodic task. -/
inductive Op
  | write (data : ByteData) (timeout : Int)
  | tick

/-- Run a sequence of operations; the result is the list of the statuses the
`write`s returned, in order, and the final state. -/
def run {β : Type} (B : CdrBufferBase β) (fuel : Nat) :
    List Op → PublisherPeriodic β →
      Except Fault (List DataPortStatus × PublisherPeriodic β)
  | [], st => .ok ([], st)
  | Op.write data timeout :: ops, st =>
    match write B st data timeout with
    | .error e => .error e
    | .ok (r, st1) =>
      match run B fuel ops st1 with
      | .error e => .error e
      | .ok (rs, st2) => .ok (r :: rs, st2)
  | Op.tick :: ops, st =>
    match svc B fuel st with
    | .error e => .error e
    | .ok st1 => run B fuel ops st1

/-- A consumer whose first `put`s return the statuses of `rs`, in order, and
every later one PORT_OK. -/
def scripted (rs : List DataPortStatus) : InPortConsumer :=
  { results := fun i => rs.getD i .PORT_OK, calls := 0 }

/-- A publisher in the Configured (Inactive) state of spec §4.4, over a Ring
Buffer: policy and skip count as `setPushPolicy` stores them, the suspended
task that `createTask` leaves (1 ms period), and consumer, buffer and
listeners as the three setters store them. -/
def configured (policy : Policy) (skipn : Int) (c : InPortConsumer)
    (b : RingBuffer) : PublisherPeriodic RingBuffer :=
  { PublisherPeriodic.new RingBuffer with
      m_consumer := some c
      m_buffer := some b
      m_listeners := some ()
      m_task := some { m_period := 1000000, m_alive := true, m_suspend := true }
      m_pushPolicy := policy
      m_skipn := skipn }

/-- The statuses returned and the trace left by a run. -/
def observe {β : Type}
    (r : Except Fault (List DataPortStatus × PublisherPeriodic β)) :
    Option (List DataPortStatus × List Event) :=
  match r with
  | .error _ => none
  | .ok (rs, st) => some (rs, st.trace)

/-- Concrete instance: a `fifo` publisher whose buffer (capacity 4) holds the
one unread sample `[65]` and whose consumer answers the first `put` with the
given status. -/
def oneSample (r : DataPortStatus) : PublisherPeriodic RingBuffer :=
  configured .PUBLISHER_POLICY_FIFO 0 (scripted [r])
    ((RingBuffer.create 4 .do_nothing).putAndAdvance [65])

/-- The state `oneSample r` is in after one delivery tick when `r` is one of
CONNECTION_LOST and SEND_FULL (for which `invokeListener` returns `r`): the
consumer has been called once, `notified` is the receiver-side listener that
was fired, and `r` is recorded. -/
def oneSampleFailed (r : DataPortStatus) (notified : ConnectorDataListenerType) :
    PublisherPeriodic RingBuffer :=
  { oneSample r with
      m_consumer := some { scripted [r] with calls := 1 }
      m_retcode := r
      trace := [Event.notifyOut .ON_BUFFER_READ [65],
        Event.notifyOut .ON_SEND [65],
        Event.consumerPut [65] r,
        Event.notifyOut notified [65]] }

/-- Well-formed Ring Buffer (spec §3): positive capacity, read pointer inside
the array, `readable() <= capacity`, and the write pointer `readable()` slots
ahead of the read pointer around the array. -/
def RingBuffer.WF (b : RingBuffer) : Prop :=
  0 < b.m_length ∧ b.m_rpos < b.m_length ∧ b.m_fillcount ≤ b.m_length ∧
    b.m_wpos = (b.m_rpos + b.m_fillcount) % b.m_length

/-- The events of one successful delivery of the sample `d`. -/
def delivery (d : ByteData) : List Event :=
  [Event.notifyOut .ON_BUFFER_READ d, Event.notifyOut .ON_SEND d,
   Event.consumerPut d .PORT_OK, Event.notifyOut .ON_RECEIVED d]

/-- The events of successful deliveries of the samples `ds`, one after the
other. -/
def deliveries : List ByteData → List Event
  | [] => []
  | d :: ds => delivery d ++ deliveries ds

/-- The state after a delivery step: the consumer has been called `n` more
times, the buffer has become `buf`, and the events `evs` have been added. -/
def PublisherPeriodic.after {β : Type} (st : PublisherPeriodic β) (n : Nat)
    (buf : β) (evs : List Event) : PublisherPeriodic β :=
  { st with
      m_consumer := st.m_consumer.map (fun c => { c with calls := c.calls + n })
      m_buffer := some buf
      trace := st.trace ++ evs }

/-- Concrete instance: a Ring Buffer of capacity 4 into which the samples
`[65]`, `[66]`, `[67]` (A, B, C) have been stored, none read yet. -/
def bufferABC : RingBuffer :=
  (((RingBuffer.create 4 .do_nothing).putAndAdvance [65]).putAndAdvance
    [66]).putAndAdvance [67]

/-- What `write` leaves alone: the consumer, the listener registry, the push
policy with its skip count and carried remainder, the read-back flag, the
recorded status, the active flag and the profile. -/
def WriteFrame {β : Type} (st st' : PublisherPeriodic β) : Prop :=
  st'.m_consumer = st.m_consumer ∧ st'.m_listeners = st.m_listeners ∧
    st'.m_pushPolicy = st.m_pushPolicy ∧ st'.m_skipn = st.m_skipn ∧
    st'.m_leftskip = st.m_leftskip ∧ st'.m_readback = st.m_readback ∧
    st'.m_retcode = st.m_retcode ∧ st'.m_active = st.m_active ∧
    st'.m_profile = st.m_profile

/-- Concrete instance: a Ring Buffer of capacity 8 holding the five unread
samples `[0]`, `[1]`, `[2]`, `[3]`, `[4]`, stored in this order. -/
def bufferFive : RingBuffer :=
  (((((RingBuffer.create 8 .do_nothing).putAndAdvance [0]).putAndAdvance
    [1]).putAndAdvance [2]).putAndAdvance [3]).putAndAdvance [4]

/-- The samples passed to `put` during a run, when it returns. -/
def delivered {β : Type}
    (r : Except Fault (List DataPortStatus × PublisherPeriodic β)) :
    Option (List ByteData) :=
  (observe r).map (fun p => putSamples p.2)

/-- Distance the read pointer has moved after `k` iterations of the loop of
`pushSkip` that all delivered: `postskip` slots in the first iteration,
`skipn + 1` in each later one. -/
def skipAdvance (skipn : Nat) : Nat → Nat → Nat
  | 0, _ => 0
  | k + 1, postskip => postskip + skipAdvance skipn k (skipn + 1)

/-- The samples at which `k` iterations of the loop of `pushSkip` stop, from
the list `ds` of unread samples: the one `postskip` places from the front,
then every `skipn + 1`-th after it. -/
def skipPicks (skipn : Nat) : Nat → Nat → List ByteData → List ByteData
  | 0, _, _ => []
  | k + 1, postskip, ds =>
    match ds.drop postskip with
    | [] => []
    | d :: rest => d :: skipPicks skipn k (skipn + 1) (d :: rest)

/-- Concrete scenario of the skip cadence: nine writes of the samples `[0]` to
`[8]` (index `i` is the sample `[i]`), then one delivery tick. -/
def nineWritesThenTick : List Op :=
  (List.range 9).map (fun i => Op.write [i] 0) ++ [Op.tick]

/-! ## InPort providers and the OutPort consumer -/

/-- Modelled from the spec: the transport-native status `::OpenRTM::PortStatus`
(`::RTC::PortStatus` for the data service), declared in IDL that is not
among the sources.  The enumerators are those named by the `switch` of
`OutPortCorbaCdrConsumer::convertReturn`; `unnamed raw` is any other value,
which its `default:` label receives. -/
inductive PortStatus
  | PORT_OK
  | PORT_ERROR
  | BUFFER_FULL
  | BUFFER_EMPTY
  | BUFFER_TIMEOUT
  | UNKNOWN_ERROR
  | unnamed (raw : Nat)
  deriving DecidableEq

/-- The calls `OutPortCorbaCdrConsumer::get` makes inside its `try` block, each
of which may throw. -/
inductive GetStep
  | remoteGet
  | writeData
  | onReceived
  | onBufferWrite
  | bufferFull
  | onBufferFull
  | onReceiverFull
  | bufferPut
  | advanceWptr
  | advanceRptr
  | onSenderError
  | onSenderEmpty
  | onSenderTimeout
  deriving DecidableEq

/-- One observable call made by an InPort provider or an OutPort consumer. -/
inductive InEvent
  | notifyIn (type : ConnectorDataListenerType) (data : ByteData)
  | notify (type : ConnectorListenerType)
  | connectorWrite (data : ByteData) (ret : BufferStatus)
  | remoteGet (ret : PortStatus)
  | bufferPut (data : ByteData)
  | raised (step : GetStep)
  deriving DecidableEq

/-- The connector of an InPort provider (`InPortConnector`, an external
collaborator).  Its `write` is an oracle: call number `calls` returns
`results calls`. -/
structure InPortConnector where
  littleEndian : Bool
  results : Nat → BufferStatus
  calls : Nat

/-- `InPortConnector::write(data)`. -/
def InPortConnector.write (c : InPortConnector) (_data : ByteData) :
    BufferStatus × InPortConnector :=
  (c.results c.calls, { c with calls := c.calls + 1 })

/-- State of an InPort provider (`InPortCorbaCdrProvider`, `InPortDSProvider`:
the two classes have the same members): connector, listener registry, the
stream `m_cdr` with its endian flag, and the trace of calls made. -/
structure InPortProvider where
  m_connector : Option InPortConnector
  m_listeners : Option ConnectorListenersBase
  m_cdr : ByteData
  m_cdrLittleEndian : Bool
  trace : List InEvent

/-- `m_listeners->notifyIn(type, m_profile, data)`, the call made by the
inline helpers `onBufferWrite`, `onBufferFull`, `onBufferWriteTimeout`,
`onReceived`, `onReceiverFull`, `onReceiverTimeout`, `onReceiverError` of the
providers. -/
def InPortProvider.notifyIn (st : InPortProvider)
    (type : ConnectorDataListenerType) (data : ByteData) :
    Except Fault InPortProvider :=
  match st.m_listeners with
  | none => .error .nullPointer
  | some _ => .ok { st with trace := st.trace ++ [InEvent.notifyIn type data] }

/-- `InPortCorbaCdrProvider::convertReturn`
(InPortCorbaCdrProvider.cpp:191-228). -/
def InPortCorbaCdrProvider.convertReturn (st : InPortProvider)
    (status : BufferStatus) (data : ByteData) :
    Except Fault (PortStatus × InPortProvider) :=
  match status with
  | .OK =>
    (st.notifyIn .ON_BUFFER_WRITE data).map (fun st1 => (.PORT_OK, st1))
  | .BUFFER_ERROR =>
    (st.notifyIn .ON_RECEIVER_ERROR data).map (fun st1 => (.PORT_ERROR, st1))
  | .FULL =>
    match st.notifyIn .ON_BUFFER_FULL data with
    | .error e => .error e
    | .ok st1 =>
      (st1.notifyIn .ON_RECEIVER_FULL data).map (fun st2 => (.BUFFER_FULL, st2))
  | .EMPTY => .ok (.BUFFER_EMPTY, st)
  | .PRECONDITION_NOT_MET =>
    (st.notifyIn .ON_RECEIVER_ERROR data).map (fun st1 => (.PORT_ERROR, st1))
  | .TIMEOUT =>
    match st.notifyIn .ON_BUFFER_WRITE_TIMEOUT data with
    | .error e => .error e
    | .ok st1 =>
      (st1.notifyIn .ON_RECEIVER_TIMEOUT data).map
        (fun st2 => (.BUFFER_TIMEOUT, st2))
  | .NOT_SUPPORTED => .ok (.UNKNOWN_ERROR, st)
  | .unnamed _ => .ok (.UNKNOWN_ERROR, st)

/-- `InPortCorbaCdrProvider::put` (InPortCorbaCdrProvider.cpp:147-182). -/
def InPortCorbaCdrProvider.put (st : InPortProvider) (data : ByteData) :
    Except Fault (PortStatus × InPortProvider) :=
  match st.m_connector with
  | none =>
    let st1 := { st with m_cdr := data }
    (st1.notifyIn .ON_RECEIVER_ERROR st1.m_cdr).map (fun st2 => (.PORT_ERROR, st2))
  | some conn =>
    let st1 := { st with m_cdrLittleEndian := conn.littleEndian, m_cdr := data }
    match st1.notifyIn .ON_RECEIVED st1.m_cdr with
    | .error e => .error e
    | .ok st2 =>
      let r := conn.write st2.m_cdr
      InPortCorbaCdrProvider.convertReturn
        { st2 with
            m_connector := some r.2
            trace := st2.trace ++ [InEvent.connectorWrite st2.m_cdr r.1] }
        r.1 st2.m_cdr

/-- `InPortDSProvider::convertReturn` (InPortDSProvider.cpp:189-225). -/
def InPortDSProvider.convertReturn (st : InPortProvider)
    (status : BufferStatus) (data : ByteData) :
    Except Fault (PortStatus × InPortProvider) :=
  match status with
  | .OK =>
    (st.notifyIn .ON_BUFFER_WRITE data).map (fun st1 => (.PORT_OK, st1))
  | .BUFFER_ERROR =>
    (st.notifyIn .ON_RECEIVER_ERROR data).map (fun st1 => (.PORT_ERROR, st1))
  | .FULL =>
    match st.notifyIn .ON_BUFFER_FULL data with
    | .error e => .error e
    | .ok st1 =>
      (st1.notifyIn .ON_RECEIVER_FULL data).map (fun st2 => (.BUFFER_FULL, st2))
  | .EMPTY => .ok (.BUFFER_EMPTY, st)
  | .PRECONDITION_NOT_MET =>
    (st.notifyIn .ON_RECEIVER_ERROR data).map (fun st1 => (.PORT_ERROR, st1))
  | .TIMEOUT =>
    match st.notifyIn .ON_BUFFER_WRITE_TIMEOUT data with
    | .error e => .error e
    | .ok st1 =>
      (st1.notifyIn .ON_RECEIVER_TIMEOUT data).map
        (fun st2 => (.BUFFER_TIMEOUT, st2))
  | .NOT_SUPPORTED => .ok (.UNKNOWN_ERROR, st)
  | .unnamed _ => .ok (.UNKNOWN_ERROR, st)

/-- `InPortDSProvider::push` (InPortDSProvider.cpp:146-181). -/
def InPortDSProvider.push (st : InPortProvider) (data : ByteData) :
    Except Fault (PortStatus × InPortProvider) :=
  match st.m_connector with
  | none =>
    let st1 := { st with m_cdr := data }
    (st1.notifyIn .ON_RECEIVER_ERROR st1.m_cdr).map (fun st2 => (.PORT_ERROR, st2))
  | some conn =>
    let st1 := { st with m_cdrLittleEndian := conn.littleEndian, m_cdr := data }
    match st1.notifyIn .ON_RECEIVED st1.m_cdr with
    | .error e => .error e
    | .ok st2 =>
      let r := conn.write st2.m_cdr
      InPortDSProvider.convertReturn
        { st2 with
            m_connector := some r.2
            trace := st2.trace ++ [InEvent.connectorWrite st2.m_cdr r.1] }
        r.1 st2.m_cdr

/-- What the remote call `_ptr()->get(cdr_data.out())` does: it returns a
status with the data, or it throws. -/
inductive RemoteReply
  | returned (ret : PortStatus) (cdr : ByteData)
  | raised

/-- Behaviour of the collaborators during one `get`: the reply of the remote
object, and for every other call inside the `try` block whether it throws. -/
structure GetEnv where
  reply : RemoteReply
  raises : GetStep → Bool

/-- The part of the buffer interface (`CdrBufferBase`) used by the OutPort
consumer: `full()`, `put(data)`, `advanceWptr()`, `advanceRptr()`. -/
structure CdrBufferPut (β : Type) where
  full : β → Bool
  put : β → ByteData → β
  advanceWptr : β → β
  advanceRptr : β → β

/-- State of an `OutPortCorbaCdrConsumer`: buffer, listener registry, the
caller's `data` argument of `get`, and the trace of calls made. -/
structure OutPortCorbaCdrConsumer (β : Type) where
  m_buffer : Option β
  m_listeners : Option ConnectorListenersBase
  data : ByteData
  trace : List InEvent

/-- How the `try` block of `get` is left: by a `return`, or by an exception. -/
inductive Tried (σ : Type)
  | returned (ret : DataPortStatus) (st : σ)
  | raised (st : σ)

namespace OutPortCorbaCdrConsumer

variable {β : Type}

/-- A call on the listener registry inside the `try` block:
`m_listeners->notifyIn(type, m_profile, data)`, which throws when the
environment says so, followed by the rest `k` of the block. -/
def notifyIn (env : GetEnv) (step : GetStep) (type : ConnectorDataListenerType)
    (data : ByteData) (st : OutPortCorbaCdrConsumer β)
    (k : OutPortCorbaCdrConsumer β →
      Except Fault (Tried (OutPortCorbaCdrConsumer β))) :
    Except Fault (Tried (OutPortCorbaCdrConsumer β)) :=
  match st.m_listeners with
  | none => .error .nullPointer
  | some _ =>
    if env.raises step then
      .ok (.raised { st with trace := st.trace ++ [InEvent.raised step] })
    else k { st with trace := st.trace ++ [InEvent.notifyIn type data] }

/-- A call `m_listeners->notify(type, m_profile)` inside the `try` block (the
helpers `onSenderError`, `onSenderEmpty`, `onSenderTimeout`). -/
def notify (env : GetEnv) (step : GetStep) (type : ConnectorListenerType)
    (st : OutPortCorbaCdrConsumer β)
    (k : OutPortCorbaCdrConsumer β →
      Except Fault (Tried (OutPortCorbaCdrConsumer β))) :
    Except Fault (Tried (OutPortCorbaCdrConsumer β)) :=
  match st.m_listeners with
  | none => .error .nullPointer
  | some _ =>
    if env.raises step then
      .ok (.raised { st with trace := st.trace ++ [InEvent.raised step] })
    else k { st with trace := st.trace ++ [InEvent.notify type] }

/-- A call on the buffer inside the `try` block: `op` applied to `*m_buffer`,
which throws when the environment says so, followed by the rest `k`. -/
def onBuffer (env : GetEnv) (step : GetStep) (st : OutPortCorbaCdrConsumer β)
    (k : β → OutPortCorbaCdrConsumer β →
      Except Fault (Tried (OutPortCorbaCdrConsumer β))) :
    Except Fault (Tried (OutPortCorbaCdrConsumer β)) :=
  match st.m_buffer with
  | none => .error .nullPointer
  | some buf =>
    if env.raises step then
      .ok (.raised { st with trace := st.trace ++ [InEvent.raised step] })
    else k buf st

/-- `OutPortCorbaCdrConsumer::convertReturn`
(OutPortCorbaCdrConsumer.cpp:230-270), called inside the `try` block. -/
def convertReturn (env : GetEnv) (st : OutPortCorbaCdrConsumer β)
    (status : PortStatus) :
    Except Fault (Tried (OutPortCorbaCdrConsumer β)) :=
  match status with
  | .PORT_OK => .ok (.returned .PORT_OK st)
  | .PORT_ERROR =>
    notify env .onSenderError .ON_SENDER_ERROR st
      (fun st1 => .ok (.returned .PORT_ERROR st1))
  | .BUFFER_FULL => .ok (.returned .BUFFER_FULL st)
  | .BUFFER_EMPTY =>
    notify env .onSenderEmpty .ON_SENDER_EMPTY st
      (fun st1 => .ok (.returned .BUFFER_EMPTY st1))
  | .BUFFER_TIMEOUT =>
    notify env .onSenderTimeout .ON_SENDER_TIMEOUT st
      (fun st1 => .ok (.returned .BUFFER_TIMEOUT st1))
  | .UNKNOWN_ERROR =>
    notify env .onSenderError .ON_SENDER_ERROR st
      (fun st1 => .ok (.returned .UNKNOWN_ERROR st1))
  | .unnamed _ =>
    notify env .onSenderError .ON_SENDER_ERROR st
      (fun st1 => .ok (.returned .UNKNOWN_ERROR st1))

/-- The `try` block of `OutPortCorbaCdrConsumer::get`
(OutPortCorbaCdrConsumer.cpp:101-134). -/
def getTry (B : CdrBufferPut β) (env : GetEnv) (st : OutPortCorbaCdrConsumer β) :
    Except Fault (Tried (OutPortCorbaCdrConsumer β)) :=
  match env.reply with
  | .raised =>
    .ok (.raised { st with trace := st.trace ++ [InEvent.raised .remoteGet] })
  | .returned ret cdr =>
    let st1 := { st with trace := st.trace ++ [InEvent.remoteGet ret] }
    if ret = .PORT_OK then
      if env.raises .writeData then
        .ok (.raised { st1 with trace := st1.trace ++ [InEvent.raised .writeData] })
      else
        let st2 := { st1 with data := cdr }
        notifyIn env .onReceived .ON_RECEIVED st2.data st2 fun st3 =>
        notifyIn env .onBufferWrite .ON_BUFFER_WRITE st3.data st3 fun st4 =>
        onBuffer env .bufferFull st4 fun buf st5 =>
        let rest := fun (st6 : OutPortCorbaCdrConsumer β) =>
          onBuffer env .bufferPut st6 fun buf1 st7 =>
          let st8 :=
            { st7 with
                m_buffer := some (B.put buf1 st7.data)
                trace := st7.trace ++ [InEvent.bufferPut st7.data] }
          onBuffer env .advanceWptr st8 fun buf2 st9 =>
          onBuffer env .advanceRptr { st9 with m_buffer := some (B.advanceWptr buf2) }
            fun buf3 st10 =>
            .ok (.returned .PORT_OK
              { st10 with m_buffer := some (B.advanceRptr buf3) })
        if B.full buf then
          notifyIn env .onBufferFull .ON_BUFFER_FULL st5.data st5 fun st6 =>
          notifyIn env .onReceiverFull .ON_RECEIVER_FULL st6.data st6 rest
        else rest st5
    else convertReturn env st1 ret

/-- `OutPortCorbaCdrConsumer::get` (OutPortCorbaCdrConsumer.cpp:94-141): the
`try` block, and `catch (...)` returning CONNECTION_LOST. -/
def get (B : CdrBufferPut β) (env : GetEnv) (st : OutPortCorbaCdrConsumer β) :
    Except Fault (DataPortStatus × OutPortCorbaCdrConsumer β) :=
  match getTry B env st with
  | .error e => .error e
  | .ok (.returned ret st1) => .ok (ret, st1)
  | .ok (.raised st1) => .ok (.CONNECTION_LOST, st1)

end OutPortCorbaCdrConsumer

/-- Modelled from the spec: `put(data)` of the Ring Buffer, storing a sample
in the slot at the write pointer (spec §4.1). -/
def RingBuffer.put (b : RingBuffer) (value : ByteData) : RingBuffer :=
  { b with slots := fun i => if i = b.m_wpos then value else b.slots i }

/-- Modelled from the spec: `advanceWptr()` of the Ring Buffer, by one slot;
refused when the buffer is full (spec §4.1). -/
def RingBuffer.advanceWptr (b : RingBuffer) : RingBuffer :=
  if b.m_fillcount < b.m_length then
    { b with
        m_wpos := (b.m_wpos + 1) % b.m_length
        m_fillcount := b.m_fillcount + 1 }
  else b

/-- The Ring Buffer as the buffer of an OutPort consumer. -/
def RingBuffer.putOps : CdrBufferPut RingBuffer :=
  { full := RingBuffer.full
    put := RingBuffer.put
    advanceWptr := RingBuffer.advanceWptr
    advanceRptr := fun b => b.advanceRptr 1 }

/-- Concrete instance: a consumer with listeners and an empty Ring Buffer of
capacity 4. -/
def consumerReady : OutPortCorbaCdrConsumer RingBuffer :=
  { m_buffer := some (RingBuffer.create 4 .do_nothing)
    m_listeners := some ()
    data := []
    trace := [] }

/-- An environment in which the remote object gives the reply `r` and no other
call throws. -/
def calmEnv (r : RemoteReply) : GetEnv :=
  { reply := r, raises := fun _ => false }

/-- A consumer state in the middle of `get`, `n` being the length of the trace
when `get` was entered: no call made since has thrown, and listeners and
buffer are set. -/
def OutPortCorbaCdrConsumer.Calm {β : Type} (n : Nat)
    (st : OutPortCorbaCdrConsumer β) : Prop :=
  n ≤ st.trace.length ∧ (∀ step, InEvent.raised step ∉ st.trace.drop n) ∧
    st.m_listeners = some () ∧ st.m_buffer.isSome = true

/-- Outcome of (a part of) the `try` block of `get` entered with a trace of
length `n`: it is left by a `return` of a status other than CONNECTION_LOST
with no call having thrown, or by an exception thrown by a recorded call. -/
def OutPortCorbaCdrConsumer.Caught {β : Type} (n : Nat)
    (res : Except Fault (Tried (OutPortCorbaCdrConsumer β))) : Prop :=
  ∃ t, res = .ok t ∧
    match t with
    | .returned r s =>
      r ≠ .CONNECTION_LOST ∧ ∀ step, InEvent.raised step ∉ s.trace.drop n
    | .raised s => ∃ step, InEvent.raised step ∈ s.trace.drop n

/-! ## Write-order delivery -/

/-- The samples for which the consumer's `put` returned PORT_OK, in call
order. -/
def okPuts : List Event → List ByteData
  | [] => []
  | Event.consumerPut d .PORT_OK :: es => d :: okPuts es
  | _ :: es => okPuts es

/-- Concrete scenario: the samples `[1]` and `[2]` are written, then two
delivery ticks run. -/
def twoWritesTwoTicks : List Op :=
  [Op.write [1] 0, Op.write [2] 0, Op.tick, Op.tick]

/-- Concrete instance: a publisher of the given policy with skip count 0 over
an empty Ring Buffer of capacity 4, whose consumer answers the first `put`
with PORT_OK, the second with PORT_ERROR and every later one with PORT_OK. -/
def secondPutFails (policy : Policy) : PublisherPeriodic RingBuffer :=
  configured policy 0 (scripted [.PORT_OK, .PORT_ERROR])
    (RingBuffer.create 4 .do_nothing)

/-- The samples written to the buffer and the samples whose `put` returned
PORT_OK during a run, when it returns. -/
def writtenAndOk {β : Type}
    (r : Except Fault (List DataPortStatus × PublisherPeriodic β)) :
    Option (List ByteData × List ByteData) :=
  (observe r).map (fun p => (bufferWrites p.2, okPuts p.2))

/-! ## coil: strings and Properties -/

/-- A `std::string`: the sequence of its characters. -/
abbrev Str := List Char

namespace coil

/-- Modelled from the spec: `coil::toLower` (declared in `stringutil.h:123`;
`stringutil.cpp` is not among the sources) converts the upper-case letters of
the string to lower case. -/
def toLower (str : Str) : Str :=
  str.map Char.toLower

/-- The blank characters of `stringutil.h:298-344`: space and tab. -/
def isBlank (c : Char) : Bool :=
  c == ' ' || c == '\t'

/-- Modelled from the spec: `coil::eraseHeadBlank` (`stringutil.h:298`) removes
the blank characters at the head of the string. -/
def eraseHeadBlank (str : Str) : Str :=
  str.dropWhile isBlank

/-- Modelled from the spec: `coil::eraseTailBlank` (`stringutil.h:322`) removes
the blank characters at the tail of the string. -/
def eraseTailBlank (str : Str) : Str :=
  (str.reverse.dropWhile isBlank).reverse

/-- Modelled from the spec: `coil::eraseBothEndsBlank` (`stringutil.h:344`)
removes the blank characters at the head and at the tail of the string. -/
def eraseBothEndsBlank (str : Str) : Str :=
  eraseTailBlank (eraseHeadBlank str)

/-- Modelled from the spec: `coil::normalize` (`stringutil.h:369`) removes the
blank characters at both ends and converts upper case to lower case. -/
def normalize (str : Str) : Str :=
  toLower (eraseBothEndsBlank str)

/-- Modelled from the spec: `coil::isEscaped` (`stringutil.h:172`): the
character at `pos` is escaped when an odd number of backslashes stands
immediately before it. -/
def isEscaped (str : Str) (pos : Nat) : Bool :=
  ((str.take pos).reverse.takeWhile (fun c => c == '\\')).length % 2 == 1

/-- A node of the property tree (`coil::Properties`): its name, its value, its
default value, whether a value has been set, and its children in insertion
order.  The pointer `root` to the parent, used only by the destructor, is not
part of the model; `m_empty` is the empty string. -/
inductive Properties
  | mk (name value default_value : Str) (set_value : Bool)
      (leaf : List Properties)

namespace Properties

/-- The member `name`. -/
def name : Properties → Str
  | mk n _ _ _ _ => n

/-- The member `value`. -/
def value : Properties → Str
  | mk _ v _ _ _ => v

/-- The member `default_value`. -/
def default_value : Properties → Str
  | mk _ _ d _ _ => d

/-- The member `set_value`. -/
def set_value : Properties → Bool
  | mk _ _ _ s _ => s

/-- The member `leaf`. -/
def leaf : Properties → List Properties
  | mk _ _ _ _ l => l

/-- `Properties::Properties(key, value, set_value)` (Properties.cpp:42-48), a
node without children; the default value is empty. -/
def create (key : Str) (in_value : Str) (in_set_value : Bool) : Properties :=
  mk key in_value [] (if in_value.isEmpty then in_set_value else true) []

/-- `Properties::hasKey` (Properties.cpp:547-557): the first child of that
name, or `nullptr`. -/
def hasKey (p : Properties) (key : Str) : Option Properties :=
  p.leaf.find? (fun prop => prop.name == key)

/-- The `while (end_it < len)` loop of `Properties::split`
(Properties.cpp:653-662) and the statement after it; the first argument is the
number `len - end_it` of iterations still to run. -/
def splitLoop (str : Str) (delim : Char) :
    Nat → Nat → Nat → List Str → List Str
  | 0, begin_it, end_it, value =>
    value ++ [(str.drop begin_it).take end_it]
  | n + 1, begin_it, end_it, value =>
    if str.getD end_it default == delim && !isEscaped str end_it then
      splitLoop str delim n (end_it + 1) (end_it + 1)
        (value ++ [(str.drop begin_it).take (end_it - begin_it)])
    else splitLoop str delim n begin_it (end_it + 1) value

/-- `Properties::split` (Properties.cpp:645-665): the returned flag and the
strings appended to `value`, which every caller passes in empty.
`str.substr(pos, count)` is `(str.drop pos).take count`. -/
def split (str : Str) (delim : Char) : Bool × List Str :=
  if str.isEmpty then (false, [])
  else (true, splitLoop str delim str.length 0 0 [])

/-- `Properties::_getNode(keys, index, curr)` (Properties.cpp:674-691), given
the keys from `index` on.  `keys[index]` with no key left is an access past the
end of the vector; `index < keys.size() - 1` says that a key is left after
`keys[index]`. -/
def _getNodeFrom : List Str → Properties → Except Fault (Option Properties)
  | [], _ => .error .outOfRange
  | key :: rest, curr =>
    match curr.hasKey key with
    | none => .ok none
    | some next =>
      if rest.length ≠ 0 then _getNodeFrom rest next
      else .ok (some next)

/-- `Properties::_getNode` (Properties.cpp:674-691). -/
def _getNode (keys : List Str) (index : Nat) (curr : Properties) :
    Except Fault (Option Properties) :=
  _getNodeFrom (keys.drop index) curr

/-- `Properties::getProperty(key)` (Properties.cpp:168-178); the `const`
`operator[]` (Properties.cpp:202-205) is this function. -/
def getProperty (p : Properties) (key : Str) : Except Fault Str :=
  match _getNode (split key '.').2 0 p with
  | .error e => .error e
  | .ok (some node) =>
    .ok (if node.set_value then node.value else node.default_value)
  | .ok none => .ok []

/-- `Properties::getProperty(key, def)` (Properties.cpp:187-193). -/
def getPropertyOr (p : Properties) (key : Str) (dflt : Str) : Except Fault Str :=
  match p.getProperty key with
  | .error e => .error e
  | .ok invalue => .ok (if invalue.isEmpty then dflt else invalue)

end Properties

end coil

/-! ## Double arithmetic

`createTask` computes the period of the task in `double`.  The type is IEEE 754
binary64: 53 significant binary digits, exponents of the unit in the last place
from -1074 to 971, results rounded to the nearest value, ties to the even one.
Only non-negative values occur, as the rate is positive where they are used. -/

/-- A finite, non-negative `double`: the number `mant * 2^exp`. -/
structure Binary64 where
  mant : Nat
  exp : Int
  deriving DecidableEq

namespace Binary64

/-- The power `2^k` for `k >= 0`, and 1 for a negative `k`. -/
def pow2 (k : Int) : Nat := 2 ^ k.toNat

/-- The least `j' >= j` with `n < 2^(2^j')`; the first argument bounds the
search and `n` itself is enough. -/
def levelOf : Nat → Nat → Nat → Nat
  | 0, _, j => j
  | fuel + 1, n, j => if n < 2 ^ 2 ^ j then j else levelOf fuel n (j + 1)

/-- The number of binary digits of an `n < 2^(2^j)`, by halving `2^j`. -/
def bitsBelow : Nat → Nat → Nat
  | 0, n => if n = 0 then 0 else 1
  | j + 1, n =>
    if n < 2 ^ 2 ^ j then bitsBelow j n else 2 ^ j + bitsBelow j (n / 2 ^ 2 ^ j)

/-- The number of binary digits of `n`: the least `k` with `n < 2^k`. -/
def bitLength (n : Nat) : Nat := bitsBelow (levelOf n n 0) n

/-- The exponent of `n/d`: the integer `e` with `2^e <= n/d < 2^(e+1)`, for
positive `n` and `d`. -/
def floorLog2 (n d : Nat) : Int :=
  let e0 : Int := (bitLength n : Int) - (bitLength d : Int)
  if n * pow2 (-e0) < d * pow2 e0 then e0 - 1 else e0

/-- The `double` nearest to `n/d` (`d > 0`), ties to even, which is the result
of an operation whose exact value is `n/d`; `none` stands for infinity.  The
unit in the last place is `2^s` with `s = e - 52` for the exponent `e` of
`n/d`, not below -1022 (subnormal values share the unit `2^-1074`). -/
def round (n d : Nat) : Option Binary64 :=
  if n = 0 then some ⟨0, -1074⟩
  else
    let e := max (floorLog2 n d) (-1022)
    let s := e - 52
    let N := n * pow2 (-s)
    let D := d * pow2 s
    let q := N / D
    let r := N % D
    let m := if 2 * r < D then q else if D < 2 * r then q + 1
      else if q % 2 = 0 then q else q + 1
    if 1023 < e ∨ (e = 1023 ∧ m = 2 ^ 53) then none else some ⟨m, s⟩

/-- The quotient `1.0 / x`; dividing by zero gives infinity. -/
def recip (x : Binary64) : Option Binary64 :=
  if x.mant = 0 then none else round (pow2 (-x.exp)) (x.mant * pow2 x.exp)

/-- The product `x * k` for a whole number `k` that is a `double` itself. -/
def mulNat (x : Binary64) (k : Nat) : Option Binary64 :=
  round (x.mant * k * pow2 x.exp) (pow2 (-x.exp))

/-- The conversion `static_cast<std::int64_t>(x)`: the value without its
fraction; `none` when that is not below `2^63`, where the conversion is
undefined. -/
def toInt64 (x : Binary64) : Option Int :=
  let v := x.mant * pow2 x.exp / pow2 (-x.exp)
  if v < 2 ^ 63 then some (v : Int) else none

/-- The rational number a `double` stands for. -/
def toRat (x : Binary64) : ℚ :=
  mkRat ((x.mant * pow2 x.exp : Nat) : Int) (pow2 (-x.exp))

end Binary64

/-- The count of `std::chrono::duration_cast<std::chrono::nanoseconds>(
std::chrono::duration<double>(1.0/hz))` for a rate `hz > 0`
(PublisherPeriodic.cpp:475-476).  `hz` is a `double`, so is `1.0/hz`, and the
cast from `double` seconds to 64-bit nanoseconds is
`static_cast<std::int64_t>(count * 1000000000.0)`: the quotient and the
product are each rounded to a `double`, then the fraction is dropped.  `none`
when the quotient or the product is infinite or the product is not below
`2^63`. -/
def periodCount (hz : ℚ) : Option Int :=
  (((Binary64.round hz.num.toNat hz.den).bind Binary64.recip).bind
    (fun x => x.mulNat 1000000000)).bind Binary64.toInt64

/-- The period in the claim's words: `1/hz` seconds truncated to whole
nanoseconds, in exact arithmetic. -/
def truncatedPeriod (hz : ℚ) : Int :=
  Int.tdiv (1000000000 * (hz.den : Int)) hz.num

/-! ## Initialisation of the publisher -/

/-- The conversions of the C++ standard library that `init` relies on.  A
`double` is modelled by the rational number it stands for.
`stringToInt` and `stringToDouble` are `coil::stringTo` (stringutil.h:674-683)
at `int` and `double`: the formatted extraction `s >> val` of a string stream,
`none` when it fails.  `toBool` is `coil::toBool` (stringutil.h:458), whose
code is not among the sources.  `periodOutOfRange hz` is the period that
results for the rate `hz` when `periodCount hz` is `none`: the conversion of
an infinite or too large `double` to the 64-bit count is undefined in C++, so
its outcome is left open. -/
structure Conversions where
  stringToInt : Str → Option Int
  stringToDouble : Str → Option ℚ
  toBool : Str → Str → Str → Bool → Bool
  periodOutOfRange : ℚ → Int

/-- The period that `createTask` passes to `setPeriod` for the rate `hz`
(PublisherPeriodic.cpp:475-476). -/
def Conversions.periodOf (conv : Conversions) (hz : ℚ) : Int :=
  (periodCount hz).getD (conv.periodOutOfRange hz)

/-- The task factory `RTC::PeriodicTaskFactory`: `createObject(id)` gives a
new task of the registered type `id`, or `nullptr`. -/
abbrev PeriodicTaskFactory := Str → Option PeriodicTask

/-- Modelled from the spec: `PeriodicTask::setPeriod` stores the period
(spec §4.3). -/
def PeriodicTask.setPeriod (t : PeriodicTask) (period : Int) : PeriodicTask :=
  { t with m_period := period }

/-- Modelled from the spec: `PeriodicTask::activate()` starts the thread of
the task, which is alive from then on (spec §4.3). -/
def PeriodicTask.activate (t : PeriodicTask) : PeriodicTask :=
  { t with m_alive := true }

/-- Modelled from the spec: `executionMeasure`, `executionMeasureCount`,
`periodicMeasure` and `periodicMeasureCount` (PeriodicTask.h:219-246) set the
options of the time measurement, which this model of the task does not carry;
period, alive flag and suspend flag stay as they are. -/
def PeriodicTask.executionMeasure (t : PeriodicTask) (_value : Bool) :
    PeriodicTask :=
  t

/-- See `PeriodicTask.executionMeasure`. -/
def PeriodicTask.executionMeasureCount (t : PeriodicTask) (_n : Int) :
    PeriodicTask :=
  t

/-- See `PeriodicTask.executionMeasure`. -/
def PeriodicTask.periodicMeasure (t : PeriodicTask) (_value : Bool) :
    PeriodicTask :=
  t

/-- See `PeriodicTask.executionMeasure`. -/
def PeriodicTask.periodicMeasureCount (t : PeriodicTask) (_n : Int) :
    PeriodicTask :=
  t

section PublisherInit

variable {β : Type}

/-- `PublisherPeriodic::setPushPolicy` (PublisherPeriodic.cpp:402-433). -/
def setPushPolicy (conv : Conversions) (st : PublisherPeriodic β)
    (prop : coil.Properties) : Except Fault (PublisherPeriodic β) :=
  match prop.getPropertyOr "publisher.push_policy".toList "new".toList with
  | .error e => .error e
  | .ok value =>
    let push_policy := coil.normalize value
    let st1 : PublisherPeriodic β :=
      if push_policy = "all".toList then
        { st with m_pushPolicy := .PUBLISHER_POLICY_ALL }
      else if push_policy = "fifo".toList then
        { st with m_pushPolicy := .PUBLISHER_POLICY_FIFO }
      else if push_policy = "skip".toList then
        { st with m_pushPolicy := .PUBLISHER_POLICY_SKIP }
      else if push_policy = "new".toList then
        { st with m_pushPolicy := .PUBLISHER_POLICY_NEW }
      else { st with m_pushPolicy := .PUBLISHER_POLICY_NEW }
    match prop.getPropertyOr "publisher.skip_count".toList "0".toList with
    | .error e => .error e
    | .ok skip_count =>
      let st2 : PublisherPeriodic β :=
        match conv.stringToInt skip_count with
        | some n => { st1 with m_skipn := n }
        | none => { st1 with m_skipn := 0 }
      .ok (if st2.m_skipn < 0 then { st2 with m_skipn := 0 } else st2)

/-- The rate read by `createTask` (PublisherPeriodic.cpp:462-469):
`publisher.push_rate` if it converts to a `double`, otherwise `push_rate` if
that one does; `none` when neither does. -/
def pushRate (conv : Conversions) (prop : coil.Properties) :
    Except Fault (Option ℚ) :=
  match prop.getProperty "publisher.push_rate".toList with
  | .error e => .error e
  | .ok s1 =>
    match conv.stringToDouble s1 with
    | some hz => .ok (some hz)
    | none =>
      match prop.getProperty "push_rate".toList with
      | .error e => .error e
      | .ok s2 => .ok (conv.stringToDouble s2)

/-- The measurement settings made by `createTask`
(PublisherPeriodic.cpp:478-493). -/
def setMeasurement (conv : Conversions) (prop : coil.Properties)
    (task : PeriodicTask) : Except Fault PeriodicTask :=
  match prop.getProperty "measurement.exec_time".toList with
  | .error e => .error e
  | .ok exec_time =>
    let task1 := task.executionMeasure
      (conv.toBool exec_time "enable".toList "disable".toList true)
    match prop.getProperty "measurement.exec_count".toList with
    | .error e => .error e
    | .ok exec_count =>
      let task2 :=
        match conv.stringToInt exec_count with
        | some ecount => task1.executionMeasureCount ecount
        | none => task1
      match prop.getProperty "measurement.period_time".toList with
      | .error e => .error e
      | .ok period_time =>
        let task3 := task2.periodicMeasure
          (conv.toBool period_time "enable".toList "disable".toList true)
        match prop.getProperty "measurement.period_count".toList with
        | .error e => .error e
        | .ok period_count =>
          match conv.stringToInt period_count with
          | some pcount => .ok (task3.periodicMeasureCount pcount)
          | none => .ok task3

/-- `PublisherPeriodic::createTask` (PublisherPeriodic.cpp:442-502).
`setTask` binds `svc` to the task, which is the delivery tick of `run`. -/
def createTask (conv : Conversions) (factory : PeriodicTaskFactory)
    (st : PublisherPeriodic β) (prop : coil.Properties) :
    Except Fault (Bool × PublisherPeriodic β) :=
  match prop.getPropertyOr "thread_type".toList "default".toList with
  | .error e => .error e
  | .ok thread_type =>
    let st1 := { st with m_task := factory thread_type }
    match st1.m_task with
    | none => .ok (false, st1)
    | some task =>
      match pushRate conv prop with
      | .error e => .error e
      | .ok none => .ok (false, st1)
      | .ok (some hz) =>
        if hz ≤ 0 then .ok (false, st1)
        else
          let task1 := task.setPeriod (conv.periodOf hz)
          match setMeasurement conv prop task1 with
          | .error e => .error e
          | .ok task2 =>
            .ok (true,
              { st1 with m_task := some task2.suspend.activate.suspend })

/-- `PublisherPeriodic::init` (PublisherPeriodic.cpp:78-89). -/
def init (conv : Conversions) (factory : PeriodicTaskFactory)
    (st : PublisherPeriodic β) (prop : coil.Properties) :
    Except Fault (DataPortStatus × PublisherPeriodic β) :=
  match setPushPolicy conv st prop with
  | .error e => .error e
  | .ok st1 =>
    match createTask conv factory st1 prop with
    | .error e => .error e
    | .ok (false, st2) => .ok (.INVALID_ARGS, st2)
    | .ok (true, st2) => .ok (.PORT_OK, st2)

end PublisherInit

/-! ## Operations of the publisher's interface -/

/-- An operation on an initialised publisher: one of the three setters,
`activate()`, `deactivate()`, a `write` by the producer, or one delivery tick
(`svc`) of the periodic task. -/
inductive PubOp (β : Type)
  | setConsumer (consumer : Option InPortConsumer)
  | setBuffer (buffer : Option β)
  | setListener (info : ConnectorInfo) (listeners : Option ConnectorListenersBase)
  | activate
  | deactivate
  | write (data : ByteData) (timeout : Int)
  | tick

/-- One operation; the status it returns, if any, is dropped. -/
def step {β : Type} (B : CdrBufferBase β) (fuel : Nat) :
    PubOp β → PublisherPeriodic β → Except Fault (PublisherPeriodic β)
  | .setConsumer consumer, st => .ok (setConsumer st consumer).2
  | .setBuffer buffer, st => .ok (setBuffer st buffer).2
  | .setListener info listeners, st => .ok (setListener st info listeners).2
  | .activate, st => .ok (activate st).2
  | .deactivate, st => .ok (deactivate st).2
  | .write data timeout, st => (write B st data timeout).map (fun r => r.2)
  | .tick, st => svc B fuel st

/-- A sequence of operations, from left to right. -/
def steps {β : Type} (B : CdrBufferBase β) (fuel : Nat) :
    List (PubOp β) → PublisherPeriodic β → Except Fault (PublisherPeriodic β)
  | [], st => .ok st
  | op :: ops, st =>
    match step B fuel op st with
    | .error e => .error e
    | .ok st1 => steps B fuel ops st1

/-- The task of the publisher exists and is running, that is, not
suspended. -/
def taskRunning {β : Type} (st : PublisherPeriodic β) : Bool :=
  match st.m_task with
  | none => false
  | some t => !t.m_suspend

/-- The number written by a non-empty string of decimal digits. -/
def plainNumber (s : Str) : Option Nat :=
  if s.isEmpty then none
  else if s.all Char.isDigit then
    some (s.foldl (fun n c => 10 * n + (c.toNat - 48)) 0)
  else none

/-- Concrete conversions for the examples: numbers are written as plain
decimal digits, `toBool` compares with the two given words, and an undefined
conversion to the 64-bit count gives the least 64-bit value (what the
conversion instruction of x86-64 yields). -/
def plainConversions : Conversions :=
  { stringToInt := fun s => (plainNumber s).map Int.ofNat
    stringToDouble := fun s => (plainNumber s).map (fun n => (n : ℚ))
    toBool := fun s yes no dflt =>
      if s = yes then true else if s = no then false else dflt
    periodOutOfRange := fun _ => -9223372036854775808 }

/-- The number written as decimal digits with at most one point, as the pair
of a numerator and a power of ten: `0.0000353` is `(353, 10000000)`. -/
def decimalNumber (s : Str) : Option (Nat × Nat) :=
  match s.dropWhile (fun c => c != '.') with
  | [] => (plainNumber s).map (fun n => (n, 1))
  | _ :: frac =>
    match plainNumber (s.takeWhile (fun c => c != '.')), plainNumber frac with
    | some a, some b => some (a * 10 ^ frac.length + b, 10 ^ frac.length)
    | _, _ => none

/-- Concrete conversions for the examples, as `plainConversions` except that
a rate may have a decimal point: the extraction stores the `double` nearest to
the number written, and fails when that is infinite. -/
def decimalConversions : Conversions :=
  { plainConversions with
    stringToDouble := fun s =>
      (decimalNumber s).bind (fun nd =>
        (Binary64.round nd.1 nd.2).map Binary64.toRat) }

/-- Concrete factory for the examples: only the type `default` is registered;
a new task has the initial values of `PeriodicTask.h:311-370`. -/
def defaultFactory : PeriodicTaskFactory :=
  fun id =>
    if id = "default".toList then
      some { m_period := 0, m_alive := false, m_suspend := false }
    else none

/-- A leaf of a property tree holding a set value. -/
def coil.Properties.entry (key value : String) : coil.Properties :=
  .mk key.toList value.toList [] true []

/-- Concrete configuration for the examples: `publisher.push_policy` is
`Skip` between blanks, `publisher.skip_count` is 2 and
`publisher.push_rate` is 100. -/
def skipConfig : coil.Properties :=
  .mk [] [] [] false
    [.mk "publisher".toList [] [] false
      [coil.Properties.entry "push_policy" " Skip ",
       coil.Properties.entry "skip_count" "2",
       coil.Properties.entry "push_rate" "100"]]

/-- Concrete configuration for the examples: only `publisher.push_rate`, 1000,
is given. -/
def rateConfig : coil.Properties :=
  .mk [] [] [] false
    [.mk "publisher".toList [] [] false
      [coil.Properties.entry "push_rate" "1000"]]

/-- Concrete configuration for the examples: only `publisher.push_rate`,
0.0000353, is given. -/
def slowRateConfig : coil.Properties :=
  .mk [] [] [] false
    [.mk "publisher".toList [] [] false
      [coil.Properties.entry "push_rate" "0.0000353"]]

/-- The rate `createTask` uses, from the values `s1` of `publisher.push_rate`
and `s2` of `push_rate`. -/
def rateOf (conv : Conversions) (s1 s2 : Str) : Option ℚ :=
  match conv.stringToDouble s1 with
  | some hz => some hz
  | none => conv.stringToDouble s2

/-- Concrete scenario: the publisher is wired by the three setters and one
sample is written, with no `activate()`. -/
def wireAndWrite : List (PubOp RingBuffer) :=
  [.setConsumer (some (scripted [])),
   .setBuffer (some (RingBuffer.create 4 .do_nothing)),
   .setListener { name := "", id := "" } (some ()),
   .write [1] 0]

/-- Concrete scenario: the publisher is wired and activated, one sample is
written and one delivery tick runs. -/
def wireActivateWriteTick : List (PubOp RingBuffer) :=
  [.setConsumer (some (scripted [])),
   .setBuffer (some (RingBuffer.create 4 .do_nothing)),
   .setListener { name := "", id := "" } (some ()),
   .activate, .write [1] 0, .tick]

/-- The state after `init` with the configuration `rateConfig` on a newly
constructed publisher, followed by `wireAndWrite`. -/
def writtenAfterInit : Except Fault (PublisherPeriodic RingBuffer) :=
  match init plainConversions defaultFactory (PublisherPeriodic.new RingBuffer)
      rateConfig with
  | .error e => .error e
  | .ok (_, st) => steps RingBuffer.ops 8 wireAndWrite st

/-! ## Skip cadence over several ticks -/

/-- The skip cadence in the spec's words (spec §4.4, policy skip): of the
samples `ds`, seen after `seen` samples that were skipped since the last
delivery, every `(skipn + 1)`-th is delivered, `skipn` being skipped before
each. -/
def everyNth (skipn : Nat) : Nat → List ByteData → List ByteData
  | _, [] => []
  | seen, d :: ds =>
    if skipn ≤ seen then d :: everyNth skipn 0 ds
    else everyNth skipn (seen + 1) ds

/-- The operations of a run in which the written samples are split into the
consecutive groups `chunks`: the writes of each group are followed by one
delivery tick. -/
def chunkOps (timeout : Int) : List (List ByteData) → List Op
  | [] => []
  | ch :: rest =>
    ch.map (fun d => Op.write d timeout) ++ [Op.tick] ++ chunkOps timeout rest

/-- Concrete instance: a `skip` publisher with skip count 2 over an empty Ring
Buffer of capacity 8 whose consumer always answers PORT_OK. -/
def skipTwo : PublisherPeriodic RingBuffer :=
  configured .PUBLISHER_POLICY_SKIP 2 (scripted [])
    (RingBuffer.create 8 .do_nothing)

/-- Concrete scenario: the samples `[0]` to `[8]` written in groups of two,
four, none and three, one delivery tick after each group. -/
def threeTicks : List (List ByteData) :=
  [[[0], [1]], [[2], [3], [4], [5]], [], [[6], [7], [8]]]

/-! ## coil::Properties: setting values -/

namespace coil.Properties

/-- `Properties::getDefault` (Properties.cpp:229-239). -/
def getDefault (p : Properties) (key : Str) : Except Fault Str :=
  match _getNode (split key '.').2 0 p with
  | .error e => .error e
  | .ok (some node) => .ok node.default_value
  | .ok none => .ok []

/-- The list of children with the first child named `k` replaced by `node`:
what an assignment through the pointer returned by `hasKey(k)` does to
`leaf`. -/
def replaceFirst (k : Str) (node : Properties) : List Properties → List Properties
  | [] => []
  | c :: cs => if c.name == k then node :: cs else c :: replaceFirst k node cs

/-- The loop `for (auto & k : keys)` shared by `setProperty` and `setDefault`
(Properties.cpp:254-266, 285-297), followed by the statements `f` on the node
`curr` reached: a child named `k` is entered, or created by
`new Properties(k.c_str())` and appended to `leaf`.  The result is what `f`
returns and the tree after the assignments. -/
def walk {α : Type} (f : Properties → α × Properties) :
    List Str → Properties → α × Properties
  | [], curr => f curr
  | k :: ks, curr =>
    match curr.hasKey k with
    | some next =>
      let r := walk f ks next
      (r.1, mk curr.name curr.value curr.default_value curr.set_value
        (replaceFirst k r.2 curr.leaf))
    | none =>
      let r := walk f ks (create k [] false)
      (r.1, mk curr.name curr.value curr.default_value curr.set_value
        (curr.leaf ++ [r.2]))

/-- `Properties::setProperty` (Properties.cpp:248-270): the returned string
and the tree afterwards. -/
def setProperty (p : Properties) (key : Str) (invalue : Str) : Str × Properties :=
  walk
    (fun curr =>
      (curr.value, mk curr.name invalue curr.default_value true curr.leaf))
    (split key '.').2 p

/-- `Properties::setDefault` (Properties.cpp:279-299): the returned string and
the tree afterwards. -/
def setDefault (p : Properties) (key : Str) (invalue : Str) : Str × Properties :=
  walk
    (fun curr =>
      (invalue, mk curr.name curr.value invalue curr.set_value curr.leaf))
    (split key '.').2 p

end coil.Properties

/-- Concrete instance: an empty property tree (a root without children). -/
def emptyConfig : coil.Properties :=
  coil.Properties.create [] [] false

/-! ## Retries and null pointers: concrete scenarios -/

/-- The `put` calls recorded in a trace, with the status each returned, in
call order. -/
def puts : List Event → List (ByteData × DataPortStatus)
  | [] => []
  | Event.consumerPut d r :: es => (d, r) :: puts es
  | _ :: es => puts es

/-- The `put` calls made during a run, when it returns. -/
def putsOf {β : Type}
    (r : Except Fault (List DataPortStatus × PublisherPeriodic β)) :
    Option (List (ByteData × DataPortStatus)) :=
  (observe r).map (fun p => puts p.2)

/-- Concrete scenario: the samples `[1]` to `[4]` are written, then `ticks`
delivery ticks run with no write in between. -/
def fourWritesThenTicks (ticks : Nat) : List Op :=
  [Op.write [1] 0, Op.write [2] 0, Op.write [3] 0, Op.write [4] 0] ++
    List.replicate ticks Op.tick

/-- Concrete instance: a publisher of the given policy with skip count 1 over
an empty Ring Buffer of capacity 8, whose consumer answers the `put`s with the
given statuses, in order, and every later one with PORT_OK. -/
def retryPublisher (policy : Policy) (answers : List DataPortStatus) :
    PublisherPeriodic RingBuffer :=
  configured policy 1 (scripted answers) (RingBuffer.create 8 .do_nothing)

/-- The three setters, called with objects that are not null. -/
def wire {β : Type} (c : InPortConsumer) (b : β) (info : ConnectorInfo) :
    List (PubOp β) :=
  [.setConsumer (some c), .setBuffer (some b), .setListener info (some ())]

/-! ## One delivery attempt -/

/-- The receiver-side listener of a failed `put`, in the words of the spec
(§4.4): ON_RECEIVER_FULL for SEND_FULL, ON_RECEIVER_TIMEOUT for SEND_TIMEOUT,
ON_RECEIVER_ERROR for everything else. -/
def receiverListener (ret : DataPortStatus) : ConnectorDataListenerType :=
  match ret with
  | .SEND_FULL => .ON_RECEIVER_FULL
  | .SEND_TIMEOUT => .ON_RECEIVER_TIMEOUT
  | _ => .ON_RECEIVER_ERROR

/-- The calls of one delivery attempt for the sample `d` whose `put` returned
`ret`, in the words of the spec (§4.4): ON_BUFFER_READ, ON_SEND, `put`, then
ON_RECEIVED when `ret` is PORT_OK and the one receiver-side listener
otherwise. -/
def attemptEvents (d : ByteData) (ret : DataPortStatus) : List Event :=
  [Event.notifyOut .ON_BUFFER_READ d, Event.notifyOut .ON_SEND d,
    Event.consumerPut d ret] ++
  (if ret = .PORT_OK then [Event.notifyOut .ON_RECEIVED d]
   else [Event.notifyOut (receiverListener ret) d])

/-! ## InPort -/

/-- Modelled from the spec: what `InPort` asks of a connector
(`InPortConnector.h` is not among the sources): `name()`,
`getBuffer()->readable()`, `getDirectData(value)` (a value when it returns
true) and `read(value)` (the status and the value it stores, if any).  The connector
answers as an oracle; what reading does inside the connector is not
modelled. -/
structure ConnectorView (α : Type) where
  name : String
  readable : Nat
  directData : Option α
  readStatus : DataPortStatus
  readValue : Option α

/-- What an operation of `InPort` did besides changing the port: the `OnRead`
callback was called, `OnReadConvert` was applied, or the connector of the
given index was asked for its buffer's `readable()`, for `getDirectData` or
for `read`. -/
inductive PortEvent
  | onRead
  | onReadConvert
  | readable (index : Nat)
  | getDirectData (index : Nat)
  | read (index : Nat)
  deriving DecidableEq

/-- State of an `InPort<DataType>` (InPort.h:843-866): `m_value` is the bound
variable, `m_OnRead` and `m_OnReadConvert` the callback pointers, `m_status`
the single entry of the status list, `m_connectors` the connectors of
`InPortBase`.  The effect of the `OnRead` callback is not modelled beyond the
event it leaves in `trace`. -/
structure InPort (α : Type) where
  m_name : String
  m_value : α
  m_OnRead : Option Unit
  m_OnReadConvert : Option (α → α)
  m_status : DataPortStatus
  m_directNewData : Bool
  m_connectors : List (ConnectorView α)
  trace : List PortEvent

namespace InPort

variable {α : Type}

/-- The constructor `InPort(name, value)` (InPort.h:116-134): no callbacks, no
direct data, and no connector yet. -/
def create (name : String) (value : α) : InPort α :=
  { m_name := name
    m_value := value
    m_OnRead := none
    m_OnReadConvert := none
    m_status := .PORT_OK
    m_directNewData := false
    m_connectors := []
    trace := [] }

/-- `InPort::setOnRead` (InPort.h:758-761). -/
def setOnRead (st : InPort α) (on_read : Option Unit) : InPort α :=
  { st with m_OnRead := on_read }

/-- `InPort::setOnReadConvert` (InPort.h:783-786). -/
def setOnReadConvert (st : InPort α) (on_rconvert : Option (α → α)) : InPort α :=
  { st with m_OnReadConvert := on_rconvert }

/-- `InPort::isNew()` (InPort.h:270-304). -/
def isNew (st : InPort α) : Bool × InPort α :=
  if st.m_directNewData = true then (true, st)
  else
    match st.m_connectors with
    | [] => (false, st)
    | con :: _ =>
      let r := con.readable
      let st1 := { st with trace := st.trace ++ [PortEvent.readable 0] }
      if 0 < r then (true, st1) else (false, st1)

/-- `InPort::isEmpty()` (InPort.h:394-420). -/
def isEmpty (st : InPort α) : Bool × InPort α :=
  if st.m_directNewData = true then (false, st)
  else
    match st.m_connectors with
    | [] => (true, st)
    | con :: _ =>
      let r := con.readable
      let st1 := { st with trace := st.trace ++ [PortEvent.readable 0] }
      if r = 0 then (true, st1) else (false, st1)

/-- `InPort::write(data)` (InPort.h:422-427). -/
def write (st : InPort α) (data : α) : InPort α :=
  { st with m_value := data, m_directNewData := true }

/-- The connector chosen by `read(name)` (InPort.h:552-573) with its index:
the first one for the empty name, otherwise the last one of that name. -/
def findConnector (st : InPort α) (name : String) :
    Option (Nat × ConnectorView α) :=
  if name.isEmpty then st.m_connectors.head?.map (fun con => (0, con))
  else
    (st.m_connectors.enum.filter (fun p => p.2.name == name)).getLast?

/-- `InPort::read(name)` (InPort.h:504-619). -/
def read (st : InPort α) (name : String) : Bool × InPort α :=
  let st1 :=
    match st.m_OnRead with
    | some _ => { st with trace := st.trace ++ [PortEvent.onRead] }
    | none => st
  if st1.m_directNewData = true then
    match st1.m_OnReadConvert with
    | some convert =>
      (true,
        { st1 with
            m_value := convert st1.m_value
            trace := st1.trace ++ [PortEvent.onReadConvert] })
    | none => (true, { st1 with m_directNewData := false })
  else
    match st1.m_connectors with
    | [] => (false, st1)
    | _ :: _ =>
      match findConnector st1 name with
      | none => (false, st1)
      | some (i, connector) =>
        let st2 := { st1 with trace := st1.trace ++ [PortEvent.getDirectData i] }
        match connector.directData with
        | some v => (true, { st2 with m_value := v })
        | none =>
          let ret := connector.readStatus
          let st3 :=
            { st2 with
                m_value := connector.readValue.getD st2.m_value
                trace := st2.trace ++ [PortEvent.read i]
                m_status := ret }
          if ret = .PORT_OK then
            match st3.m_OnReadConvert with
            | some convert =>
              (true,
                { st3 with
                    m_value := convert st3.m_value
                    trace := st3.trace ++ [PortEvent.onReadConvert] })
            | none => (true, st3)
          else (false, st3)

end InPort

/-- A trace in which no connector was consulted. -/
def noConnectorUse (evs : List PortEvent) : Prop :=
  ∀ i, PortEvent.readable i ∉ evs ∧ PortEvent.getDirectData i ∉ evs ∧
    PortEvent.read i ∉ evs

/-- Concrete instance: a port bound to a variable holding 0, without
connectors, whose `OnReadConvert` doubles the value. -/
def doublingPort : InPort Nat :=
  (InPort.create "in" 0).setOnReadConvert (some (fun v => 2 * v))

/-! ## The loop of the Periodic Task -/

/-- Modelled from the spec: `PeriodicTask.cpp` (the loop `svc`, `signal`) is
not among the sources.  The loop thread of a Periodic Task (spec §4.3, §5):
the task with its alive and suspend flags, whether `signal()` has released the
suspended loop for one iteration, and the number of invocations of the bound
callable so far. -/
structure TaskLoop where
  task : PeriodicTask
  released : Bool
  invocations : Nat
  deriving DecidableEq

namespace TaskLoop

/-- Modelled from the spec: a constructed task is idle (spec §3): not alive,
not suspended (`PeriodicTask.h:311-370`), the callable never invoked. -/
def create : TaskLoop :=
  { task := { m_period := 0, m_alive := false, m_suspend := false }
    released := false
    invocations := 0 }

/-- Modelled from the spec: `activate()` starts the background loop
(spec §4.3). -/
def activate (t : TaskLoop) : TaskLoop :=
  { t with task := t.task.activate }

/-- Modelled from the spec: `suspend()` pauses periodic firing; the loop
blocks until `resume()` or `signal()` wakes it (spec §4.3, §5). -/
def suspend (t : TaskLoop) : TaskLoop :=
  { t with task := t.task.suspend }

/-- Modelled from the spec: `resume()` returns the loop to Running
(spec §4.3). -/
def resume (t : TaskLoop) : TaskLoop :=
  { t with task := t.task.resume, released := false }

/-- Modelled from the spec: `signal()` is valid only while Suspended; it
releases the loop for exactly one iteration (spec §4.3). -/
def signal (t : TaskLoop) : TaskLoop :=
  if t.task.m_alive = true ∧ t.task.m_suspend = true then
    { t with released := true }
  else t

/-- Modelled from the spec: one turn of the loop thread (spec §4.3).  A
running loop invokes the callable; a suspended loop stays blocked unless
`signal()` released it, in which case it makes one iteration and suspends
again; a loop that is not alive does nothing. -/
def iterate (t : TaskLoop) : TaskLoop :=
  if t.task.m_alive = true then
    if t.task.m_suspend = true then
      if t.released = true then
        { t with released := false, invocations := t.invocations + 1 }
      else t
    else { t with invocations := t.invocations + 1 }
  else t

/-- The loop thread takes `n` turns with no call from another thread in
between. -/
def turns : Nat → TaskLoop → TaskLoop
  | 0, t => t
  | n + 1, t => turns n (iterate t)

/-- The Suspended state of spec §4.3: alive, suspended and not released. -/
def Suspended (t : TaskLoop) : Prop :=
  t.task.m_alive = true ∧ t.task.m_suspend = true ∧ t.released = false

end TaskLoop

/-! ## Theorems -/

section PublisherTheorems

variable {β : Type}

/-- C1: `write` returns PRECONDITION_NOT_MET as soon as one of the consumer,
the buffer and the listener registry is unset, and then leaves the whole
state — the trace of calls to buffer, listeners and consumer included —
exactly as it was. -/
theorem write_unset_precondition_not_met (B : CdrBufferBase β)
    (st : PublisherPeriodic β) (data : ByteData) (timeout : Int)
    (h : st.m_consumer = none ∨ st.m_buffer = none ∨ st.m_listeners = none) :
    write B st data timeout = .ok (.PRECONDITION_NOT_MET, st) := by
  unfold write
  rcases h with h | h | h
  · simp [h]
  · cases hc : st.m_consumer <;> simp [h]
  · cases hc : st.m_consumer <;> cases hb : st.m_buffer <;> simp [h]

theorem write_unset_precondition_not_met_witness :
    ((PublisherPeriodic.new RingBuffer).m_consumer = none ∨
      (PublisherPeriodic.new RingBuffer).m_buffer = none ∨
      (PublisherPeriodic.new RingBuffer).m_listeners = none) ∧
    write RingBuffer.ops (PublisherPeriodic.new RingBuffer) [65] 0 =
      .ok (.PRECONDITION_NOT_MET, PublisherPeriodic.new RingBuffer) :=
  ⟨Or.inl rfl,
    write_unset_precondition_not_met RingBuffer.ops
      (PublisherPeriodic.new RingBuffer) [65] 0 (Or.inl rfl)⟩

/-! ### Status mappings -/

theorem notifyOut_of_listeners (st : PublisherPeriodic β)
    (type : ConnectorDataListenerType) (data : ByteData)
    (hl : st.m_listeners = some ()) :
    notifyOut st type data =
      .ok { st with trace := st.trace ++ [Event.notifyOut type data] } := by
  simp [notifyOut, hl]

theorem notify_of_listeners (st : PublisherPeriodic β)
    (type : ConnectorListenerType) (hl : st.m_listeners = some ()) :
    notify st type = .ok { st with trace := st.trace ++ [Event.notify type] } := by
  simp [notify, hl]

theorem newEvents_append (st : PublisherPeriodic β) (st' : PublisherPeriodic β)
    (evs : List Event) (h : st'.trace = st.trace ++ evs) :
    newEvents st st' = evs := by
  simp [newEvents, h]

theorem newEvents_self (st : PublisherPeriodic β) : newEvents st st = [] := by
  simp [newEvents]

/-- C5: the write-path table of `convertReturn`.  With the listener registry
set, every `BufferStatus` yields exactly the listed `DataPortStatus`;
ON_BUFFER_FULL is notified for FULL and only for FULL,
ON_BUFFER_WRITE_TIMEOUT for TIMEOUT and only for TIMEOUT, and for every other
status nothing at all is notified. -/
theorem convertReturn_table (st : PublisherPeriodic β) (data : ByteData)
    (hl : st.m_listeners = some ()) :
    convertReturn st .OK data = .ok (.PORT_OK, st) ∧
    convertReturn st .BUFFER_ERROR data = .ok (.BUFFER_ERROR, st) ∧
    convertReturn st .FULL data =
      .ok (.BUFFER_FULL,
        { st with trace := st.trace ++ [Event.notifyOut .ON_BUFFER_FULL data] }) ∧
    convertReturn st .NOT_SUPPORTED data = .ok (.PORT_ERROR, st) ∧
    convertReturn st .TIMEOUT data =
      .ok (.BUFFER_TIMEOUT,
        { st with
            trace := st.trace ++ [Event.notifyOut .ON_BUFFER_WRITE_TIMEOUT data] }) ∧
    convertReturn st .PRECONDITION_NOT_MET data = .ok (.PRECONDITION_NOT_MET, st) ∧
    convertReturn st .EMPTY data = .ok (.PORT_ERROR, st) ∧
    (∀ raw, convertReturn st (.unnamed raw) data = .ok (.PORT_ERROR, st)) ∧
    (∀ status ret st', convertReturn st status data = .ok (ret, st') →
      (newEvents st st' = [Event.notifyOut .ON_BUFFER_FULL data] ↔ status = .FULL) ∧
      (newEvents st st' = [Event.notifyOut .ON_BUFFER_WRITE_TIMEOUT data] ↔
        status = .TIMEOUT) ∧
      (newEvents st st' = [] ↔ status ≠ .FULL ∧ status ≠ .TIMEOUT)) := by
  refine ⟨rfl, rfl, ?_, rfl, ?_, rfl, rfl, fun _ => rfl, ?_⟩
  · simp [convertReturn, notifyOut_of_listeners st _ _ hl, Except.map]
  · simp [convertReturn, notifyOut_of_listeners st _ _ hl, Except.map]
  · intro status ret st' h
    cases status <;>
      simp [convertReturn, notifyOut_of_listeners st _ _ hl, Except.map] at h <;>
      obtain ⟨-, rfl⟩ := h <;> simp [newEvents]

theorem convertReturn_table_witness :
    (oneSample .PORT_OK).m_listeners = some () ∧
    convertReturn (oneSample .PORT_OK) .FULL [66] =
      .ok (.BUFFER_FULL,
        { oneSample .PORT_OK with
            trace := (oneSample .PORT_OK).trace ++
              [Event.notifyOut .ON_BUFFER_FULL [66]] }) ∧
    convertReturn (oneSample .PORT_OK) .EMPTY [66] =
      .ok (.PORT_ERROR, oneSample .PORT_OK) :=
  ⟨rfl, (convertReturn_table (oneSample .PORT_OK) [66] rfl).2.2.1,
    (convertReturn_table (oneSample .PORT_OK) [66] rfl).2.2.2.2.2.2.1⟩

/-- C6: the delivery-path table of `invokeListener`.  With the listener
registry set, every status notifies exactly one receiver-side listener and
returns the listed status; every status other than PORT_ERROR, SEND_FULL,
SEND_TIMEOUT, CONNECTION_LOST and UNKNOWN_ERROR notifies ON_RECEIVER_ERROR and
returns PORT_ERROR; PORT_OK is never returned. -/
theorem invokeListener_table (st : PublisherPeriodic β) (data : ByteData)
    (hl : st.m_listeners = some ()) :
    invokeListener st .PORT_ERROR data =
      .ok (.PORT_ERROR,
        { st with trace := st.trace ++ [Event.notifyOut .ON_RECEIVER_ERROR data] }) ∧
    invokeListener st .SEND_FULL data =
      .ok (.SEND_FULL,
        { st with trace := st.trace ++ [Event.notifyOut .ON_RECEIVER_FULL data] }) ∧
    invokeListener st .SEND_TIMEOUT data =
      .ok (.SEND_TIMEOUT,
        { st with
            trace := st.trace ++ [Event.notifyOut .ON_RECEIVER_TIMEOUT data] }) ∧
    invokeListener st .CONNECTION_LOST data =
      .ok (.CONNECTION_LOST,
        { st with trace := st.trace ++ [Event.notifyOut .ON_RECEIVER_ERROR data] }) ∧
    invokeListener st .UNKNOWN_ERROR data =
      .ok (.UNKNOWN_ERROR,
        { st with trace := st.trace ++ [Event.notifyOut .ON_RECEIVER_ERROR data] }) ∧
    (∀ status, status ≠ .PORT_ERROR → status ≠ .SEND_FULL →
      status ≠ .SEND_TIMEOUT → status ≠ .CONNECTION_LOST →
      status ≠ .UNKNOWN_ERROR →
      invokeListener st status data =
        .ok (.PORT_ERROR,
          { st with
              trace := st.trace ++ [Event.notifyOut .ON_RECEIVER_ERROR data] })) ∧
    (∀ status ret st', invokeListener st status data = .ok (ret, st') →
      ret ≠ .PORT_OK ∧
      ∃ type, newEvents st st' = [Event.notifyOut type data] ∧
        (type = .ON_RECEIVER_ERROR ∨ type = .ON_RECEIVER_FULL ∨
          type = .ON_RECEIVER_TIMEOUT)) := by
  refine ⟨?_, ?_, ?_, ?_, ?_, ?_, ?_⟩
  · simp [invokeListener, notifyOut_of_listeners st _ _ hl, Except.map]
  · simp [invokeListener, notifyOut_of_listeners st _ _ hl, Except.map]
  · simp [invokeListener, notifyOut_of_listeners st _ _ hl, Except.map]
  · simp [invokeListener, notifyOut_of_listeners st _ _ hl, Except.map]
  · simp [invokeListener, notifyOut_of_listeners st _ _ hl, Except.map]
  · intro status h1 h2 h3 h4 h5
    cases status <;>
      simp_all [invokeListener, notifyOut_of_listeners st _ _ hl, Except.map]
  · intro status ret st' h
    cases status <;>
      simp [invokeListener, notifyOut_of_listeners st _ _ hl, Except.map] at h <;>
      obtain ⟨rfl, rfl⟩ := h <;> simp [newEvents]

theorem invokeListener_table_witness :
    (oneSample .PORT_OK).m_listeners = some () ∧
    invokeListener (oneSample .PORT_OK) .CONNECTION_LOST [65] =
      .ok (.CONNECTION_LOST,
        { oneSample .PORT_OK with
            trace := (oneSample .PORT_OK).trace ++
              [Event.notifyOut .ON_RECEIVER_ERROR [65]] }) ∧
    invokeListener (oneSample .PORT_OK) .PORT_OK [65] =
      .ok (.PORT_ERROR,
        { oneSample .PORT_OK with
            trace := (oneSample .PORT_OK).trace ++
              [Event.notifyOut .ON_RECEIVER_ERROR [65]] }) :=
  ⟨rfl, (invokeListener_table (oneSample .PORT_OK) [65] rfl).2.2.2.1,
    (invokeListener_table (oneSample .PORT_OK) [65] rfl).2.2.2.2.2.1 .PORT_OK
      (by decide) (by decide) (by decide) (by decide) (by decide)⟩

/-! ### Effect of the delivery steps on the state -/

theorem Extends.refl (st : PublisherPeriodic β) : Extends st st [] := by
  simp [Extends]

theorem Extends.trans {a b c : PublisherPeriodic β} {e1 e2 : List Event}
    (h1 : Extends a b e1) (h2 : Extends b c e2) : Extends a c (e1 ++ e2) := by
  obtain ⟨t1, l1, c1, b1, k1, p1, s1, a1, r1, d1, f1⟩ := h1
  obtain ⟨t2, l2, c2, b2, k2, p2, s2, a2, r2, d2, f2⟩ := h2
  refine ⟨?_, ?_, ?_, ?_, ?_, ?_, ?_, ?_, ?_, ?_, ?_⟩
  · rw [t2, t1, List.append_assoc]
  · rw [l2, l1]
  · rw [c2, c1]
  · rw [b2, b1]
  · rw [k2, k1]
  · rw [p2, p1]
  · rw [s2, s1]
  · rw [a2, a1]
  · rw [r2, r1]
  · rw [d2, d1]
  · rw [f2, f1]

theorem Extends.newEvents_eq {a b : PublisherPeriodic β} {evs : List Event}
    (h : Extends a b evs) : newEvents a b = evs :=
  newEvents_append a b evs h.1

theorem Extends.wired_iff {a b : PublisherPeriodic β} {evs : List Event}
    (h : Extends a b evs) : Wired b ↔ Wired a := by
  obtain ⟨-, l1, c1, b1, -⟩ := h
  simp [Wired, l1, c1, b1]

theorem notifyOut_ok {st st' : PublisherPeriodic β}
    {type : ConnectorDataListenerType} {data : ByteData}
    (h : notifyOut st type data = .ok st') :
    st.m_listeners = some () ∧
      st' = { st with trace := st.trace ++ [Event.notifyOut type data] } := by
  unfold notifyOut at h
  cases hl : st.m_listeners with
  | none => simp [hl] at h
  | some l =>
    simp [hl] at h
    exact ⟨rfl, h.symm⟩

theorem notifyOut_extends {st st' : PublisherPeriodic β}
    {type : ConnectorDataListenerType} {data : ByteData}
    (h : notifyOut st type data = .ok st') :
    Extends st st' [Event.notifyOut type data] := by
  obtain ⟨-, rfl⟩ := notifyOut_ok h
  simp [Extends]

theorem notify_extends {st st' : PublisherPeriodic β}
    {type : ConnectorListenerType} (h : notify st type = .ok st') :
    Extends st st' [Event.notify type] := by
  unfold notify at h
  cases hl : st.m_listeners with
  | none => simp [hl] at h
  | some l =>
    simp [hl] at h
    subst h
    simp [Extends, hl]

theorem advanceRptr_extends {B : CdrBufferBase β} {st st' : PublisherPeriodic β}
    {n : Int} (h : advanceRptr B st n = .ok st') : Extends st st' [] := by
  unfold advanceRptr at h
  cases hb : st.m_buffer with
  | none => simp [hb] at h
  | some buf =>
    simp [hb] at h
    subst h
    simp [Extends, hb]

theorem invokeListener_extends {st st' : PublisherPeriodic β}
    {status ret : DataPortStatus} {data : ByteData}
    (h : invokeListener st status data = .ok (ret, st')) :
    ∃ type, Extends st st' [Event.notifyOut type data] := by
  cases hn : notifyOut st .ON_RECEIVER_ERROR data with
  | error e =>
    unfold notifyOut at hn
    cases hl : st.m_listeners with
    | none => cases status <;> simp [invokeListener, notifyOut, hl, Except.map] at h
    | some l => simp [hl] at hn
  | ok st1 =>
    obtain ⟨hl, -⟩ := notifyOut_ok hn
    cases status <;>
      simp [invokeListener, notifyOut_of_listeners st _ _ hl, Except.map] at h <;>
      obtain ⟨-, rfl⟩ := h <;>
      exact ⟨_, rfl, rfl, rfl, rfl, rfl, rfl, rfl, rfl, rfl, rfl, rfl⟩

theorem getAndPut_ok {B : CdrBufferBase β} {st st' : PublisherPeriodic β}
    {cdr : ByteData} {ret : DataPortStatus}
    (h : getAndPut B st = .ok (cdr, ret, st')) :
    ∃ buf c, st.m_buffer = some buf ∧ st.m_consumer = some c ∧
      st.m_listeners = some () ∧ cdr = B.get buf ∧ ret = c.results c.calls ∧
      st' = { st with
                m_consumer := some { c with calls := c.calls + 1 }
                trace := st.trace ++
                  [Event.notifyOut .ON_BUFFER_READ (B.get buf),
                   Event.notifyOut .ON_SEND (B.get buf),
                   Event.consumerPut (B.get buf) (c.results c.calls)] } := by
  unfold getAndPut at h
  cases hb : st.m_buffer with
  | none => simp [hb] at h
  | some buf =>
    cases hl : st.m_listeners with
    | none => simp [hb, notifyOut, hl] at h
    | some l =>
      cases hc : st.m_consumer with
      | none => simp [hb, notifyOut, hl, hc] at h
      | some c =>
        simp [hb, notifyOut, hl, hc, InPortConsumer.put] at h
        obtain ⟨rfl, rfl, rfl⟩ := h
        exact ⟨buf, c, rfl, rfl, rfl, rfl, rfl, by simp⟩

theorem getAndPut_extends {B : CdrBufferBase β} {st st' : PublisherPeriodic β}
    {cdr : ByteData} {ret : DataPortStatus}
    (h : getAndPut B st = .ok (cdr, ret, st')) :
    Wired st ∧
      Extends st st'
        [Event.notifyOut .ON_BUFFER_READ cdr, Event.notifyOut .ON_SEND cdr,
         Event.consumerPut cdr ret] := by
  obtain ⟨buf, c, hb, hc, hl, rfl, rfl, rfl⟩ := getAndPut_ok h
  simp [Wired, Extends, hb, hc, hl]

theorem bufferIsEmpty_extends {B : CdrBufferBase β} {st st' : PublisherPeriodic β}
    {e : Bool} (h : bufferIsEmpty B st = .ok (e, st')) :
    ∃ evs, Extends st st' evs ∧ ∀ d r, Event.consumerPut d r ∉ evs := by
  unfold bufferIsEmpty at h
  cases hb : st.m_buffer with
  | none => simp [hb] at h
  | some buf =>
    simp only [hb] at h
    split at h
    · cases h1 : notify st .ON_BUFFER_EMPTY with
      | error e1 => simp [h1] at h
      | ok st1 =>
        cases h2 : notify st1 .ON_SENDER_EMPTY with
        | error e2 => simp [h1, h2] at h
        | ok st2 =>
          simp [h1, h2] at h
          obtain ⟨-, rfl⟩ := h
          exact ⟨_, (notify_extends h1).trans (notify_extends h2), by simp⟩
    · simp at h
      obtain ⟨-, rfl⟩ := h
      exact ⟨[], Extends.refl _, by simp⟩

/-! ### Summary of a push function's run -/

theorem TickSummary.of_no_put {st st' : PublisherPeriodic β} {evs : List Event}
    {ret : DataPortStatus} (he : Extends st st' evs)
    (hno : ∀ d r, Event.consumerPut d r ∉ evs)
    (hret : ret = .PORT_OK ∨ ret = .BUFFER_EMPTY) : TickSummary st ret st' := by
  refine ⟨evs, he, ?_, ?_⟩
  · intro d r hin
    exact absurd hin (hno d r)
  · intro h1 h2
    rcases hret with h | h
    · exact absurd h h1
    · exact absurd h h2

theorem TickSummary.prepend {st st1 st' : PublisherPeriodic β} {e1 : List Event}
    {ret : DataPortStatus} (he : Extends st st1 e1)
    (hok : ∀ d r, Event.consumerPut d r ∈ e1 → Wired st ∧ r = .PORT_OK)
    (hs : TickSummary st1 ret st') : TickSummary st ret st' := by
  obtain ⟨evs2, he2, hput, hret⟩ := hs
  refine ⟨e1 ++ evs2, he.trans he2, ?_, ?_⟩
  · intro d r hin
    rcases List.mem_append.mp hin with h | h
    · obtain ⟨hw, hr⟩ := hok d r h
      exact ⟨hw, fun hne => absurd hr hne⟩
    · obtain ⟨hw, hr⟩ := hput d r h
      exact ⟨he.wired_iff.mp hw, hr⟩
  · intro h1 h2
    obtain ⟨d, r, hin, hr⟩ := hret h1 h2
    exact ⟨d, r, List.mem_append.mpr (Or.inr hin), hr⟩

theorem TickSummary.fail {st st2 st' : PublisherPeriodic β} {e : List Event}
    {cdr : ByteData} {r ret : DataPortStatus} (hw : Wired st)
    (he : Extends st st2 e)
    (honly : ∀ d r', Event.consumerPut d r' ∈ e → d = cdr ∧ r' = r)
    (hin : Event.consumerPut cdr r ∈ e) (hr : r ≠ .PORT_OK)
    (hinv : invokeListener st2 r cdr = .ok (ret, st')) :
    TickSummary st ret st' := by
  obtain ⟨type, he2⟩ := invokeListener_extends hinv
  refine ⟨e ++ [Event.notifyOut type cdr], he.trans he2, ?_, ?_⟩
  · intro d r' hmem
    rcases List.mem_append.mp hmem with h | h
    · obtain ⟨rfl, rfl⟩ := honly d r' h
      exact ⟨hw, fun _ => ⟨st2, hinv⟩⟩
    · simp at h
  · intro _ _
    exact ⟨cdr, r, List.mem_append.mpr (Or.inl hin), hr⟩

theorem pushAllLoop_summary (B : CdrBufferBase β) (fuel : Nat) :
    ∀ (st st' : PublisherPeriodic β) (ret : DataPortStatus),
      pushAllLoop B fuel st = .ok (ret, st') → TickSummary st ret st' := by
  induction fuel with
  | zero =>
    intro st st' ret h
    simp [pushAllLoop] at h
  | succ fuel ih =>
    intro st st' ret h
    unfold pushAllLoop at h
    cases hb : st.m_buffer with
    | none => simp [hb] at h
    | some buf =>
      simp only [hb] at h
      split at h
      · cases hg : getAndPut B st with
        | error e => simp [hg] at h
        | ok res =>
          obtain ⟨cdr, r, st1⟩ := res
          simp only [hg] at h
          obtain ⟨hw, he1⟩ := getAndPut_extends hg
          split at h
          · rename_i hr
            exact TickSummary.fail hw he1 (by simp) (by simp) hr h
          · rename_i hr
            have hr' : r = .PORT_OK := by simpa using hr
            cases hn : notifyOut st1 .ON_RECEIVED cdr with
            | error e => simp [hn] at h
            | ok st2 =>
              cases ha : advanceRptr B st2 1 with
              | error e => simp [hn, ha] at h
              | ok st3 =>
                simp only [hn, ha] at h
                have he3 := (he1.trans (notifyOut_extends hn)).trans
                  (advanceRptr_extends ha)
                refine TickSummary.prepend he3 ?_ (ih st3 st' ret h)
                intro d r' hin
                simp at hin
                exact ⟨hw, hin.2.trans hr'⟩
      · simp at h
        obtain ⟨rfl, rfl⟩ := h
        exact TickSummary.of_no_put (Extends.refl _) (by simp) (Or.inl rfl)

theorem pushAll_summary (B : CdrBufferBase β) (fuel : Nat)
    (st st' : PublisherPeriodic β) (ret : DataPortStatus)
    (h : pushAll B fuel st = .ok (ret, st')) : TickSummary st ret st' := by
  unfold pushAll at h
  cases hb : bufferIsEmpty B st with
  | error e => simp [hb] at h
  | ok res =>
    obtain ⟨e, st1⟩ := res
    obtain ⟨evs, he, hno⟩ := bufferIsEmpty_extends hb
    cases e with
    | true =>
      simp [hb] at h
      obtain ⟨rfl, rfl⟩ := h
      exact TickSummary.of_no_put he hno (Or.inr rfl)
    | false =>
      simp only [hb] at h
      exact TickSummary.prepend he (fun d r hin => absurd hin (hno d r))
        (pushAllLoop_summary B fuel st1 st' ret h)

theorem pushFifo_summary (B : CdrBufferBase β)
    (st st' : PublisherPeriodic β) (ret : DataPortStatus)
    (h : pushFifo B st = .ok (ret, st')) : TickSummary st ret st' := by
  unfold pushFifo at h
  cases hb : bufferIsEmpty B st with
  | error e => simp [hb] at h
  | ok res =>
    obtain ⟨e, st1⟩ := res
    obtain ⟨evs, he, hno⟩ := bufferIsEmpty_extends hb
    cases e with
    | true =>
      simp [hb] at h
      obtain ⟨rfl, rfl⟩ := h
      exact TickSummary.of_no_put he hno (Or.inr rfl)
    | false =>
      simp only [hb] at h
      refine TickSummary.prepend he (fun d r hin => absurd hin (hno d r)) ?_
      cases hg : getAndPut B st1 with
      | error e => simp [hg] at h
      | ok res =>
        obtain ⟨cdr, r, st2⟩ := res
        simp only [hg] at h
        obtain ⟨hw, he1⟩ := getAndPut_extends hg
        split at h
        · rename_i hr
          exact TickSummary.fail hw he1 (by simp) (by simp) hr h
        · rename_i hr
          have hr' : r = .PORT_OK := by simpa using hr
          cases hn : notifyOut st2 .ON_RECEIVED cdr with
          | error e => simp [hn] at h
          | ok st3 =>
            cases ha : advanceRptr B st3 1 with
            | error e => simp [hn, ha] at h
            | ok st4 =>
              simp [hn, ha] at h
              obtain ⟨rfl, rfl⟩ := h
              have he3 := (he1.trans (notifyOut_extends hn)).trans
                (advanceRptr_extends ha)
              refine ⟨_, he3, ?_, ?_⟩
              · intro d r' hin
                simp at hin
                exact ⟨hw, fun hne => absurd (hin.2.trans hr') hne⟩
              · intro h1
                exact absurd rfl h1

theorem pushNew_summary (B : CdrBufferBase β)
    (st st' : PublisherPeriodic β) (ret : DataPortStatus)
    (h : pushNew B st = .ok (ret, st')) : TickSummary st ret st' := by
  unfold pushNew at h
  cases hb : bufferIsEmpty B st with
  | error e => simp [hb] at h
  | ok res =>
    obtain ⟨e, st1⟩ := res
    obtain ⟨evs, he, hno⟩ := bufferIsEmpty_extends hb
    cases e with
    | true =>
      simp [hb] at h
      obtain ⟨rfl, rfl⟩ := h
      exact TickSummary.of_no_put he hno (Or.inr rfl)
    | false =>
      simp only [hb] at h
      refine TickSummary.prepend he (fun d r hin => absurd hin (hno d r)) ?_
      cases hbuf : st1.m_buffer with
      | none => simp [hbuf] at h
      | some buf =>
        simp only [hbuf] at h
        split at h
        · simp at h
        · rename_i st3 ha0
          have h13 : Extends st1 st3 ([] ++ []) :=
            Extends.trans (by simp [Extends, hbuf]) (advanceRptr_extends ha0)
          refine TickSummary.prepend h13 (by simp) ?_
          cases hg : getAndPut B st3 with
          | error e => simp [hg] at h
          | ok res =>
            obtain ⟨cdr, r, st4⟩ := res
            simp only [hg] at h
            obtain ⟨hw, he1⟩ := getAndPut_extends hg
            split at h
            · rename_i hr
              exact TickSummary.fail hw he1 (by simp) (by simp) hr h
            · rename_i hr
              have hr' : r = .PORT_OK := by simpa using hr
              cases hn : notifyOut st4 .ON_RECEIVED cdr with
              | error e => simp [hn] at h
              | ok st5 =>
                cases ha : advanceRptr B st5 1 with
                | error e => simp [hn, ha] at h
                | ok st6 =>
                  simp [hn, ha] at h
                  obtain ⟨rfl, rfl⟩ := h
                  have he3 := (he1.trans (notifyOut_extends hn)).trans
                    (advanceRptr_extends ha)
                  refine ⟨_, he3, ?_, ?_⟩
                  · intro d r' hin
                    simp at hin
                    exact ⟨hw, fun hne => absurd (hin.2.trans hr') hne⟩
                  · intro h1
                    exact absurd rfl h1

theorem pushSkipLoop_summary (B : CdrBufferBase β) (skipn : Nat) (k : Nat) :
    ∀ (postskip readable : Nat) (ret0 : DataPortStatus)
      (st : PublisherPeriodic β) (ex : SkipLoopExit (PublisherPeriodic β)),
      pushSkipLoop B skipn k postskip readable ret0 st = .ok ex →
      match ex with
      | .returned r st' => TickSummary st r st'
      | .finished _ ret st' =>
        (ret = ret0 ∨ ret = .PORT_OK) ∧
          ∃ evs, Extends st st' evs ∧
            ∀ d r, Event.consumerPut d r ∈ evs → Wired st ∧ r = .PORT_OK := by
  induction k with
  | zero =>
    intro postskip readable ret0 st ex h
    simp [pushSkipLoop] at h
    subst h
    exact ⟨Or.inl rfl, [], Extends.refl _, by simp⟩
  | succ k ih =>
    intro postskip readable ret0 st ex h
    unfold pushSkipLoop at h
    cases ha : advanceRptr B st (postskip : Int) with
    | error e => simp [ha] at h
    | ok st1 =>
      simp only [ha] at h
      have hea := advanceRptr_extends ha
      cases hg : getAndPut B st1 with
      | error e => simp [hg] at h
      | ok res =>
        obtain ⟨cdr, r, st2⟩ := res
        simp only [hg] at h
        obtain ⟨hw1, he1⟩ := getAndPut_extends hg
        have hw : Wired st := hea.wired_iff.mp hw1
        split at h
        · rename_i hr
          cases hb : advanceRptr B st2 (-(postskip : Int)) with
          | error e => simp [hb] at h
          | ok st3 =>
            simp only [hb] at h
            cases hi : invokeListener st3 r cdr with
            | error e => simp [hi] at h
            | ok res2 =>
              obtain ⟨r2, st4⟩ := res2
              simp [hi] at h
              subst h
              have he := (hea.trans he1).trans (advanceRptr_extends hb)
              exact TickSummary.fail hw he (by simp) (by simp) hr hi
        · rename_i hr
          have hr' : r = .PORT_OK := by simpa using hr
          cases hn : notifyOut st2 .ON_RECEIVED cdr with
          | error e => simp [hn] at h
          | ok st3 =>
            simp only [hn] at h
            have he3 := (hea.trans he1).trans (notifyOut_extends hn)
            have hok : ∀ d r', Event.consumerPut d r' ∈
                ([] ++ [Event.notifyOut .ON_BUFFER_READ cdr,
                  Event.notifyOut .ON_SEND cdr, Event.consumerPut cdr r] ++
                  [Event.notifyOut .ON_RECEIVED cdr]) →
                Wired st ∧ r' = .PORT_OK := by
              intro d r' hin
              simp at hin
              exact ⟨hw, hin.2.trans hr'⟩
            have hrec := ih (skipn + 1) (readable - postskip) r st3 ex h
            cases ex with
            | returned r2 st' => exact TickSummary.prepend he3 hok hrec
            | finished rd ret st' =>
              obtain ⟨hret, evs, he, hput⟩ := hrec
              refine ⟨?_, _, he3.trans he, ?_⟩
              · rcases hret with h1 | h1
                · exact Or.inr (h1.trans hr')
                · exact Or.inr h1
              · intro d r' hin
                rcases List.mem_append.mp hin with h1 | h1
                · exact hok d r' h1
                · obtain ⟨hw3, hr3⟩ := hput d r' h1
                  exact ⟨hw, hr3⟩

theorem pushSkip_summary (B : CdrBufferBase β)
    (st st' : PublisherPeriodic β) (ret : DataPortStatus)
    (h : pushSkip B st = .ok (ret, st')) : TickSummary st ret st' := by
  unfold pushSkip at h
  cases hb : bufferIsEmpty B st with
  | error e => simp [hb] at h
  | ok res =>
    obtain ⟨e, st1⟩ := res
    obtain ⟨evs, he, hno⟩ := bufferIsEmpty_extends hb
    cases e with
    | true =>
      simp [hb] at h
      obtain ⟨rfl, rfl⟩ := h
      exact TickSummary.of_no_put he hno (Or.inr rfl)
    | false =>
      simp only [hb] at h
      refine TickSummary.prepend he (fun d r hin => absurd hin (hno d r)) ?_
      cases hbuf : st1.m_buffer with
      | none => simp [hbuf] at h
      | some buf =>
        simp only [hbuf] at h
        split at h
        · simp at h
        · split at h
          · simp at h
          · cases hl : pushSkipLoop B st1.m_skipn.toNat
                ((B.readable buf + st1.m_leftskip) / (st1.m_skipn.toNat + 1))
                (st1.m_skipn.toNat - st1.m_leftskip) (B.readable buf)
                .PORT_OK st1 with
            | error e => simp [hl] at h
            | ok ex =>
              have hsum := pushSkipLoop_summary B _ _ _ _ _ _ _ hl
              cases ex with
              | returned r st2 =>
                simp [hl] at h
                obtain ⟨rfl, rfl⟩ := h
                exact hsum
              | finished rd r st2 =>
                simp only [hl] at h
                obtain ⟨hret, evs2, he2, hput⟩ := hsum
                cases ha : advanceRptr B st2 (rd : Int) with
                | error e => simp [ha] at h
                | ok st3 =>
                  simp [ha] at h
                  obtain ⟨rfl, rfl⟩ := h
                  have he3 : Extends st3
                      { st3 with m_leftskip :=
                          (B.readable buf + st1.m_leftskip) %
                            (st1.m_skipn.toNat + 1) } [] := by
                    simp [Extends]
                  have hev := (he2.trans (advanceRptr_extends ha)).trans he3
                  refine ⟨_, hev, ?_, ?_⟩
                  · intro d r' hin
                    simp at hin
                    obtain ⟨hw, hr⟩ := hput d r' hin
                    exact ⟨hw, fun hne => absurd hr hne⟩
                  · intro h1
                    rcases hret with h2 | h2
                    · exact absurd h2 h1
                    · exact absurd h2 h1

theorem push_summary (B : CdrBufferBase β) (fuel : Nat)
    (st st' : PublisherPeriodic β) (ret : DataPortStatus)
    (h : push B fuel st = .ok (ret, st')) : TickSummary st ret st' := by
  unfold push at h
  cases hp : st.m_pushPolicy <;> simp only [hp] at h
  · exact pushAll_summary B fuel st st' ret h
  · exact pushFifo_summary B st st' ret h
  · exact pushSkip_summary B st st' ret h
  · exact pushNew_summary B st st' ret h

/-! ### The recorded status and `write` -/

theorem svc_ok {B : CdrBufferBase β} {fuel : Nat} {st st' : PublisherPeriodic β}
    (h : svc B fuel st = .ok st') :
    ∃ ret st1, push B fuel st = .ok (ret, st1) ∧
      st' = { st1 with m_retcode := ret } := by
  unfold svc at h
  cases hp : push B fuel st with
  | error e => simp [hp] at h
  | ok res =>
    obtain ⟨ret, st1⟩ := res
    simp [hp] at h
    exact ⟨ret, st1, rfl, h.symm⟩

theorem invokeListener_connection_lost {st0 st1 : PublisherPeriodic β}
    {d : ByteData} {ret : DataPortStatus}
    (h : invokeListener st0 .CONNECTION_LOST d = .ok (ret, st1)) :
    ret = .CONNECTION_LOST := by
  cases hn : notifyOut st0 .ON_RECEIVER_ERROR d with
  | error e => simp [invokeListener, hn, Except.map] at h
  | ok st2 =>
    simp [invokeListener, hn, Except.map] at h
    exact h.1.symm

theorem write_of_connection_lost (B : CdrBufferBase β) (st : PublisherPeriodic β)
    (data : ByteData) (timeout : Int) (hw : Wired st)
    (hr : st.m_retcode = .CONNECTION_LOST) :
    write B st data timeout = .ok (.CONNECTION_LOST, st) := by
  obtain ⟨hc, hb, hl⟩ := hw
  unfold write
  cases hc' : st.m_consumer with
  | none => simp [hc'] at hc
  | some c =>
    cases hb' : st.m_buffer with
    | none => simp [hb'] at hb
    | some buf => simp [hl, hr]

theorem svc_connection_lost {B : CdrBufferBase β} {fuel : Nat}
    {st st' : PublisherPeriodic β} {d : ByteData}
    (htick : svc B fuel st = .ok st')
    (hlost : Event.consumerPut d .CONNECTION_LOST ∈ newEvents st st') :
    Wired st' ∧ st'.m_retcode = .CONNECTION_LOST := by
  obtain ⟨ret, st1, hp, rfl⟩ := svc_ok htick
  obtain ⟨evs, he, hput, -⟩ := push_summary B fuel st st1 ret hp
  have hev : newEvents st { st1 with m_retcode := ret } = evs :=
    newEvents_append _ _ _ he.1
  rw [hev] at hlost
  obtain ⟨hw, hinv⟩ := hput d _ hlost
  obtain ⟨st0, h0⟩ := hinv (by decide)
  have hret := invokeListener_connection_lost h0
  have hw1 : Wired st1 := he.wired_iff.mpr hw
  exact ⟨hw1, hret⟩

/-- C2: after a delivery tick (of whatever push policy) in which a `put` of
the consumer returned CONNECTION_LOST, the next `write` returns
CONNECTION_LOST and leaves the state as it was: the trace gains no call of the
buffer's `write`, no ON_BUFFER_WRITE notification and no `put`. -/
theorem write_after_connection_lost_tick (B : CdrBufferBase β) (fuel : Nat)
    (st st' : PublisherPeriodic β) (d data : ByteData) (timeout : Int)
    (htick : svc B fuel st = .ok st')
    (hlost : Event.consumerPut d .CONNECTION_LOST ∈ newEvents st st') :
    write B st' data timeout = .ok (.CONNECTION_LOST, st') := by
  obtain ⟨hw, hr⟩ := svc_connection_lost htick hlost
  exact write_of_connection_lost B st' data timeout hw hr

theorem write_after_connection_lost_tick_witness :
    svc RingBuffer.ops 2 (oneSample .CONNECTION_LOST) =
      .ok (oneSampleFailed .CONNECTION_LOST .ON_RECEIVER_ERROR) ∧
    Event.consumerPut [65] .CONNECTION_LOST ∈
      newEvents (oneSample .CONNECTION_LOST)
        (oneSampleFailed .CONNECTION_LOST .ON_RECEIVER_ERROR) ∧
    write RingBuffer.ops (oneSampleFailed .CONNECTION_LOST .ON_RECEIVER_ERROR)
        [66] 0 =
      .ok (.CONNECTION_LOST, oneSampleFailed .CONNECTION_LOST .ON_RECEIVER_ERROR) :=
  ⟨rfl, by decide,
    write_after_connection_lost_tick RingBuffer.ops 2
      (oneSample .CONNECTION_LOST)
      (oneSampleFailed .CONNECTION_LOST .ON_RECEIVER_ERROR) [65] [66] 0 rfl
      (by decide)⟩

/-- C3 (as stated, refuted): the first tick observes CONNECTION_LOST
from the consumer, the second tick retries the same sample and the consumer
accepts it, and the `write` that follows is carried out and returns PORT_OK,
not CONNECTION_LOST. -/
theorem connection_lost_cleared_by_later_tick :
    observe (run RingBuffer.ops 2 [Op.tick, Op.tick, Op.write [66] 0]
        (oneSample .CONNECTION_LOST)) =
      some ([DataPortStatus.PORT_OK],
        [Event.notifyOut .ON_BUFFER_READ [65],
         Event.notifyOut .ON_SEND [65],
         Event.consumerPut [65] .CONNECTION_LOST,
         Event.notifyOut .ON_RECEIVER_ERROR [65],
         Event.notifyOut .ON_BUFFER_READ [65],
         Event.notifyOut .ON_SEND [65],
         Event.consumerPut [65] .PORT_OK,
         Event.notifyOut .ON_RECEIVED [65],
         Event.notifyOut .ON_BUFFER_WRITE [66],
         Event.bufferWrite [66] 0 .OK]) := by
  decide

/-- C3 (amended): once a delivery tick has observed CONNECTION_LOST from the
consumer, every `write` made before the next delivery tick — however many
there are — returns CONNECTION_LOST and leaves the state unchanged; the next
delivery tick records the status its own push function returns, in place of
CONNECTION_LOST. -/
theorem writes_until_next_tick_connection_lost (B : CdrBufferBase β)
    (fuel : Nat) (st st' : PublisherPeriodic β) (d : ByteData)
    (ws : List (ByteData × Int))
    (htick : svc B fuel st = .ok st')
    (hlost : Event.consumerPut d .CONNECTION_LOST ∈ newEvents st st') :
    run B fuel (ws.map (fun w => Op.write w.1 w.2)) st' =
      .ok (List.replicate ws.length .CONNECTION_LOST, st') ∧
    ∀ st'', svc B fuel st' = .ok st'' →
      ∃ ret s1, push B fuel st' = .ok (ret, s1) ∧ st''.m_retcode = ret := by
  obtain ⟨hw, hr⟩ := svc_connection_lost htick hlost
  constructor
  · induction ws with
    | nil => rfl
    | cons w ws ih =>
      simp only [List.map_cons, run, write_of_connection_lost B st' w.1 w.2 hw hr,
        ih, List.length_cons, List.replicate_succ]
  · intro st'' h
    obtain ⟨ret, s1, hp, rfl⟩ := svc_ok h
    exact ⟨ret, s1, hp, rfl⟩

theorem writes_until_next_tick_connection_lost_witness :
    svc RingBuffer.ops 2 (oneSample .CONNECTION_LOST) =
      .ok (oneSampleFailed .CONNECTION_LOST .ON_RECEIVER_ERROR) ∧
    Event.consumerPut [65] .CONNECTION_LOST ∈
      newEvents (oneSample .CONNECTION_LOST)
        (oneSampleFailed .CONNECTION_LOST .ON_RECEIVER_ERROR) ∧
    run RingBuffer.ops 2 [Op.write [66] 0, Op.write [67] 5]
        (oneSampleFailed .CONNECTION_LOST .ON_RECEIVER_ERROR) =
      .ok ([.CONNECTION_LOST, .CONNECTION_LOST],
        oneSampleFailed .CONNECTION_LOST .ON_RECEIVER_ERROR) :=
  ⟨rfl, by decide,
    (writes_until_next_tick_connection_lost RingBuffer.ops 2
      (oneSample .CONNECTION_LOST)
      (oneSampleFailed .CONNECTION_LOST .ON_RECEIVER_ERROR) [65]
      [([66], 0), ([67], 5)] rfl (by decide)).1⟩

theorem svc_wired_of_failure {B : CdrBufferBase β} {fuel : Nat}
    {st st' : PublisherPeriodic β} (htick : svc B fuel st = .ok st')
    (h1 : st'.m_retcode ≠ .PORT_OK) (h2 : st'.m_retcode ≠ .BUFFER_EMPTY) :
    Wired st' := by
  obtain ⟨ret, st1, hp, rfl⟩ := svc_ok htick
  obtain ⟨evs, he, hput, hret⟩ := push_summary B fuel st st1 ret hp
  obtain ⟨d, r, hin, -⟩ := hret h1 h2
  exact he.wired_iff.mpr (hput d r hin).1

/-- C4: when the most recent delivery tick ended with SEND_FULL, `write`
makes exactly one call, the buffer's `write` with the given sample and
timeout, and returns BUFFER_FULL whatever status `bs` that call returned. -/
theorem write_after_send_full_tick (B : CdrBufferBase β) (fuel : Nat)
    (st st' : PublisherPeriodic β) (data : ByteData) (timeout : Int)
    (htick : svc B fuel st = .ok st')
    (hfull : st'.m_retcode = .SEND_FULL) :
    ∃ buf, st'.m_buffer = some buf ∧
      ∀ bs buf', B.write buf data timeout = (bs, buf') →
        write B st' data timeout =
          .ok (.BUFFER_FULL,
            { st' with
                m_data := data
                m_buffer := some buf'
                trace := st'.trace ++ [Event.bufferWrite data timeout bs] }) := by
  have hw : Wired st' :=
    svc_wired_of_failure htick (by rw [hfull]; decide) (by rw [hfull]; decide)
  obtain ⟨hc, hb, hl⟩ := hw
  cases hc' : st'.m_consumer with
  | none => simp [hc'] at hc
  | some c =>
    cases hb' : st'.m_buffer with
    | none => simp [hb'] at hb
    | some buf =>
      refine ⟨buf, rfl, ?_⟩
      intro bs buf' hwr
      unfold write
      simp [hc', hb', hl, hfull, hwr]

theorem write_after_send_full_tick_witness :
    svc RingBuffer.ops 2 (oneSample .SEND_FULL) =
      .ok (oneSampleFailed .SEND_FULL .ON_RECEIVER_FULL) ∧
    (oneSampleFailed .SEND_FULL .ON_RECEIVER_FULL).m_retcode = .SEND_FULL ∧
    ∃ buf, (oneSampleFailed .SEND_FULL .ON_RECEIVER_FULL).m_buffer = some buf ∧
      ∀ bs buf', RingBuffer.ops.write buf [66] 0 = (bs, buf') →
        write RingBuffer.ops (oneSampleFailed .SEND_FULL .ON_RECEIVER_FULL)
            [66] 0 =
          .ok (.BUFFER_FULL,
            { oneSampleFailed .SEND_FULL .ON_RECEIVER_FULL with
                m_data := [66]
                m_buffer := some buf'
                trace := (oneSampleFailed .SEND_FULL .ON_RECEIVER_FULL).trace ++
                  [Event.bufferWrite [66] 0 bs] }) :=
  ⟨rfl, rfl,
    write_after_send_full_tick RingBuffer.ops 2 (oneSample .SEND_FULL)
      (oneSampleFailed .SEND_FULL .ON_RECEIVER_FULL) [66] 0 rfl rfl⟩

/-! ## Ring Buffer lemmas -/

namespace RingBuffer

theorem WF_create (n : Nat) (p : FullPolicy) (h : 0 < n) : (create n p).WF := by
  simp [WF, create, h]

theorem unread_length (b : RingBuffer) : b.unread.length = b.m_fillcount := by
  simp [unread]

theorem advanceRptr_nat (b : RingBuffer) (n : Nat) (h : n ≤ b.m_fillcount) :
    b.advanceRptr (n : Int) =
      { b with
          m_rpos := (b.m_rpos + n) % b.m_length
          m_fillcount := b.m_fillcount - n } := by
  simp [advanceRptr, h]

theorem advanceRptr_one (b : RingBuffer) (h : 1 ≤ b.m_fillcount) :
    b.advanceRptr 1 =
      { b with
          m_rpos := (b.m_rpos + 1) % b.m_length
          m_fillcount := b.m_fillcount - 1 } := by
  have := advanceRptr_nat b 1 h
  simpa using this

theorem WF_advanceRptr_nat (b : RingBuffer) (n : Nat) (hwf : b.WF)
    (h : n ≤ b.m_fillcount) : (b.advanceRptr (n : Int)).WF := by
  obtain ⟨hL, hr, hf, hw⟩ := hwf
  rw [advanceRptr_nat b n h]
  refine ⟨hL, Nat.mod_lt _ hL, ?_, ?_⟩
  · show b.m_fillcount - n ≤ b.m_length
    omega
  · show b.m_wpos = ((b.m_rpos + n) % b.m_length + (b.m_fillcount - n)) % b.m_length
    rw [hw, Nat.mod_add_mod]
    congr 1
    omega

theorem unread_advanceRptr_nat (b : RingBuffer) (n : Nat)
    (h : n ≤ b.m_fillcount) :
    (b.advanceRptr (n : Int)).unread = b.unread.drop n := by
  rw [advanceRptr_nat b n h]
  apply List.ext_getElem
  · simp [unread]
  · intro i h1 h2
    simp only [unread, List.getElem_map, List.getElem_range, List.getElem_drop]
    rw [Nat.mod_add_mod]
    simp [Nat.add_assoc]

theorem get_eq_head (b : RingBuffer) (hwf : b.WF) (h : 0 < b.m_fillcount) :
    b.unread = b.get :: (b.advanceRptr 1).unread := by
  have h1 : (b.advanceRptr 1).unread = b.unread.drop 1 := by
    have := unread_advanceRptr_nat b 1 h
    simpa using this
  rw [h1]
  obtain ⟨hL, hr, -, -⟩ := hwf
  obtain ⟨k, hk⟩ : ∃ k, b.m_fillcount = k + 1 := ⟨b.m_fillcount - 1, by omega⟩
  simp [unread, hk, List.range_succ_eq_map, get, Nat.mod_eq_of_lt hr]

theorem slot_ne_wpos (r L i f : Nat) (hi : i < f) (hf : f < L) :
    (r + i) % L ≠ (r + f) % L := by
  intro h
  have h1 : i ≡ f [MOD L] := Nat.ModEq.add_left_cancel' r h
  have h2 : i % L = f % L := h1
  rw [Nat.mod_eq_of_lt (Nat.lt_trans hi hf), Nat.mod_eq_of_lt hf] at h2
  omega

theorem write_of_not_full (b : RingBuffer) (d : ByteData) (t : Int)
    (h : b.m_fillcount < b.m_length) :
    b.write d t = (.OK, b.putAndAdvance d) := by
  simp [write, full, h]

theorem WF_putAndAdvance (b : RingBuffer) (d : ByteData) (hwf : b.WF)
    (h : b.m_fillcount < b.m_length) : (b.putAndAdvance d).WF := by
  obtain ⟨hL, hr, hf, hw⟩ := hwf
  refine ⟨hL, hr, ?_, ?_⟩
  · show b.m_fillcount + 1 ≤ b.m_length
    omega
  · show (b.m_wpos + 1) % b.m_length =
      (b.m_rpos + (b.m_fillcount + 1)) % b.m_length
    rw [hw, Nat.mod_add_mod, Nat.add_assoc]

theorem unread_putAndAdvance (b : RingBuffer) (d : ByteData) (hwf : b.WF)
    (h : b.m_fillcount < b.m_length) :
    (b.putAndAdvance d).unread = b.unread ++ [d] := by
  obtain ⟨hL, hr, hf, hw⟩ := hwf
  simp only [unread, putAndAdvance, List.range_succ, List.map_append,
    List.map_cons, List.map_nil]
  congr 1
  · apply List.map_congr_left
    intro i hi
    have hi' : i < b.m_fillcount := List.mem_range.mp hi
    rw [hw, if_neg (slot_ne_wpos _ _ _ _ hi' h)]
  · rw [hw]
    simp

end RingBuffer

/-! ### Explicit form of the delivery steps -/

theorem after_after (st : PublisherPeriodic β) (n n' : Nat) (b b' : β)
    (e e' : List Event) :
    (st.after n b e).after n' b' e' = st.after (n + n') b' (e ++ e') := by
  cases hc : st.m_consumer <;>
    simp [PublisherPeriodic.after, hc, Nat.add_assoc]

theorem after_zero (st : PublisherPeriodic β) (b : β)
    (hb : st.m_buffer = some b) : st.after 0 b [] = st := by
  cases st
  cases hc : ‹Option InPortConsumer› <;> simp_all [PublisherPeriodic.after]

theorem getAndPut_eq (B : CdrBufferBase β) (st : PublisherPeriodic β) (buf : β)
    (c : InPortConsumer) (hb : st.m_buffer = some buf)
    (hc : st.m_consumer = some c) (hl : st.m_listeners = some ()) :
    getAndPut B st =
      .ok (B.get buf, c.results c.calls,
        st.after 1 buf
          [Event.notifyOut .ON_BUFFER_READ (B.get buf),
           Event.notifyOut .ON_SEND (B.get buf),
           Event.consumerPut (B.get buf) (c.results c.calls)]) := by
  cases st
  simp_all [getAndPut, notifyOut, InPortConsumer.put, PublisherPeriodic.after]

theorem pushAllLoop_done (B : CdrBufferBase β) (fuel : Nat)
    (st : PublisherPeriodic β) (buf : β) (hb : st.m_buffer = some buf)
    (hr : B.readable buf = 0) :
    pushAllLoop B (fuel + 1) st = .ok (.PORT_OK, st) := by
  simp [pushAllLoop, hb, hr]

theorem pushAllLoop_step_ok (B : CdrBufferBase β) (fuel : Nat)
    (st : PublisherPeriodic β) (buf : β) (c : InPortConsumer)
    (hb : st.m_buffer = some buf) (hc : st.m_consumer = some c)
    (hl : st.m_listeners = some ()) (hr : 0 < B.readable buf)
    (hok : c.results c.calls = .PORT_OK) :
    pushAllLoop B (fuel + 1) st =
      pushAllLoop B fuel
        (st.after 1 (B.advanceRptr buf 1) (delivery (B.get buf))) := by
  rw [pushAllLoop]
  simp only [hb, hr, if_true, getAndPut_eq B st buf c hb hc hl, hok]
  cases st
  simp_all [notifyOut, advanceRptr, PublisherPeriodic.after, delivery]

theorem pushAllLoop_step_fail (B : CdrBufferBase β) (fuel : Nat)
    (st : PublisherPeriodic β) (buf : β) (c : InPortConsumer)
    (hb : st.m_buffer = some buf) (hc : st.m_consumer = some c)
    (hl : st.m_listeners = some ()) (hr : 0 < B.readable buf)
    (hfail : c.results c.calls ≠ .PORT_OK) :
    pushAllLoop B (fuel + 1) st =
      invokeListener
        (st.after 1 buf
          [Event.notifyOut .ON_BUFFER_READ (B.get buf),
           Event.notifyOut .ON_SEND (B.get buf),
           Event.consumerPut (B.get buf) (c.results c.calls)])
        (c.results c.calls) (B.get buf) := by
  rw [pushAllLoop]
  simp only [hb, hr, if_true, getAndPut_eq B st buf c hb hc hl]
  simp [hfail]

theorem bufferIsEmpty_of_nonempty (B : CdrBufferBase β)
    (st : PublisherPeriodic β) (buf : β) (hb : st.m_buffer = some buf)
    (he : B.empty buf = false) : bufferIsEmpty B st = .ok (false, st) := by
  simp [bufferIsEmpty, hb, he]

/-! ### Policy `all` over the Ring Buffer -/

theorem RingBuffer.advanceRptr_succ (b : RingBuffer) (n : Nat)
    (h : n + 1 ≤ b.m_fillcount) :
    (b.advanceRptr 1).advanceRptr (n : Int) = b.advanceRptr ((n + 1 : Nat) : Int) := by
  rw [RingBuffer.advanceRptr_one b (by omega), RingBuffer.advanceRptr_nat _ n
    (by show n ≤ b.m_fillcount - 1; omega), RingBuffer.advanceRptr_nat b (n + 1) h]
  simp only [Nat.mod_add_mod]
  congr 1
  · congr 1
    omega
  · omega

theorem RingBuffer.advanceRptr_zero (b : RingBuffer) (hwf : b.WF) :
    b.advanceRptr ((0 : Nat) : Int) = b := by
  rw [RingBuffer.advanceRptr_nat b 0 (Nat.zero_le _)]
  obtain ⟨-, hr, -, -⟩ := hwf
  cases b
  simp_all [Nat.mod_eq_of_lt]

theorem putSamples_append (e1 e2 : List Event) :
    putSamples (e1 ++ e2) = putSamples e1 ++ putSamples e2 := by
  induction e1 with
  | nil => rfl
  | cons e es ih => cases e <;> simp [putSamples, ih]

theorem putSamples_deliveries (ds : List ByteData) :
    putSamples (deliveries ds) = ds := by
  induction ds with
  | nil => rfl
  | cons d ds ih => simp [deliveries, delivery, putSamples, ih]

theorem pushAllLoop_ring_leading_ok (fuel : Nat) (n : Nat) :
    ∀ (st : PublisherPeriodic RingBuffer) (b : RingBuffer) (c : InPortConsumer),
      st.m_buffer = some b → st.m_consumer = some c → st.m_listeners = some () →
      b.WF → n ≤ b.m_fillcount →
      (∀ i, i < n → c.results (c.calls + i) = .PORT_OK) →
      pushAllLoop RingBuffer.ops (fuel + n) st =
        pushAllLoop RingBuffer.ops fuel
          (st.after n (b.advanceRptr (n : Int)) (deliveries (b.unread.take n))) := by
  induction n with
  | zero =>
    intro st b c hb hc hl hwf hn hok
    rw [RingBuffer.advanceRptr_zero b hwf]
    simp [deliveries, after_zero st b hb]
  | succ n ih =>
    intro st b c hb hc hl hwf hn hok
    have hpos : 0 < b.m_fillcount := by omega
    have h0 : c.results c.calls = .PORT_OK := by
      have := hok 0 (Nat.succ_pos n)
      simpa using this
    rw [show fuel + (n + 1) = (fuel + n) + 1 from rfl,
      pushAllLoop_step_ok RingBuffer.ops (fuel + n) st b c hb hc hl hpos h0]
    have hwf1 : (b.advanceRptr 1).WF := by
      have := RingBuffer.WF_advanceRptr_nat b 1 hwf hpos
      simpa using this
    have hfill1 : (b.advanceRptr 1).m_fillcount = b.m_fillcount - 1 := by
      rw [RingBuffer.advanceRptr_one b hpos]
    rw [ih (st.after 1 (RingBuffer.ops.advanceRptr b 1)
        (delivery (RingBuffer.ops.get b))) (b.advanceRptr 1)
        { c with calls := c.calls + 1 } (by simp [PublisherPeriodic.after, RingBuffer.ops])
        (by simp [PublisherPeriodic.after, hc]) (by simp [PublisherPeriodic.after, hl])
        hwf1 (by rw [hfill1]; omega)
        (by
          intro i hi
          have := hok (i + 1) (by omega)
          simpa [Nat.add_assoc, Nat.add_comm 1 i] using this)]
    rw [after_after, RingBuffer.advanceRptr_succ b n hn,
      RingBuffer.get_eq_head b hwf hpos]
    simp [deliveries, RingBuffer.ops, Nat.add_comm 1 n]

theorem invokeListener_total (st : PublisherPeriodic β) (r : DataPortStatus)
    (d : ByteData) (hl : st.m_listeners = some ()) :
    ∃ ret type, invokeListener st r d =
      .ok (ret, { st with trace := st.trace ++ [Event.notifyOut type d] }) := by
  cases r <;>
    simp [invokeListener, notifyOut_of_listeners st _ _ hl, Except.map]

theorem pushAll_ring_all_ok (fuel : Nat) (st : PublisherPeriodic RingBuffer)
    (b : RingBuffer) (c : InPortConsumer)
    (hb : st.m_buffer = some b) (hc : st.m_consumer = some c)
    (hl : st.m_listeners = some ()) (hwf : b.WF) (hm : 1 ≤ b.m_fillcount)
    (hfuel : b.m_fillcount < fuel)
    (hok : ∀ i, i < b.m_fillcount → c.results (c.calls + i) = .PORT_OK) :
    pushAll RingBuffer.ops fuel st =
      .ok (.PORT_OK,
        st.after b.m_fillcount (b.advanceRptr (b.m_fillcount : Int))
          (deliveries b.unread)) := by
  have he : RingBuffer.ops.empty b = false := by
    simp [RingBuffer.ops, RingBuffer.empty]
    omega
  unfold pushAll
  rw [bufferIsEmpty_of_nonempty RingBuffer.ops st b hb he]
  simp only []
  obtain ⟨f, rfl⟩ : ∃ f, fuel = (f + 1) + b.m_fillcount :=
    ⟨fuel - b.m_fillcount - 1, by omega⟩
  rw [pushAllLoop_ring_leading_ok (f + 1) b.m_fillcount st b c hb hc hl hwf
    (Nat.le_refl _) hok]
  have htake : b.unread.take b.m_fillcount = b.unread := by
    rw [← RingBuffer.unread_length b, List.take_length]
  rw [htake]
  apply pushAllLoop_done RingBuffer.ops f _ (b.advanceRptr (b.m_fillcount : Int))
  · simp [PublisherPeriodic.after]
  · rw [RingBuffer.advanceRptr_nat b _ (Nat.le_refl _)]
    simp [RingBuffer.ops, RingBuffer.readable]

theorem pushAll_ring_fail (fuel : Nat) (st : PublisherPeriodic RingBuffer)
    (b : RingBuffer) (c : InPortConsumer) (j : Nat)
    (hb : st.m_buffer = some b) (hc : st.m_consumer = some c)
    (hl : st.m_listeners = some ()) (hwf : b.WF) (hj : j < b.m_fillcount)
    (hfuel : b.m_fillcount < fuel)
    (hok : ∀ i, i < j → c.results (c.calls + i) = .PORT_OK)
    (hfail : c.results (c.calls + j) ≠ .PORT_OK) :
    b.unread[j]? = some (b.advanceRptr (j : Int)).get ∧
    pushAll RingBuffer.ops fuel st =
      invokeListener
        (st.after (j + 1) (b.advanceRptr (j : Int))
          (deliveries (b.unread.take j) ++
            [Event.notifyOut .ON_BUFFER_READ (b.advanceRptr (j : Int)).get,
             Event.notifyOut .ON_SEND (b.advanceRptr (j : Int)).get,
             Event.consumerPut (b.advanceRptr (j : Int)).get
               (c.results (c.calls + j))]))
        (c.results (c.calls + j)) (b.advanceRptr (j : Int)).get := by
  have hwfj : (b.advanceRptr (j : Int)).WF :=
    RingBuffer.WF_advanceRptr_nat b j hwf (Nat.le_of_lt hj)
  have hfillj : (b.advanceRptr (j : Int)).m_fillcount = b.m_fillcount - j := by
    rw [RingBuffer.advanceRptr_nat b j (Nat.le_of_lt hj)]
  have hposj : 0 < (b.advanceRptr (j : Int)).m_fillcount := by
    rw [hfillj]; omega
  constructor
  · have h1 := RingBuffer.get_eq_head _ hwfj hposj
    rw [RingBuffer.unread_advanceRptr_nat b j (Nat.le_of_lt hj)] at h1
    have h2 : (b.unread.drop j)[0]? = some (b.advanceRptr (j : Int)).get := by
      rw [h1]; simp
    simpa using h2
  · have he : RingBuffer.ops.empty b = false := by
      simp [RingBuffer.ops, RingBuffer.empty]
      omega
    unfold pushAll
    rw [bufferIsEmpty_of_nonempty RingBuffer.ops st b hb he]
    simp only []
    obtain ⟨f, rfl⟩ : ∃ f, fuel = ((f + 1) + 1) + j := ⟨fuel - j - 2, by omega⟩
    rw [pushAllLoop_ring_leading_ok ((f + 1) + 1) j st b c hb hc hl hwf
      (Nat.le_of_lt hj) hok]
    rw [pushAllLoop_step_fail RingBuffer.ops (f + 1) _
      (b.advanceRptr (j : Int)) { c with calls := c.calls + j }
      (by simp [PublisherPeriodic.after]) (by simp [PublisherPeriodic.after, hc])
      (by simp [PublisherPeriodic.after, hl])
      (by simpa [RingBuffer.ops, RingBuffer.readable] using hposj) hfail]
    rw [after_after]
    rfl

/-- C7: one tick of policy `all` over a well-formed Ring Buffer holding
`m >= 1` unread samples (no write meanwhile).  If the next `m` results of the
consumer are PORT_OK, the samples passed to `put` are exactly the unread
samples in FIFO order (`m` of them), `readable()` is 0 afterwards and the
recorded status is PORT_OK.  If the put number `j` (counted from 0) is the
first whose result is not PORT_OK, the samples passed to `put` are the first
`j + 1` unread ones and no more, the samples from number `j` on are still
unread, and the recorded status is the one `invokeListener` returns for that
result. -/
theorem pushAll_tick_fifo_order (fuel : Nat) (st : PublisherPeriodic RingBuffer)
    (b : RingBuffer) (c : InPortConsumer)
    (hpol : st.m_pushPolicy = .PUBLISHER_POLICY_ALL)
    (hb : st.m_buffer = some b) (hc : st.m_consumer = some c)
    (hl : st.m_listeners = some ()) (hwf : b.WF) (hm : 1 ≤ b.readable)
    (hfuel : b.readable < fuel) :
    ((∀ i, i < b.readable → c.results (c.calls + i) = .PORT_OK) →
      ∃ st' b', svc RingBuffer.ops fuel st = .ok st' ∧
        putSamples (newEvents st st') = b.unread ∧
        (putSamples (newEvents st st')).length = b.readable ∧
        st'.m_buffer = some b' ∧ b'.readable = 0 ∧
        st'.m_retcode = .PORT_OK) ∧
    (∀ j, j < b.readable →
      (∀ i, i < j → c.results (c.calls + i) = .PORT_OK) →
      c.results (c.calls + j) ≠ .PORT_OK →
      ∃ st' b' d, ∃ s0 s1 : PublisherPeriodic RingBuffer,
        svc RingBuffer.ops fuel st = .ok st' ∧
        putSamples (newEvents st st') = b.unread.take (j + 1) ∧
        st'.m_buffer = some b' ∧ b'.unread = b.unread.drop j ∧
        b.unread[j]? = some d ∧
        invokeListener s0 (c.results (c.calls + j)) d =
          .ok (st'.m_retcode, s1)) := by
  constructor
  · intro hok
    have hp := pushAll_ring_all_ok fuel st b c hb hc hl hwf hm hfuel hok
    refine ⟨{ st.after b.m_fillcount (b.advanceRptr (b.m_fillcount : Int))
        (deliveries b.unread) with m_retcode := .PORT_OK },
      b.advanceRptr (b.m_fillcount : Int), ?_, ?_, ?_, ?_, ?_, ?_⟩
    · simp only [svc, push, hpol, hp]
    · simp [newEvents, PublisherPeriodic.after, putSamples_deliveries]
    · simp [newEvents, PublisherPeriodic.after, putSamples_deliveries,
        RingBuffer.unread_length, RingBuffer.readable]
    · simp [PublisherPeriodic.after]
    · rw [RingBuffer.advanceRptr_nat b _ (Nat.le_refl _)]
      simp [RingBuffer.readable]
    · rfl
  · intro j hj hok hfail
    obtain ⟨hd, hp⟩ := pushAll_ring_fail fuel st b c j hb hc hl hwf hj hfuel hok hfail
    obtain ⟨ret, type, hinv⟩ := invokeListener_total
      (st.after (j + 1) (b.advanceRptr (j : Int))
        (deliveries (b.unread.take j) ++
          [Event.notifyOut .ON_BUFFER_READ (b.advanceRptr (j : Int)).get,
           Event.notifyOut .ON_SEND (b.advanceRptr (j : Int)).get,
           Event.consumerPut (b.advanceRptr (j : Int)).get
             (c.results (c.calls + j))]))
      (c.results (c.calls + j)) (b.advanceRptr (j : Int)).get
      (by simp [PublisherPeriodic.after, hl])
    have hinv' := hinv
    rw [← hp] at hinv
    generalize hs1 : (st.after (j + 1) (b.advanceRptr (j : Int))
        (deliveries (b.unread.take j) ++
          [Event.notifyOut .ON_BUFFER_READ (b.advanceRptr (j : Int)).get,
           Event.notifyOut .ON_SEND (b.advanceRptr (j : Int)).get,
           Event.consumerPut (b.advanceRptr (j : Int)).get
             (c.results (c.calls + j))])) = s1 at hinv hinv'
    refine ⟨{ s1 with
          trace := s1.trace ++ [Event.notifyOut type (b.advanceRptr (j : Int)).get]
          m_retcode := ret },
      b.advanceRptr (j : Int), (b.advanceRptr (j : Int)).get, s1, _,
      ?_, ?_, ?_, ?_, hd, hinv'⟩
    · simp only [svc, push, hpol, hinv]
    · subst hs1
      simp [newEvents, PublisherPeriodic.after, putSamples_append,
        putSamples_deliveries, putSamples, List.take_succ, hd]
    · subst hs1
      simp [PublisherPeriodic.after]
    · exact RingBuffer.unread_advanceRptr_nat b j (Nat.le_of_lt hj)

theorem WF_bufferABC : bufferABC.WF := by
  simp [RingBuffer.WF, bufferABC, RingBuffer.putAndAdvance, RingBuffer.create]

theorem pushAll_tick_fifo_order_witness :
    (configured .PUBLISHER_POLICY_ALL 0 (scripted [.PORT_OK, .SEND_FULL])
      bufferABC).m_pushPolicy = .PUBLISHER_POLICY_ALL ∧
    bufferABC.WF ∧ 1 ≤ bufferABC.readable ∧ bufferABC.readable < 5 ∧
    ∃ st' b' d, ∃ s0 s1 : PublisherPeriodic RingBuffer,
      svc RingBuffer.ops 5
          (configured .PUBLISHER_POLICY_ALL 0 (scripted [.PORT_OK, .SEND_FULL])
            bufferABC) = .ok st' ∧
        putSamples
            (newEvents
              (configured .PUBLISHER_POLICY_ALL 0
                (scripted [.PORT_OK, .SEND_FULL]) bufferABC) st') =
          bufferABC.unread.take (1 + 1) ∧
        st'.m_buffer = some b' ∧ b'.unread = bufferABC.unread.drop 1 ∧
        bufferABC.unread[1]? = some d ∧
        invokeListener s0
            ((scripted [.PORT_OK, .SEND_FULL]).results
              ((scripted [.PORT_OK, .SEND_FULL]).calls + 1)) d =
          .ok (st'.m_retcode, s1) :=
  ⟨rfl, WF_bufferABC, by decide, by decide,
    (pushAll_tick_fifo_order 5
      (configured .PUBLISHER_POLICY_ALL 0 (scripted [.PORT_OK, .SEND_FULL])
        bufferABC)
      bufferABC (scripted [.PORT_OK, .SEND_FULL]) rfl rfl rfl rfl WF_bufferABC
      (by decide) (by decide)).2 1 (by decide) (by decide) (by decide)⟩

/-! ### Policy `fifo` -/

theorem pushFifo_step_ok (B : CdrBufferBase β) (st : PublisherPeriodic β)
    (buf : β) (c : InPortConsumer) (hb : st.m_buffer = some buf)
    (hc : st.m_consumer = some c) (hl : st.m_listeners = some ())
    (he : B.empty buf = false) (hok : c.results c.calls = .PORT_OK) :
    pushFifo B st =
      .ok (.PORT_OK, st.after 1 (B.advanceRptr buf 1) (delivery (B.get buf))) := by
  unfold pushFifo
  rw [bufferIsEmpty_of_nonempty B st buf hb he]
  simp only [getAndPut_eq B st buf c hb hc hl, hok]
  cases st
  simp_all [notifyOut, advanceRptr, PublisherPeriodic.after, delivery]

theorem pushFifo_step_fail (B : CdrBufferBase β) (st : PublisherPeriodic β)
    (buf : β) (c : InPortConsumer) (hb : st.m_buffer = some buf)
    (hc : st.m_consumer = some c) (hl : st.m_listeners = some ())
    (he : B.empty buf = false) (hfail : c.results c.calls ≠ .PORT_OK) :
    pushFifo B st =
      invokeListener
        (st.after 1 buf
          [Event.notifyOut .ON_BUFFER_READ (B.get buf),
           Event.notifyOut .ON_SEND (B.get buf),
           Event.consumerPut (B.get buf) (c.results c.calls)])
        (c.results c.calls) (B.get buf) := by
  unfold pushFifo
  rw [bufferIsEmpty_of_nonempty B st buf hb he]
  simp only [getAndPut_eq B st buf c hb hc hl]
  simp [hfail]

theorem bufferIsEmpty_of_empty (B : CdrBufferBase β) (st : PublisherPeriodic β)
    (buf : β) (hb : st.m_buffer = some buf) (hl : st.m_listeners = some ())
    (he : B.empty buf = true) (hrb : st.m_readback = false) :
    bufferIsEmpty B st =
      .ok (true,
        { st with
            trace := st.trace ++
              [Event.notify .ON_BUFFER_EMPTY, Event.notify .ON_SENDER_EMPTY] }) := by
  simp [bufferIsEmpty, hb, he, hrb, notify, hl]

theorem pushFifo_empty (B : CdrBufferBase β) (st : PublisherPeriodic β)
    (buf : β) (hb : st.m_buffer = some buf) (hl : st.m_listeners = some ())
    (he : B.empty buf = true) (hrb : st.m_readback = false) :
    pushFifo B st =
      .ok (.BUFFER_EMPTY,
        { st with
            trace := st.trace ++
              [Event.notify .ON_BUFFER_EMPTY, Event.notify .ON_SENDER_EMPTY] }) := by
  unfold pushFifo
  rw [bufferIsEmpty_of_empty B st buf hb hl he hrb]

theorem run_append (B : CdrBufferBase β) (fuel : Nat) (ops1 ops2 : List Op) :
    ∀ (st st1 st2 : PublisherPeriodic β) (rs1 rs2 : List DataPortStatus),
      run B fuel ops1 st = .ok (rs1, st1) → run B fuel ops2 st1 = .ok (rs2, st2) →
      run B fuel (ops1 ++ ops2) st = .ok (rs1 ++ rs2, st2) := by
  induction ops1 with
  | nil =>
    intro st st1 st2 rs1 rs2 h1 h2
    simp [run] at h1
    obtain ⟨rfl, rfl⟩ := h1
    simpa using h2
  | cons op ops ih =>
    intro st st1 st2 rs1 rs2 h1 h2
    cases op with
    | write d t =>
      simp only [List.cons_append, run] at h1 ⊢
      cases hw : write B st d t with
      | error e => simp [hw] at h1
      | ok res =>
        obtain ⟨r, sa⟩ := res
        simp only [hw] at h1 ⊢
        cases hr : run B fuel ops sa with
        | error e => simp [hr] at h1
        | ok res2 =>
          obtain ⟨rs, sb⟩ := res2
          simp [hr] at h1
          obtain ⟨rfl, rfl⟩ := h1
          have hih := ih sa sb st2 rs rs2 hr h2
          simp [hih]
    | tick =>
      simp only [List.cons_append, run] at h1 ⊢
      cases hs : svc B fuel st with
      | error e => simp [hs] at h1
      | ok sa =>
        simp only [hs] at h1 ⊢
        exact ih sa st1 st2 rs1 rs2 h1 h2

theorem write_ring_ok (st : PublisherPeriodic RingBuffer) (b : RingBuffer)
    (c : InPortConsumer) (t : PeriodicTask) (d : ByteData) (timeout : Int)
    (hb : st.m_buffer = some b) (hc : st.m_consumer = some c)
    (hl : st.m_listeners = some ()) (ht : st.m_task = some t)
    (hr : st.m_retcode = .PORT_OK) (hfree : b.m_fillcount < b.m_length) :
    write RingBuffer.ops st d timeout =
      .ok (.PORT_OK,
        { st with
            m_data := d
            m_buffer := some (b.putAndAdvance d)
            m_task := some t.resume
            trace := st.trace ++
              [Event.notifyOut .ON_BUFFER_WRITE d, Event.bufferWrite d timeout .OK] }) := by
  unfold write
  simp [hb, hc, hl, ht, hr, notifyOut, RingBuffer.ops,
    RingBuffer.write_of_not_full b d timeout hfree, convertReturn]

theorem run_writes_ring (fuel : Nat) :
    ∀ (ws : List (ByteData × Int)) (st : PublisherPeriodic RingBuffer)
      (b : RingBuffer) (c : InPortConsumer) (t : PeriodicTask),
      st.m_buffer = some b → st.m_consumer = some c →
      st.m_listeners = some () → st.m_task = some t →
      st.m_retcode = .PORT_OK → b.WF →
      b.m_fillcount + ws.length ≤ b.m_length →
      ∃ st' b' t' evs,
        run RingBuffer.ops fuel (ws.map (fun w => Op.write w.1 w.2)) st =
          .ok (List.replicate ws.length .PORT_OK, st') ∧
        st'.m_buffer = some b' ∧ b'.WF ∧
        b'.unread = b.unread ++ ws.map Prod.fst ∧
        st'.m_task = some t' ∧ WriteFrame st st' ∧
        st'.trace = st.trace ++ evs ∧ putSamples evs = [] ∧
        bufferWrites evs = ws.map Prod.fst := by
  intro ws
  induction ws with
  | nil =>
    intro st b c t hb hc hl ht hr hwf hlen
    exact ⟨st, b, t, [], rfl, hb, hwf, by simp, ht, by simp [WriteFrame],
      by simp, rfl, rfl⟩
  | cons w ws ih =>
    intro st b c t hb hc hl ht hr hwf hlen
    have hfree : b.m_fillcount < b.m_length := by
      simp only [List.length_cons] at hlen
      omega
    have hw := write_ring_ok st b c t w.1 w.2 hb hc hl ht hr hfree
    have hwf1 := RingBuffer.WF_putAndAdvance b w.1 hwf hfree
    obtain ⟨st', b', t', evs, hrun, hb', hwf', hun, ht', hfr, htr, hput, hbw⟩ :=
      ih { st with
            m_data := w.1
            m_buffer := some (b.putAndAdvance w.1)
            m_task := some t.resume
            trace := st.trace ++
              [Event.notifyOut .ON_BUFFER_WRITE w.1,
               Event.bufferWrite w.1 w.2 .OK] }
        (b.putAndAdvance w.1) c t.resume rfl hc hl rfl hr hwf1
        (by
          show b.m_fillcount + 1 + ws.length ≤ b.m_length
          simp only [List.length_cons] at hlen
          omega)
    refine ⟨st', b', t',
      [Event.notifyOut .ON_BUFFER_WRITE w.1, Event.bufferWrite w.1 w.2 .OK] ++ evs,
      ?_, hb', hwf', ?_, ht', ?_, ?_, ?_, ?_⟩
    · simp only [List.map_cons, run, hw, hrun, List.length_cons,
        List.replicate_succ]
    · rw [hun, RingBuffer.unread_putAndAdvance b w.1 hwf hfree]
      simp
    · obtain ⟨h1, h2, h3, h4, h5, h6, h7, h8, h9⟩ := hfr
      exact ⟨h1, h2, h3, h4, h5, h6, h7, h8, h9⟩
    · rw [htr]
      simp
    · simp [putSamples, hput]
    · simp [bufferWrites, hbw]

theorem fifo_ticks_ring (fuel : Nat) (k : Nat) :
    ∀ (st : PublisherPeriodic RingBuffer) (b : RingBuffer) (c : InPortConsumer),
      st.m_pushPolicy = .PUBLISHER_POLICY_FIFO →
      st.m_buffer = some b → st.m_consumer = some c →
      st.m_listeners = some () → st.m_readback = false → b.WF →
      (∀ i, c.results i = .PORT_OK) →
      ∃ st' b' evs,
        run RingBuffer.ops fuel (List.replicate k Op.tick) st = .ok ([], st') ∧
        st'.trace = st.trace ++ evs ∧ putSamples evs = b.unread.take k ∧
        st'.m_buffer = some b' ∧ b'.unread = b.unread.drop k := by
  induction k with
  | zero =>
    intro st b c hpol hb hc hl hrb hwf hok
    exact ⟨st, b, [], rfl, by simp, by simp [putSamples], hb, by simp⟩
  | succ k ih =>
    intro st b c hpol hb hc hl hrb hwf hok
    by_cases hfill : b.m_fillcount = 0
    · have he : RingBuffer.ops.empty b = true := by
        simp [RingBuffer.ops, RingBuffer.empty, hfill]
      have hun : b.unread = [] := by
        apply List.eq_nil_of_length_eq_zero
        rw [RingBuffer.unread_length, hfill]
      have hp := pushFifo_empty RingBuffer.ops st b hb hl he hrb
      obtain ⟨st', b', evs, hrun, htr, hput, hb', hun'⟩ :=
        ih { st with
              trace := st.trace ++
                [Event.notify .ON_BUFFER_EMPTY, Event.notify .ON_SENDER_EMPTY]
              m_retcode := .BUFFER_EMPTY } b c hpol hb hc hl hrb hwf hok
      have hs : svc RingBuffer.ops fuel st =
          .ok { st with
              trace := st.trace ++
                [Event.notify .ON_BUFFER_EMPTY, Event.notify .ON_SENDER_EMPTY]
              m_retcode := .BUFFER_EMPTY } := by
        simp only [svc, push, hpol, hp]
      refine ⟨st', b',
        [Event.notify .ON_BUFFER_EMPTY, Event.notify .ON_SENDER_EMPTY] ++ evs,
        ?_, ?_, ?_, hb', ?_⟩
      · simp only [List.replicate_succ, run, hs]
        exact hrun
      · rw [htr]
        simp
      · rw [hun] at hput ⊢
        simp [putSamples_append, putSamples, hput]
      · rw [hun] at hun' ⊢
        simpa using hun'
    · have hpos : 0 < b.m_fillcount := Nat.pos_of_ne_zero hfill
      have he : RingBuffer.ops.empty b = false := by
        simp [RingBuffer.ops, RingBuffer.empty, hfill]
      have hp := pushFifo_step_ok RingBuffer.ops st b c hb hc hl he (hok _)
      have hwf1 : (b.advanceRptr 1).WF := by
        have := RingBuffer.WF_advanceRptr_nat b 1 hwf hpos
        simpa using this
      obtain ⟨st', b', evs, hrun, htr, hput, hb', hun'⟩ :=
        ih { st.after 1 (RingBuffer.ops.advanceRptr b 1)
              (delivery (RingBuffer.ops.get b)) with m_retcode := .PORT_OK }
          (b.advanceRptr 1) { c with calls := c.calls + 1 }
          (by simp [PublisherPeriodic.after, hpol])
          (by simp [PublisherPeriodic.after, RingBuffer.ops])
          (by simp [PublisherPeriodic.after, hc])
          (by simp [PublisherPeriodic.after, hl])
          (by simp [PublisherPeriodic.after, hrb]) hwf1 hok
      have hhead := RingBuffer.get_eq_head b hwf hpos
      have hs : svc RingBuffer.ops fuel st =
          .ok { st.after 1 (RingBuffer.ops.advanceRptr b 1)
              (delivery (RingBuffer.ops.get b)) with m_retcode := .PORT_OK } := by
        simp only [svc, push, hpol, hp]
      refine ⟨st', b', delivery b.get ++ evs, ?_, ?_, ?_, hb', ?_⟩
      · simp only [List.replicate_succ, run, hs]
        exact hrun
      · rw [htr]
        simp [PublisherPeriodic.after, RingBuffer.ops]
      · rw [putSamples_append, hput, hhead]
        simp [delivery, putSamples]
      · rw [hun', hhead]
        simp

/-- C8: policy `fifo` over a well-formed Ring Buffer.  (1) A tick that finds
the buffer non-empty makes exactly one `put`, of the oldest unread sample;
when it returns PORT_OK the read pointer advances by one slot, otherwise the
buffer is left as it was.  (2) End to end: from an empty buffer, with the
recorded status PORT_OK, read-back not enabled and a consumer that always
returns PORT_OK, `m <= capacity` writes all return PORT_OK and, after `k >= m`
ticks, the samples passed to `put` are exactly the written ones in write order
and `readable()` is 0. -/
theorem pushFifo_end_to_end (fuel : Nat) (st : PublisherPeriodic RingBuffer)
    (b : RingBuffer) (c : InPortConsumer) (t : PeriodicTask)
    (hpol : st.m_pushPolicy = .PUBLISHER_POLICY_FIFO)
    (hb : st.m_buffer = some b) (hc : st.m_consumer = some c)
    (hl : st.m_listeners = some ()) (ht : st.m_task = some t) (hwf : b.WF) :
    (1 ≤ b.readable →
      ∃ st' d, svc RingBuffer.ops fuel st = .ok st' ∧
        b.unread.head? = some d ∧ putSamples (newEvents st st') = [d] ∧
        (c.results c.calls = .PORT_OK →
          st'.m_buffer = some (b.advanceRptr 1) ∧
          (b.advanceRptr 1).m_rpos = (b.m_rpos + 1) % b.m_length ∧
          (b.advanceRptr 1).unread = b.unread.drop 1) ∧
        (c.results c.calls ≠ .PORT_OK → st'.m_buffer = some b)) ∧
    (b.readable = 0 → st.m_retcode = .PORT_OK → st.m_readback = false →
      (∀ i, c.results i = .PORT_OK) →
      ∀ (ws : List (ByteData × Int)) (k : Nat),
        ws.length ≤ b.m_length → ws.length ≤ k →
        ∃ st' b',
          run RingBuffer.ops fuel
              (ws.map (fun w => Op.write w.1 w.2) ++ List.replicate k Op.tick) st =
            .ok (List.replicate ws.length .PORT_OK, st') ∧
          putSamples (newEvents st st') = ws.map Prod.fst ∧
          st'.m_buffer = some b' ∧ b'.readable = 0) := by
  constructor
  · intro hm
    have hpos : 0 < b.m_fillcount := hm
    have he : RingBuffer.ops.empty b = false := by
      simp [RingBuffer.ops, RingBuffer.empty]
      omega
    have hhead := RingBuffer.get_eq_head b hwf hpos
    by_cases hok : c.results c.calls = .PORT_OK
    · have hp := pushFifo_step_ok RingBuffer.ops st b c hb hc hl he hok
      refine ⟨{ st.after 1 (RingBuffer.ops.advanceRptr b 1)
          (delivery (RingBuffer.ops.get b)) with m_retcode := .PORT_OK },
        b.get, ?_, ?_, ?_, ?_, ?_⟩
      · simp only [svc, push, hpol, hp]
      · rw [hhead]; rfl
      · simp [newEvents, PublisherPeriodic.after, delivery, putSamples,
          RingBuffer.ops]
      · intro _
        refine ⟨by simp [PublisherPeriodic.after, RingBuffer.ops], ?_, ?_⟩
        · rw [RingBuffer.advanceRptr_one b hpos]
        · have := RingBuffer.unread_advanceRptr_nat b 1 hpos
          simpa using this
      · intro h
        exact absurd hok h
    · have hp := pushFifo_step_fail RingBuffer.ops st b c hb hc hl he hok
      obtain ⟨ret, type, hinv⟩ := invokeListener_total
        (st.after 1 b
          [Event.notifyOut .ON_BUFFER_READ (RingBuffer.ops.get b),
           Event.notifyOut .ON_SEND (RingBuffer.ops.get b),
           Event.consumerPut (RingBuffer.ops.get b) (c.results c.calls)])
        (c.results c.calls) (RingBuffer.ops.get b)
        (by simp [PublisherPeriodic.after, hl])
      rw [hinv] at hp
      generalize hs1 : (st.after 1 b
          [Event.notifyOut .ON_BUFFER_READ (RingBuffer.ops.get b),
           Event.notifyOut .ON_SEND (RingBuffer.ops.get b),
           Event.consumerPut (RingBuffer.ops.get b) (c.results c.calls)]) = s1
        at hp
      refine ⟨{ s1 with
            trace := s1.trace ++ [Event.notifyOut type (RingBuffer.ops.get b)]
            m_retcode := ret },
        b.get, ?_, ?_, ?_, ?_, ?_⟩
      · simp only [svc, push, hpol, hp]
      · rw [hhead]; rfl
      · subst hs1
        simp [newEvents, PublisherPeriodic.after, putSamples, RingBuffer.ops]
      · intro h
        exact absurd h hok
      · intro _
        subst hs1
        simp [PublisherPeriodic.after]
  · intro hempty hr hrb hok ws k hcap hk
    have hfill : b.m_fillcount = 0 := hempty
    have hun0 : b.unread = [] := by
      apply List.eq_nil_of_length_eq_zero
      rw [RingBuffer.unread_length, hfill]
    obtain ⟨st1, b1, t1, evs1, hrun1, hb1, hwf1, hun1, -, hfr, htr1, hput1, -⟩ :=
      run_writes_ring fuel ws st b c t hb hc hl ht hr hwf (by omega)
    obtain ⟨hc1, hl1, hp1, -, -, hrb1, -, -, -⟩ := hfr
    obtain ⟨st2, b2, evs2, hrun2, htr2, hput2, hb2, hun2⟩ :=
      fifo_ticks_ring fuel k st1 b1 c (hp1.trans hpol) hb1 (hc1.trans hc)
        (hl1.trans hl) (hrb1.trans hrb) hwf1 hok
    have hlen : (ws.map Prod.fst).length ≤ k := by simpa using hk
    refine ⟨st2, b2, ?_, ?_, hb2, ?_⟩
    · have := run_append RingBuffer.ops fuel _ _ st st1 st2 _ _ hrun1 hrun2
      simpa using this
    · have htr : st2.trace = st.trace ++ (evs1 ++ evs2) := by
        rw [htr2, htr1, List.append_assoc]
      rw [newEvents_append st st2 _ htr, putSamples_append, hput1, hput2, hun1,
        hun0]
      simp [List.take_of_length_le hlen]
    · have : b2.unread.length = 0 := by
        rw [hun2, hun1, hun0]
        simp [List.drop_of_length_le hlen]
      rw [RingBuffer.unread_length] at this
      exact this

theorem pushFifo_end_to_end_witness :
    (configured .PUBLISHER_POLICY_FIFO 0 (scripted [])
      (RingBuffer.create 4 .do_nothing)).m_pushPolicy = .PUBLISHER_POLICY_FIFO ∧
    (RingBuffer.create 4 .do_nothing).WF ∧
    (RingBuffer.create 4 .do_nothing).readable = 0 ∧
    ∃ st' b',
      run RingBuffer.ops 1
          ([([65], (0 : Int)), ([66], 0), ([67], 0)].map
              (fun w => Op.write w.1 w.2) ++ List.replicate 3 Op.tick)
          (configured .PUBLISHER_POLICY_FIFO 0 (scripted [])
            (RingBuffer.create 4 .do_nothing)) =
        .ok (List.replicate [([65], (0 : Int)), ([66], 0), ([67], 0)].length
          .PORT_OK, st') ∧
      putSamples
          (newEvents
            (configured .PUBLISHER_POLICY_FIFO 0 (scripted [])
              (RingBuffer.create 4 .do_nothing)) st') =
        [([65], (0 : Int)), ([66], 0), ([67], 0)].map Prod.fst ∧
      st'.m_buffer = some b' ∧ b'.readable = 0 :=
  ⟨rfl, RingBuffer.WF_create 4 .do_nothing (by decide), rfl,
    (pushFifo_end_to_end 1
      (configured .PUBLISHER_POLICY_FIFO 0 (scripted [])
        (RingBuffer.create 4 .do_nothing))
      (RingBuffer.create 4 .do_nothing) (scripted [])
      { m_period := 1000000, m_alive := true, m_suspend := true }
      rfl rfl rfl rfl rfl (RingBuffer.WF_create 4 .do_nothing (by decide))).2
      rfl rfl rfl (by intro i; simp [scripted]) _ 3 (by decide) (by decide)⟩

/-! ### Policy `new` -/

theorem pushNew_step_ok (B : CdrBufferBase β) (st : PublisherPeriodic β)
    (buf : β) (c : InPortConsumer) (hb : st.m_buffer = some buf)
    (hc : st.m_consumer = some c) (hl : st.m_listeners = some ())
    (he : B.empty buf = false) (hok : c.results c.calls = .PORT_OK) :
    pushNew B st =
      .ok (.PORT_OK,
        ({ st with m_readback := true }).after 1
          (B.advanceRptr (B.advanceRptr buf ((B.readable buf : Int) - 1)) 1)
          (delivery (B.get (B.advanceRptr buf ((B.readable buf : Int) - 1))))) := by
  cases st
  simp_all [pushNew, bufferIsEmpty, getAndPut, notifyOut, advanceRptr,
    InPortConsumer.put, PublisherPeriodic.after, delivery]

theorem pushNew_step_fail (B : CdrBufferBase β) (st : PublisherPeriodic β)
    (buf : β) (c : InPortConsumer) (hb : st.m_buffer = some buf)
    (hc : st.m_consumer = some c) (hl : st.m_listeners = some ())
    (he : B.empty buf = false) (hfail : c.results c.calls ≠ .PORT_OK) :
    pushNew B st =
      invokeListener
        (({ st with m_readback := true }).after 1
          (B.advanceRptr buf ((B.readable buf : Int) - 1))
          [Event.notifyOut .ON_BUFFER_READ
             (B.get (B.advanceRptr buf ((B.readable buf : Int) - 1))),
           Event.notifyOut .ON_SEND
             (B.get (B.advanceRptr buf ((B.readable buf : Int) - 1))),
           Event.consumerPut
             (B.get (B.advanceRptr buf ((B.readable buf : Int) - 1)))
             (c.results c.calls)])
        (c.results c.calls)
        (B.get (B.advanceRptr buf ((B.readable buf : Int) - 1))) := by
  cases st
  simp_all [pushNew, bufferIsEmpty, getAndPut, notifyOut, advanceRptr,
    InPortConsumer.put, PublisherPeriodic.after]

theorem RingBuffer.skip_to_last (b : RingBuffer) (hwf : b.WF)
    (hm : 1 ≤ b.m_fillcount) :
    (b.advanceRptr ((b.m_fillcount : Int) - 1)).WF ∧
    (b.advanceRptr ((b.m_fillcount : Int) - 1)).m_fillcount = 1 ∧
    (b.advanceRptr ((b.m_fillcount : Int) - 1)).m_rpos =
      (b.m_rpos + (b.m_fillcount - 1)) % b.m_length ∧
    (b.advanceRptr ((b.m_fillcount : Int) - 1)).unread =
      [(b.advanceRptr ((b.m_fillcount : Int) - 1)).get] ∧
    b.unread.getLast? = some (b.advanceRptr ((b.m_fillcount : Int) - 1)).get ∧
    b.unread.dropLast = b.unread.take (b.m_fillcount - 1) := by
  have hcast : ((b.m_fillcount : Int) - 1) = ((b.m_fillcount - 1 : Nat) : Int) := by
    omega
  rw [hcast]
  have hle : b.m_fillcount - 1 ≤ b.m_fillcount := Nat.sub_le _ _
  have hwf1 := RingBuffer.WF_advanceRptr_nat b _ hwf hle
  have hfill : (b.advanceRptr ((b.m_fillcount - 1 : Nat) : Int)).m_fillcount = 1 := by
    rw [RingBuffer.advanceRptr_nat b _ hle]
    show b.m_fillcount - (b.m_fillcount - 1) = 1
    omega
  have hrpos : (b.advanceRptr ((b.m_fillcount - 1 : Nat) : Int)).m_rpos =
      (b.m_rpos + (b.m_fillcount - 1)) % b.m_length := by
    rw [RingBuffer.advanceRptr_nat b _ hle]
  have hdrop := RingBuffer.unread_advanceRptr_nat b _ hle
  have hhead := RingBuffer.get_eq_head _ hwf1 (by rw [hfill]; exact Nat.one_pos)
  have htail : ((b.advanceRptr ((b.m_fillcount - 1 : Nat) : Int)).advanceRptr
      1).unread = [] := by
    apply List.eq_nil_of_length_eq_zero
    rw [RingBuffer.unread_length, RingBuffer.advanceRptr_one _ (by rw [hfill])]
    show (b.advanceRptr ((b.m_fillcount - 1 : Nat) : Int)).m_fillcount - 1 = 0
    rw [hfill]
  rw [htail] at hhead
  have hlen := RingBuffer.unread_length b
  have hsplit : b.unread = b.unread.take (b.m_fillcount - 1) ++
      [(b.advanceRptr ((b.m_fillcount - 1 : Nat) : Int)).get] := by
    rw [← hhead, hdrop, List.take_append_drop]
  refine ⟨hwf1, hfill, hrpos, hhead, ?_, ?_⟩
  · rw [hsplit]
    simp
  · conv_lhs => rw [hsplit]
    simp

/-- C9: one tick of policy `new` over a well-formed Ring Buffer holding
`m >= 1` unread samples makes exactly one `put`, for the most recently written
sample `d`; the read pointer is first advanced over the `m - 1` older samples,
none of which is passed to the consumer.  If the `put` returns PORT_OK the
read pointer ends `m` slots ahead and `readable()` is 0; otherwise `d` alone
is left unread. -/
theorem pushNew_delivers_latest (fuel : Nat) (st : PublisherPeriodic RingBuffer)
    (b : RingBuffer) (c : InPortConsumer)
    (hpol : st.m_pushPolicy = .PUBLISHER_POLICY_NEW)
    (hb : st.m_buffer = some b) (hc : st.m_consumer = some c)
    (hl : st.m_listeners = some ()) (hwf : b.WF) (hm : 1 ≤ b.readable) :
    ∃ st' b' d, svc RingBuffer.ops fuel st = .ok st' ∧
      b.unread.getLast? = some d ∧
      putSamples (newEvents st st') = [d] ∧
      st'.m_buffer = some b' ∧
      (c.results c.calls = .PORT_OK →
        b'.readable = 0 ∧
        b'.m_rpos = (b.m_rpos + b.readable) % b.m_length) ∧
      (c.results c.calls ≠ .PORT_OK →
        b'.unread = [d] ∧
        b'.m_rpos = (b.m_rpos + (b.readable - 1)) % b.m_length) := by
  have hpos : 1 ≤ b.m_fillcount := hm
  have he : RingBuffer.ops.empty b = false := by
    simp [RingBuffer.ops, RingBuffer.empty]
    omega
  obtain ⟨hwf1, hfill1, hrpos1, hun1, hlast, -⟩ := RingBuffer.skip_to_last b hwf hpos
  by_cases hok : c.results c.calls = .PORT_OK
  · have hp := pushNew_step_ok RingBuffer.ops st b c hb hc hl he hok
    refine ⟨{ ({ st with m_readback := true }).after 1
          (RingBuffer.ops.advanceRptr
            (RingBuffer.ops.advanceRptr b ((RingBuffer.ops.readable b : Int) - 1)) 1)
          (delivery (RingBuffer.ops.get
            (RingBuffer.ops.advanceRptr b ((RingBuffer.ops.readable b : Int) - 1))))
          with m_retcode := .PORT_OK },
      (b.advanceRptr ((b.m_fillcount : Int) - 1)).advanceRptr 1,
      (b.advanceRptr ((b.m_fillcount : Int) - 1)).get, ?_, hlast, ?_, ?_, ?_, ?_⟩
    · simp only [svc, push, hpol, hp]
    · simp [newEvents, PublisherPeriodic.after, delivery, putSamples,
        RingBuffer.ops, RingBuffer.readable]
    · simp [PublisherPeriodic.after, RingBuffer.ops, RingBuffer.readable]
    · intro _
      rw [RingBuffer.advanceRptr_one _ (by rw [hfill1])]
      constructor
      · show (b.advanceRptr ((b.m_fillcount : Int) - 1)).m_fillcount - 1 = 0
        rw [hfill1]
      · show ((b.advanceRptr ((b.m_fillcount : Int) - 1)).m_rpos + 1) %
          (b.advanceRptr ((b.m_fillcount : Int) - 1)).m_length =
            (b.m_rpos + b.m_fillcount) % b.m_length
        have hlen : (b.advanceRptr ((b.m_fillcount : Int) - 1)).m_length =
            b.m_length := by
          have hcast : ((b.m_fillcount : Int) - 1) =
              ((b.m_fillcount - 1 : Nat) : Int) := by omega
          rw [hcast, RingBuffer.advanceRptr_nat b _ (Nat.sub_le _ _)]
        rw [hlen, hrpos1, Nat.mod_add_mod]
        congr 1
        omega
    · intro h
      exact absurd hok h
  · have hp := pushNew_step_fail RingBuffer.ops st b c hb hc hl he hok
    obtain ⟨ret, type, hinv⟩ := invokeListener_total
      (({ st with m_readback := true }).after 1
        (RingBuffer.ops.advanceRptr b ((RingBuffer.ops.readable b : Int) - 1))
        [Event.notifyOut .ON_BUFFER_READ
           (RingBuffer.ops.get
             (RingBuffer.ops.advanceRptr b ((RingBuffer.ops.readable b : Int) - 1))),
         Event.notifyOut .ON_SEND
           (RingBuffer.ops.get
             (RingBuffer.ops.advanceRptr b ((RingBuffer.ops.readable b : Int) - 1))),
         Event.consumerPut
           (RingBuffer.ops.get
             (RingBuffer.ops.advanceRptr b ((RingBuffer.ops.readable b : Int) - 1)))
           (c.results c.calls)])
      (c.results c.calls)
      (RingBuffer.ops.get
        (RingBuffer.ops.advanceRptr b ((RingBuffer.ops.readable b : Int) - 1)))
      (by simp [PublisherPeriodic.after, hl])
    rw [hinv] at hp
    generalize hs1 : (({ st with m_readback := true }).after 1
        (RingBuffer.ops.advanceRptr b ((RingBuffer.ops.readable b : Int) - 1))
        [Event.notifyOut .ON_BUFFER_READ
           (RingBuffer.ops.get
             (RingBuffer.ops.advanceRptr b ((RingBuffer.ops.readable b : Int) - 1))),
         Event.notifyOut .ON_SEND
           (RingBuffer.ops.get
             (RingBuffer.ops.advanceRptr b ((RingBuffer.ops.readable b : Int) - 1))),
         Event.consumerPut
           (RingBuffer.ops.get
             (RingBuffer.ops.advanceRptr b ((RingBuffer.ops.readable b : Int) - 1)))
           (c.results c.calls)]) = s1 at hp
    refine ⟨{ s1 with
          trace := s1.trace ++
            [Event.notifyOut type
              (RingBuffer.ops.get
                (RingBuffer.ops.advanceRptr b
                  ((RingBuffer.ops.readable b : Int) - 1)))]
          m_retcode := ret },
      b.advanceRptr ((b.m_fillcount : Int) - 1),
      (b.advanceRptr ((b.m_fillcount : Int) - 1)).get, ?_, hlast, ?_, ?_, ?_, ?_⟩
    · simp only [svc, push, hpol, hp]
    · subst hs1
      simp [newEvents, PublisherPeriodic.after, putSamples, RingBuffer.ops,
        RingBuffer.readable]
    · subst hs1
      simp [PublisherPeriodic.after, RingBuffer.ops, RingBuffer.readable]
    · intro h
      exact absurd h hok
    · intro _
      exact ⟨hun1, hrpos1⟩

theorem WF_bufferFive : bufferFive.WF := by
  simp [RingBuffer.WF, bufferFive, RingBuffer.putAndAdvance, RingBuffer.create]

theorem pushNew_delivers_latest_witness :
    (configured .PUBLISHER_POLICY_NEW 0 (scripted []) bufferFive).m_pushPolicy =
      .PUBLISHER_POLICY_NEW ∧
    bufferFive.WF ∧ 1 ≤ bufferFive.readable ∧
    bufferFive.unread = [[0], [1], [2], [3], [4]] ∧
    delivered (run RingBuffer.ops 1 [Op.tick]
        (configured .PUBLISHER_POLICY_NEW 0 (scripted []) bufferFive)) =
      some [[4]] ∧
    ∃ st' b' d,
      svc RingBuffer.ops 1
          (configured .PUBLISHER_POLICY_NEW 0 (scripted []) bufferFive) =
        .ok st' ∧
      bufferFive.unread.getLast? = some d ∧
      putSamples
          (newEvents (configured .PUBLISHER_POLICY_NEW 0 (scripted []) bufferFive)
            st') = [d] ∧
      st'.m_buffer = some b' ∧
      ((scripted []).results (scripted []).calls = .PORT_OK →
        b'.readable = 0 ∧
        b'.m_rpos = (bufferFive.m_rpos + bufferFive.readable) % bufferFive.m_length) ∧
      ((scripted []).results (scripted []).calls ≠ .PORT_OK →
        b'.unread = [d] ∧
        b'.m_rpos =
          (bufferFive.m_rpos + (bufferFive.readable - 1)) % bufferFive.m_length) :=
  ⟨rfl, WF_bufferFive, by decide, by decide, by decide,
    pushNew_delivers_latest 1
      (configured .PUBLISHER_POLICY_NEW 0 (scripted []) bufferFive) bufferFive
      (scripted []) rfl rfl rfl rfl WF_bufferFive (by decide)⟩

/-! ### Policy `skip` -/

theorem pushSkipLoop_step_ok (B : CdrBufferBase β) (skipn k postskip readable : Nat)
    (ret : DataPortStatus) (st : PublisherPeriodic β) (buf : β)
    (c : InPortConsumer) (hb : st.m_buffer = some buf)
    (hc : st.m_consumer = some c) (hl : st.m_listeners = some ())
    (hok : c.results c.calls = .PORT_OK) :
    pushSkipLoop B skipn (k + 1) postskip readable ret st =
      pushSkipLoop B skipn k (skipn + 1) (readable - postskip) .PORT_OK
        (st.after 1 (B.advanceRptr buf (postskip : Int))
          (delivery (B.get (B.advanceRptr buf (postskip : Int))))) := by
  rw [pushSkipLoop]
  cases st
  simp_all [getAndPut, notifyOut, advanceRptr, InPortConsumer.put,
    PublisherPeriodic.after, delivery]

theorem RingBuffer.advanceRptr_add (b : RingBuffer) (n m : Nat)
    (h : n + m ≤ b.m_fillcount) :
    (b.advanceRptr (n : Int)).advanceRptr (m : Int) =
      b.advanceRptr ((n + m : Nat) : Int) := by
  rw [RingBuffer.advanceRptr_nat b n (by omega), RingBuffer.advanceRptr_nat _ m
    (by show m ≤ b.m_fillcount - n; omega), RingBuffer.advanceRptr_nat b (n + m) h]
  simp only [Nat.mod_add_mod]
  congr 1
  · congr 1
    omega
  · omega

theorem RingBuffer.unread_drop_eq_get (b : RingBuffer) (hwf : b.WF) (n : Nat)
    (h : n < b.m_fillcount) :
    b.unread.drop n =
      (b.advanceRptr (n : Int)).get :: b.unread.drop (n + 1) := by
  have hwfn := RingBuffer.WF_advanceRptr_nat b n hwf (Nat.le_of_lt h)
  have hfilln : (b.advanceRptr (n : Int)).m_fillcount = b.m_fillcount - n := by
    rw [RingBuffer.advanceRptr_nat b n (Nat.le_of_lt h)]
  have h1 := RingBuffer.get_eq_head _ hwfn (by rw [hfilln]; omega)
  have h2 : (b.advanceRptr (n : Int)).advanceRptr 1 =
      b.advanceRptr ((n + 1 : Nat) : Int) := by
    have := RingBuffer.advanceRptr_add b n 1 h
    simpa using this
  rw [h2, RingBuffer.unread_advanceRptr_nat b n (Nat.le_of_lt h),
    RingBuffer.unread_advanceRptr_nat b (n + 1) h] at h1
  exact h1

theorem pushSkipLoop_ring_ok (skipn : Nat) (k : Nat) :
    ∀ (postskip readable : Nat) (ret : DataPortStatus)
      (st : PublisherPeriodic RingBuffer) (b : RingBuffer) (c : InPortConsumer),
      st.m_buffer = some b → st.m_consumer = some c →
      st.m_listeners = some () → b.WF →
      (∀ i, c.results i = .PORT_OK) →
      (k = 0 ∨ skipAdvance skipn k postskip < b.m_fillcount) →
      pushSkipLoop RingBuffer.ops skipn k postskip readable ret st =
        .ok (.finished (readable - skipAdvance skipn k postskip)
          (if k = 0 then ret else .PORT_OK)
          (st.after k (b.advanceRptr (skipAdvance skipn k postskip : Int))
            (deliveries (skipPicks skipn k postskip b.unread)))) := by
  induction k with
  | zero =>
    intro postskip readable ret st b c hb hc hl hwf hok hk
    simp only [pushSkipLoop, skipAdvance, skipPicks, deliveries, if_true,
      Nat.sub_zero]
    rw [RingBuffer.advanceRptr_zero b hwf, after_zero st b hb]
  | succ k ih =>
    intro postskip readable ret st b c hb hc hl hwf hok hk
    have hlt : postskip + skipAdvance skipn k (skipn + 1) < b.m_fillcount := by
      rcases hk with h | h
      · omega
      · simpa [skipAdvance] using h
    have hp : postskip < b.m_fillcount := by omega
    have hwf1 := RingBuffer.WF_advanceRptr_nat b postskip hwf (Nat.le_of_lt hp)
    have hfill1 : (b.advanceRptr (postskip : Int)).m_fillcount =
        b.m_fillcount - postskip := by
      rw [RingBuffer.advanceRptr_nat b postskip (Nat.le_of_lt hp)]
    rw [pushSkipLoop_step_ok RingBuffer.ops skipn k postskip readable ret st b c
      hb hc hl (hok _)]
    rw [ih (skipn + 1) (readable - postskip) .PORT_OK _
      (b.advanceRptr (postskip : Int)) { c with calls := c.calls + 1 }
      (by simp [PublisherPeriodic.after, RingBuffer.ops])
      (by simp [PublisherPeriodic.after, hc])
      (by simp [PublisherPeriodic.after, hl]) hwf1 hok
      (by
        by_cases hk0 : k = 0
        · exact Or.inl hk0
        · right
          rw [hfill1]
          omega)]
    rw [after_after, RingBuffer.advanceRptr_add b postskip _ (by omega)]
    have hdrop := RingBuffer.unread_drop_eq_get b hwf postskip hp
    have hun1 := RingBuffer.unread_advanceRptr_nat b postskip (Nat.le_of_lt hp)
    simp only [skipAdvance, skipPicks, hdrop, deliveries, RingBuffer.ops, hun1,
      Nat.sub_sub, Nat.add_comm 1 k, Nat.succ_ne_zero, if_false]
    split <;> rfl

theorem skipAdvance_succ (skipn k postskip : Nat) :
    skipAdvance skipn (k + 1) postskip = postskip + k * (skipn + 1) := by
  induction k generalizing postskip with
  | zero => simp [skipAdvance]
  | succ k ih =>
    rw [skipAdvance, ih, Nat.succ_mul]
    omega

theorem skipAdvance_bound (n l m : Nat) (hl : l ≤ n) :
    ((m + l) / (n + 1) = 0 ∨
      skipAdvance n ((m + l) / (n + 1)) (n - l) < m) ∧
    skipAdvance n ((m + l) / (n + 1)) (n - l) ≤ m := by
  have hdiv := Nat.div_mul_le_self (m + l) (n + 1)
  cases hk : (m + l) / (n + 1) with
  | zero => simp [skipAdvance]
  | succ k =>
    rw [hk, Nat.succ_mul] at hdiv
    rw [skipAdvance_succ]
    generalize k * (n + 1) = x at hdiv ⊢
    constructor
    · right
      omega
    · omega

theorem pushSkip_ring_ok (st : PublisherPeriodic RingBuffer) (b : RingBuffer)
    (c : InPortConsumer) (n : Nat)
    (hb : st.m_buffer = some b) (hc : st.m_consumer = some c)
    (hl : st.m_listeners = some ()) (hwf : b.WF) (hm : 1 ≤ b.m_fillcount)
    (hn : st.m_skipn = (n : Int)) (hleft : st.m_leftskip ≤ n)
    (hok : ∀ i, c.results i = .PORT_OK) :
    pushSkip RingBuffer.ops st =
      .ok (.PORT_OK,
        { st.after ((b.m_fillcount + st.m_leftskip) / (n + 1))
            (b.advanceRptr (b.m_fillcount : Int))
            (deliveries
              (skipPicks n ((b.m_fillcount + st.m_leftskip) / (n + 1))
                (n - st.m_leftskip) b.unread)) with
          m_leftskip := (b.m_fillcount + st.m_leftskip) % (n + 1) }) := by
  have he : RingBuffer.ops.empty b = false := by
    simp [RingBuffer.ops, RingBuffer.empty]
    omega
  obtain ⟨hvalid, hle⟩ := skipAdvance_bound n st.m_leftskip b.m_fillcount hleft
  unfold pushSkip
  rw [bufferIsEmpty_of_nonempty RingBuffer.ops st b hb he]
  have h1 : ¬ (st.m_skipn < 0) := by rw [hn]; omega
  have h2 : ¬ (st.m_skipn < (st.m_leftskip : Int)) := by rw [hn]; omega
  have h3 : st.m_skipn.toNat = n := by rw [hn]; simp
  simp only [hb, h1, h2, h3, if_false]
  have hloop := pushSkipLoop_ring_ok n ((b.m_fillcount + st.m_leftskip) / (n + 1))
    (n - st.m_leftskip) b.m_fillcount .PORT_OK st b c hb hc hl hwf hok hvalid
  simp only [RingBuffer.ops] at hloop ⊢
  simp only [RingBuffer.readable, hloop]
  have hadd := RingBuffer.advanceRptr_add b
    (skipAdvance n ((b.m_fillcount + st.m_leftskip) / (n + 1)) (n - st.m_leftskip))
    (b.m_fillcount -
      skipAdvance n ((b.m_fillcount + st.m_leftskip) / (n + 1)) (n - st.m_leftskip))
    (by omega)
  rw [Nat.add_sub_cancel' hle] at hadd
  simp only [advanceRptr, PublisherPeriodic.after, hadd]
  split <;> rfl

/-- C10 (as stated, refuted): with skip count 2, no carried remainder, nine
samples `[0]`..`[8]` written and then one tick whose `put`s all return PORT_OK,
the samples passed to the consumer are those of index 2, 5 and 8 — not 0, 3
and 6. -/
theorem skip_cadence_not_0_3_6 :
    delivered (run RingBuffer.ops 1 nineWritesThenTick
        (configured .PUBLISHER_POLICY_SKIP 2 (scripted [])
          (RingBuffer.create 16 .do_nothing))) = some [[2], [5], [8]] ∧
    delivered (run RingBuffer.ops 1 nineWritesThenTick
        (configured .PUBLISHER_POLICY_SKIP 2 (scripted [])
          (RingBuffer.create 16 .do_nothing))) ≠ some [[0], [3], [6]] := by
  decide

/-- C10 (amended): with skip count 2, no carried remainder, an empty
well-formed Ring Buffer of capacity at least 9 and a consumer that always
returns PORT_OK, nine writes of samples `s0`..`s8` (all returning PORT_OK)
followed by one tick deliver exactly `s2`, `s5`, `s8`, in this order. -/
theorem skip_cadence_2_5_8 (fuel : Nat) (st : PublisherPeriodic RingBuffer)
    (b : RingBuffer) (c : InPortConsumer) (t : PeriodicTask)
    (s0 s1 s2 s3 s4 s5 s6 s7 s8 : ByteData) (timeout : Int)
    (hpol : st.m_pushPolicy = .PUBLISHER_POLICY_SKIP)
    (hskip : st.m_skipn = 2) (hleft : st.m_leftskip = 0)
    (hb : st.m_buffer = some b) (hc : st.m_consumer = some c)
    (hl : st.m_listeners = some ()) (ht : st.m_task = some t)
    (hr : st.m_retcode = .PORT_OK) (hwf : b.WF) (hempty : b.readable = 0)
    (hcap : 9 ≤ b.m_length) (hok : ∀ i, c.results i = .PORT_OK) :
    ∃ st',
      run RingBuffer.ops fuel
          ([s0, s1, s2, s3, s4, s5, s6, s7, s8].map
              (fun d => Op.write d timeout) ++ [Op.tick]) st =
        .ok (List.replicate 9 .PORT_OK, st') ∧
      putSamples (newEvents st st') = [s2, s5, s8] := by
  have hfill : b.m_fillcount = 0 := hempty
  have hun0 : b.unread = [] := by
    apply List.eq_nil_of_length_eq_zero
    rw [RingBuffer.unread_length, hfill]
  obtain ⟨st1, b1, t1, evs1, hrun1, hb1, hwf1, hun1, -, hfr, htr1, hput1, -⟩ :=
    run_writes_ring fuel
      ([s0, s1, s2, s3, s4, s5, s6, s7, s8].map (fun d => (d, timeout)))
      st b c t hb hc hl ht hr hwf (by simp; omega)
  obtain ⟨hc1, hl1, hp1, hs1, hls1, -, -, -, -⟩ := hfr
  rw [hun0] at hun1
  simp only [List.map_map, List.nil_append] at hun1
  have hfill1 : b1.m_fillcount = 9 := by
    rw [← RingBuffer.unread_length, hun1]
    rfl
  have hpush := pushSkip_ring_ok st1 b1 c 2 hb1 (hc1.trans hc) (hl1.trans hl)
    hwf1 (by omega) (by rw [hs1, hskip]; rfl) (by rw [hls1, hleft]; omega) hok
  rw [hfill1, hls1, hleft, hun1] at hpush
  have hex : ∃ S, pushSkip RingBuffer.ops st1 = .ok (.PORT_OK, S) ∧
      S.trace = st1.trace ++ deliveries [s2, s5, s8] :=
    ⟨_, hpush, by simp [PublisherPeriodic.after, skipPicks]⟩
  obtain ⟨S, hpushS, htrS⟩ := hex
  refine ⟨{ S with m_retcode := .PORT_OK }, ?_, ?_⟩
  · have hrun2 : run RingBuffer.ops fuel [Op.tick] st1 =
        .ok ([], { S with m_retcode := .PORT_OK }) := by
      simp only [run, svc, push, hp1, hpol, hpushS]
    have := run_append RingBuffer.ops fuel _ _ st st1 _ _ _ hrun1 hrun2
    simpa [List.map_map] using this
  · simp [newEvents, htrS, htr1, putSamples_append, hput1, putSamples_deliveries]

theorem skip_cadence_2_5_8_witness :
    (configured .PUBLISHER_POLICY_SKIP 2 (scripted [])
      (RingBuffer.create 16 .do_nothing)).m_pushPolicy = .PUBLISHER_POLICY_SKIP ∧
    (RingBuffer.create 16 .do_nothing).WF ∧
    (RingBuffer.create 16 .do_nothing).readable = 0 ∧
    9 ≤ (RingBuffer.create 16 .do_nothing).m_length ∧
    ∃ st',
      run RingBuffer.ops 1
          ([[0], [1], [2], [3], [4], [5], [6], [7], [8]].map
              (fun d => Op.write d 0) ++ [Op.tick])
          (configured .PUBLISHER_POLICY_SKIP 2 (scripted [])
            (RingBuffer.create 16 .do_nothing)) =
        .ok (List.replicate 9 .PORT_OK, st') ∧
      putSamples
          (newEvents
            (configured .PUBLISHER_POLICY_SKIP 2 (scripted [])
              (RingBuffer.create 16 .do_nothing)) st') = [[2], [5], [8]] :=
  ⟨rfl, RingBuffer.WF_create 16 .do_nothing (by decide), rfl, by decide,
    skip_cadence_2_5_8 1
      (configured .PUBLISHER_POLICY_SKIP 2 (scripted [])
        (RingBuffer.create 16 .do_nothing))
      (RingBuffer.create 16 .do_nothing) (scripted [])
      { m_period := 1000000, m_alive := true, m_suspend := true }
      [0] [1] [2] [3] [4] [5] [6] [7] [8] 0 rfl rfl rfl rfl rfl rfl rfl rfl
      (RingBuffer.WF_create 16 .do_nothing (by decide)) rfl (by decide)
      (by intro i; simp [scripted])⟩

/-! ### Activation, and the listeners fired by `write` -/

/-- C16: `activate` with a task and a buffer sets the active flag, resumes the
task and returns PORT_OK; `deactivate` with a task clears the flag, suspends
the task and returns PORT_OK; without the task (for `activate` also without
the buffer) they return PRECONDITION_NOT_MET and leave the state, flag and
task included, as it was. -/
theorem activate_deactivate_toggle (st : PublisherPeriodic β) :
    (∀ t buf, st.m_task = some t → st.m_buffer = some buf →
      activate st =
        (.PORT_OK, { st with m_active := true, m_task := some t.resume }) ∧
      isActive (activate st).2 = true ∧ t.resume.m_suspend = false) ∧
    (∀ t, st.m_task = some t →
      deactivate st =
        (.PORT_OK, { st with m_active := false, m_task := some t.suspend }) ∧
      isActive (deactivate st).2 = false ∧ t.suspend.m_suspend = true) ∧
    (st.m_task = none ∨ st.m_buffer = none →
      activate st = (.PRECONDITION_NOT_MET, st)) ∧
    (st.m_task = none → deactivate st = (.PRECONDITION_NOT_MET, st)) := by
  refine ⟨?_, ?_, ?_, ?_⟩
  · intro t buf ht hb
    simp [activate, isActive, ht, hb, PeriodicTask.resume]
  · intro t ht
    simp [deactivate, isActive, ht, PeriodicTask.suspend]
  · intro h
    rcases h with h | h
    · simp [activate, h]
    · cases ht : st.m_task <;> simp [activate, h, ht]
  · intro h
    simp [deactivate, h]

theorem write_ring_rejected (st : PublisherPeriodic RingBuffer) (b : RingBuffer)
    (c : InPortConsumer) (t : PeriodicTask) (d : ByteData) (timeout : Int)
    (hb : st.m_buffer = some b) (hc : st.m_consumer = some c)
    (hl : st.m_listeners = some ()) (ht : st.m_task = some t)
    (hr : st.m_retcode = .PORT_OK) (hfull : b.m_length ≤ b.m_fillcount)
    (hpol : b.m_fullPolicy = .do_nothing) :
    write RingBuffer.ops st d timeout =
      .ok (.BUFFER_FULL,
        { st with
            m_data := d
            m_buffer := some b
            m_task := some t.resume
            trace := st.trace ++
              [Event.notifyOut .ON_BUFFER_WRITE d,
               Event.bufferWrite d timeout .FULL,
               Event.notifyOut .ON_BUFFER_FULL d] }) := by
  unfold write
  simp [hb, hc, hl, ht, hr, notifyOut, RingBuffer.ops, RingBuffer.write,
    RingBuffer.full, hfull, hpol, convertReturn, Except.map]

/-- C13 (as stated, refuted): capacity 1, reject on full.  The
write of X (`[88]`) returns PORT_OK; the write of Y (`[89]`) before any tick
returns BUFFER_FULL and fires ON_BUFFER_FULL once — but ON_BUFFER_WRITE has
been fired for Y as well, before the buffer refused it. -/
theorem second_write_fires_on_buffer_write :
    observe (run RingBuffer.ops 1 [Op.write [88] 0, Op.write [89] 0]
        (configured .PUBLISHER_POLICY_FIFO 0 (scripted [])
          (RingBuffer.create 1 .do_nothing))) =
      some ([DataPortStatus.PORT_OK, DataPortStatus.BUFFER_FULL],
        [Event.notifyOut .ON_BUFFER_WRITE [88],
         Event.bufferWrite [88] 0 .OK,
         Event.notifyOut .ON_BUFFER_WRITE [89],
         Event.bufferWrite [89] 0 .FULL,
         Event.notifyOut .ON_BUFFER_FULL [89]]) := by
  decide

/-- C13 (amended): with an empty Ring Buffer of capacity 1 that
rejects writes when full, the write of X returns PORT_OK after firing
ON_BUFFER_WRITE for X; the write of Y before any delivery tick fires
ON_BUFFER_WRITE for Y (the notification precedes the buffer's `write`), gets
FULL from the buffer, fires ON_BUFFER_FULL for Y exactly once and returns
BUFFER_FULL.  These five events are all that the two writes fire, and
afterwards X is the buffer's only unread sample: Y has not been stored. -/
theorem write_full_fires_write_then_full (fuel : Nat)
    (st : PublisherPeriodic RingBuffer) (b : RingBuffer) (c : InPortConsumer)
    (t : PeriodicTask) (X Y : ByteData) (t1 t2 : Int)
    (hb : st.m_buffer = some b) (hc : st.m_consumer = some c)
    (hl : st.m_listeners = some ()) (ht : st.m_task = some t)
    (hr : st.m_retcode = .PORT_OK) (hwf : b.WF) (hcap : b.m_length = 1)
    (hempty : b.readable = 0) (hpol : b.m_fullPolicy = .do_nothing) :
    ∃ st' b', run RingBuffer.ops fuel [Op.write X t1, Op.write Y t2] st =
        .ok ([.PORT_OK, .BUFFER_FULL], st') ∧
      newEvents st st' =
        [Event.notifyOut .ON_BUFFER_WRITE X, Event.bufferWrite X t1 .OK,
         Event.notifyOut .ON_BUFFER_WRITE Y, Event.bufferWrite Y t2 .FULL,
         Event.notifyOut .ON_BUFFER_FULL Y] ∧
      st'.m_buffer = some b' ∧ b'.readable = 1 ∧ b'.unread = [X] := by
  have hfill : b.m_fillcount = 0 := hempty
  have hnil : b.unread = [] :=
    List.eq_nil_of_length_eq_zero (by rw [RingBuffer.unread_length, hfill])
  have hun : (b.putAndAdvance X).unread = [X] := by
    rw [RingBuffer.unread_putAndAdvance b X hwf (by omega), hnil]
    rfl
  have hrd : (b.putAndAdvance X).readable = 1 := by
    show b.m_fillcount + 1 = 1
    omega
  have h1 := write_ring_ok st b c t X t1 hb hc hl ht hr (by omega)
  have h2 := write_ring_rejected
    { st with
        m_data := X
        m_buffer := some (b.putAndAdvance X)
        m_task := some t.resume
        trace := st.trace ++
          [Event.notifyOut .ON_BUFFER_WRITE X, Event.bufferWrite X t1 .OK] }
    (b.putAndAdvance X) c t.resume Y t2 rfl hc hl rfl hr
    (by
      show b.m_length ≤ b.m_fillcount + 1
      omega)
    hpol
  have hex : ∃ S, write RingBuffer.ops
        { st with
            m_data := X
            m_buffer := some (b.putAndAdvance X)
            m_task := some t.resume
            trace := st.trace ++
              [Event.notifyOut .ON_BUFFER_WRITE X, Event.bufferWrite X t1 .OK] }
        Y t2 = .ok (.BUFFER_FULL, S) ∧
      S.trace = st.trace ++
        [Event.notifyOut .ON_BUFFER_WRITE X, Event.bufferWrite X t1 .OK,
         Event.notifyOut .ON_BUFFER_WRITE Y, Event.bufferWrite Y t2 .FULL,
         Event.notifyOut .ON_BUFFER_FULL Y] ∧
      S.m_buffer = some (b.putAndAdvance X) := ⟨_, h2, by simp, rfl⟩
  obtain ⟨S, hS, htr, hbuf⟩ := hex
  refine ⟨S, b.putAndAdvance X, ?_, ?_, hbuf, hrd, hun⟩
  · simp only [run, h1, hS]
  · exact newEvents_append st S _ htr

theorem write_full_fires_write_then_full_witness :
    (RingBuffer.create 1 .do_nothing).WF ∧
    (RingBuffer.create 1 .do_nothing).m_length = 1 ∧
    (RingBuffer.create 1 .do_nothing).readable = 0 ∧
    ∃ st' b', run RingBuffer.ops 1 [Op.write [88] 0, Op.write [89] 5]
        (configured .PUBLISHER_POLICY_NEW 0 (scripted [])
          (RingBuffer.create 1 .do_nothing)) =
        .ok ([.PORT_OK, .BUFFER_FULL], st') ∧
      newEvents (configured .PUBLISHER_POLICY_NEW 0 (scripted [])
          (RingBuffer.create 1 .do_nothing)) st' =
        [Event.notifyOut .ON_BUFFER_WRITE [88], Event.bufferWrite [88] 0 .OK,
         Event.notifyOut .ON_BUFFER_WRITE [89], Event.bufferWrite [89] 5 .FULL,
         Event.notifyOut .ON_BUFFER_FULL [89]] ∧
      st'.m_buffer = some b' ∧ b'.readable = 1 ∧ b'.unread = [[88]] :=
  ⟨RingBuffer.WF_create 1 .do_nothing (by decide), rfl, rfl,
    write_full_fires_write_then_full 1
      (configured .PUBLISHER_POLICY_NEW 0 (scripted [])
        (RingBuffer.create 1 .do_nothing))
      (RingBuffer.create 1 .do_nothing) (scripted [])
      { m_period := 1000000, m_alive := true, m_suspend := true }
      [88] [89] 0 5 rfl rfl rfl rfl rfl
      (RingBuffer.WF_create 1 .do_nothing (by decide)) rfl rfl rfl⟩

/-! ### InPort providers -/

theorem InPortProvider.notifyIn_of_listeners (st : InPortProvider)
    (type : ConnectorDataListenerType) (data : ByteData)
    (hl : st.m_listeners = some ()) :
    st.notifyIn type data =
      .ok { st with trace := st.trace ++ [InEvent.notifyIn type data] } := by
  simp [InPortProvider.notifyIn, hl]

namespace OutPortCorbaCdrConsumer

theorem Calm.log {γ : Type} {n : Nat} {st : OutPortCorbaCdrConsumer γ}
    (h : Calm n st) (e : InEvent) (he : ∀ step, e ≠ InEvent.raised step) :
    Calm n { st with trace := st.trace ++ [e] } := by
  obtain ⟨h1, h2, h3, h4⟩ := h
  refine ⟨?_, ?_, h3, h4⟩
  · simp
    omega
  · intro step hin
    simp only [List.drop_append_of_le_length h1, List.mem_append,
      List.mem_singleton] at hin
    rcases hin with hin | hin
    · exact h2 step hin
    · exact he step hin.symm

theorem Calm.setBuffer {γ : Type} {n : Nat} {st : OutPortCorbaCdrConsumer γ}
    (h : Calm n st) (b : γ) : Calm n { st with m_buffer := some b } := by
  obtain ⟨h1, h2, h3, -⟩ := h
  exact ⟨h1, h2, h3, rfl⟩

theorem Caught.raise {γ : Type} {n : Nat} {st : OutPortCorbaCdrConsumer γ}
    (h : n ≤ st.trace.length) (step : GetStep) :
    Caught n (.ok (.raised
      { st with trace := st.trace ++ [InEvent.raised step] })) := by
  refine ⟨_, rfl, step, ?_⟩
  simp [List.drop_append_of_le_length h]

theorem Caught.ret {γ : Type} {n : Nat} {st : OutPortCorbaCdrConsumer γ}
    (h : Calm n st) (r : DataPortStatus) (hr : r ≠ .CONNECTION_LOST) :
    Caught n (.ok (.returned r st)) :=
  ⟨_, rfl, hr, h.2.1⟩

theorem notifyIn_caught {γ : Type} {n : Nat} (env : GetEnv) (step : GetStep)
    (type : ConnectorDataListenerType) (data : ByteData)
    (st : OutPortCorbaCdrConsumer γ)
    (k : OutPortCorbaCdrConsumer γ →
      Except Fault (Tried (OutPortCorbaCdrConsumer γ)))
    (h : Calm n st) (hk : ∀ s, Calm n s → Caught n (k s)) :
    Caught n (notifyIn env step type data st k) := by
  obtain ⟨b, l, d, t⟩ := st
  have hl : l = some () := h.2.2.1
  subst hl
  simp only [notifyIn]
  split_ifs
  · exact Caught.raise h.1 step
  · exact hk _ (h.log _ (by simp))

theorem notify_caught {γ : Type} {n : Nat} (env : GetEnv) (step : GetStep)
    (type : ConnectorListenerType) (st : OutPortCorbaCdrConsumer γ)
    (k : OutPortCorbaCdrConsumer γ →
      Except Fault (Tried (OutPortCorbaCdrConsumer γ)))
    (h : Calm n st) (hk : ∀ s, Calm n s → Caught n (k s)) :
    Caught n (notify env step type st k) := by
  obtain ⟨b, l, d, t⟩ := st
  have hl : l = some () := h.2.2.1
  subst hl
  simp only [notify]
  split_ifs
  · exact Caught.raise h.1 step
  · exact hk _ (h.log _ (by simp))

theorem onBuffer_caught {γ : Type} {n : Nat} (env : GetEnv) (step : GetStep)
    (st : OutPortCorbaCdrConsumer γ)
    (k : γ → OutPortCorbaCdrConsumer γ →
      Except Fault (Tried (OutPortCorbaCdrConsumer γ)))
    (h : Calm n st) (hk : ∀ b s, Calm n s → Caught n (k b s)) :
    Caught n (onBuffer env step st k) := by
  obtain ⟨b, l, d, t⟩ := st
  cases b with
  | none =>
    have := h.2.2.2
    simp at this
  | some buf =>
    simp only [onBuffer]
    split_ifs
    · exact Caught.raise h.1 step
    · exact hk _ _ h

theorem convertReturn_caught {γ : Type} {n : Nat} (env : GetEnv)
    (st : OutPortCorbaCdrConsumer γ) (status : PortStatus) (h : Calm n st) :
    Caught n (convertReturn env st status) := by
  cases status <;> simp only [convertReturn]
  · exact Caught.ret h _ (by decide)
  · exact notify_caught env _ _ st _ h (fun s hs => Caught.ret hs _ (by decide))
  · exact Caught.ret h _ (by decide)
  · exact notify_caught env _ _ st _ h (fun s hs => Caught.ret hs _ (by decide))
  · exact notify_caught env _ _ st _ h (fun s hs => Caught.ret hs _ (by decide))
  · exact notify_caught env _ _ st _ h (fun s hs => Caught.ret hs _ (by decide))
  · exact notify_caught env _ _ st _ h (fun s hs => Caught.ret hs _ (by decide))

theorem getTry_caught {γ : Type} (B : CdrBufferPut γ) (env : GetEnv)
    (st : OutPortCorbaCdrConsumer γ) (h : Calm st.trace.length st) :
    Caught st.trace.length (getTry B env st) := by
  unfold getTry
  cases hrep : env.reply with
  | raised => exact Caught.raise (Nat.le_refl _) _
  | returned ret cdr =>
    simp only []
    have h1 : Calm st.trace.length
        { st with trace := st.trace ++ [InEvent.remoteGet ret] } :=
      h.log _ (by simp)
    split_ifs
    · exact Caught.raise h1.1 _
    · have h2 : Calm st.trace.length
          { st with trace := st.trace ++ [InEvent.remoteGet ret], data := cdr } := h1
      refine notifyIn_caught env _ _ _ _ _ h2 (fun s3 h3 => ?_)
      refine notifyIn_caught env _ _ _ _ _ h3 (fun s4 h4 => ?_)
      refine onBuffer_caught env _ _ _ h4 (fun buf s5 h5 => ?_)
      have hrest : ∀ s6, Calm st.trace.length s6 →
          Caught st.trace.length
            (onBuffer env .bufferPut s6 fun buf1 st7 =>
              onBuffer env .advanceWptr
                { st7 with
                    m_buffer := some (B.put buf1 st7.data)
                    trace := st7.trace ++ [InEvent.bufferPut st7.data] }
                fun buf2 st9 =>
                onBuffer env .advanceRptr
                  { st9 with m_buffer := some (B.advanceWptr buf2) }
                  fun buf3 st10 =>
                  .ok (.returned .PORT_OK
                    { st10 with m_buffer := some (B.advanceRptr buf3) })) := by
        intro s6 h6
        refine onBuffer_caught env _ _ _ h6 (fun b1 s7 h7 => ?_)
        refine onBuffer_caught env _ _ _
          ((h7.log _ (by simp)).setBuffer _) (fun b2 s9 h9 => ?_)
        refine onBuffer_caught env _ _ _ (h9.setBuffer _) (fun b3 s10 h10 => ?_)
        exact Caught.ret (h10.setBuffer _) _ (by decide)
      split_ifs
      · refine notifyIn_caught env _ _ _ _ _ h5 (fun s6 h6 => ?_)
        exact notifyIn_caught env _ _ _ _ _ h6 hrest
      · exact hrest _ h5
    · exact convertReturn_caught env _ ret h1

end OutPortCorbaCdrConsumer

/-- C19: with buffer and listeners set, `OutPortCorbaCdrConsumer::get` returns
a `DataPortStatus` for every behaviour of the remote call and of the other
calls in its `try` block — no exception leaves it; when the remote call
throws the status is CONNECTION_LOST, and more generally the status is
CONNECTION_LOST exactly when some call inside the `try` block threw. -/
theorem get_never_raises {γ : Type} (B : CdrBufferPut γ) (env : GetEnv)
    (st : OutPortCorbaCdrConsumer γ) (buf : γ)
    (hb : st.m_buffer = some buf) (hl : st.m_listeners = some ()) :
    ∃ r st', OutPortCorbaCdrConsumer.get B env st = .ok (r, st') ∧
      (env.reply = .raised → r = .CONNECTION_LOST) ∧
      ((∃ step, InEvent.raised step ∈ st'.trace.drop st.trace.length) ↔
        r = .CONNECTION_LOST) := by
  have hcalm : OutPortCorbaCdrConsumer.Calm st.trace.length st :=
    ⟨Nat.le_refl _, by simp, hl, by simp [hb]⟩
  obtain ⟨t, ht, hprop⟩ := OutPortCorbaCdrConsumer.getTry_caught B env st hcalm
  cases t with
  | returned r s =>
    obtain ⟨hr, hno⟩ := hprop
    refine ⟨r, s, by simp [OutPortCorbaCdrConsumer.get, ht], ?_, ?_⟩
    · intro hrep
      simp [OutPortCorbaCdrConsumer.getTry, hrep] at ht
    · constructor
      · rintro ⟨step, hin⟩
        exact absurd hin (hno step)
      · intro h
        exact absurd h hr
  | raised s =>
    refine ⟨.CONNECTION_LOST, s, by simp [OutPortCorbaCdrConsumer.get, ht],
      fun _ => rfl, ?_⟩
    exact ⟨fun _ => rfl, fun _ => hprop⟩

theorem get_never_raises_witness :
    consumerReady.m_buffer = some (RingBuffer.create 4 .do_nothing) ∧
    consumerReady.m_listeners = some () ∧
    ∃ r st',
      OutPortCorbaCdrConsumer.get RingBuffer.putOps (calmEnv .raised)
        consumerReady = .ok (r, st') ∧
      ((calmEnv .raised).reply = .raised → r = .CONNECTION_LOST) ∧
      ((∃ step, InEvent.raised step ∈ st'.trace.drop consumerReady.trace.length) ↔
        r = .CONNECTION_LOST) :=
  ⟨rfl, rfl,
    get_never_raises RingBuffer.putOps (calmEnv .raised) consumerReady
      (RingBuffer.create 4 .do_nothing) rfl rfl⟩

/-- C12 (evaluation at the failing input): under the `skip` policy with skip
count 0, with `[1]` and `[2]`
written and the second `put` of the first tick failing, the buffer never
overflows and yet the samples whose `put` returned PORT_OK are `[1]`, `[1]`,
`[2]`: the sample `[1]` is delivered twice, so the delivered sequence is not a
subsequence of the written one.  Under the `all` policy the same run delivers
`[1]`, `[2]`. -/
theorem skip_redelivers_after_failure :
    writtenAndOk (run RingBuffer.ops 8 twoWritesTwoTicks
        (secondPutFails .PUBLISHER_POLICY_SKIP)) =
      some ([[1], [2]], [[1], [1], [2]]) ∧
    ¬ List.Sublist [[1], [1], [2]] ([[1], [2]] : List ByteData) ∧
    ((run RingBuffer.ops 8 twoWritesTwoTicks
        (secondPutFails .PUBLISHER_POLICY_SKIP)).toOption.map
      (fun p => p.1)) = some [.PORT_OK, .PORT_OK] ∧
    writtenAndOk (run RingBuffer.ops 8 twoWritesTwoTicks
        (secondPutFails .PUBLISHER_POLICY_ALL)) =
      some ([[1], [2]], [[1], [2]]) := by
  refine ⟨by decide, by decide, by decide, by decide⟩

/-! ### coil::Properties lookups -/

theorem coil.Properties.splitLoop_ne_nil (str : Str) (delim : Char) (n : Nat) :
    ∀ b e v, coil.Properties.splitLoop str delim n b e v ≠ [] := by
  induction n with
  | zero => intro b e v; simp [coil.Properties.splitLoop]
  | succ n ih =>
    intro b e v
    simp only [coil.Properties.splitLoop]
    split_ifs
    · exact ih _ _ _
    · exact ih _ _ _

theorem coil.Properties._getNodeFrom_total (keys : List Str) :
    ∀ p : coil.Properties, keys ≠ [] →
      ∃ r, coil.Properties._getNodeFrom keys p = .ok r := by
  induction keys with
  | nil => intro p h; exact absurd rfl h
  | cons key rest ih =>
    intro p _
    simp only [coil.Properties._getNodeFrom]
    cases p.hasKey key with
    | none => exact ⟨_, rfl⟩
    | some next =>
      simp only []
      split_ifs with hrest
      · exact ih next (by intro h; simp [h] at hrest)
      · exact ⟨_, rfl⟩

theorem coil.Properties.getProperty_total (p : coil.Properties) (key : Str)
    (h : key ≠ []) : ∃ v, p.getProperty key = .ok v := by
  have hs : (coil.Properties.split key '.').2 ≠ [] := by
    cases key with
    | nil => exact absurd rfl h
    | cons c cs =>
      simp only [coil.Properties.split, List.isEmpty_cons, Bool.false_eq_true,
        if_false]
      exact coil.Properties.splitLoop_ne_nil _ _ _ _ _ _
  obtain ⟨r, hr⟩ := coil.Properties._getNodeFrom_total _ p hs
  unfold coil.Properties.getProperty coil.Properties._getNode
  rw [List.drop_zero, hr]
  cases r with
  | none => exact ⟨_, rfl⟩
  | some node => exact ⟨_, rfl⟩

theorem coil.Properties.getPropertyOr_of (p : coil.Properties) (key dflt v : Str)
    (h : p.getProperty key = .ok v) :
    p.getPropertyOr key dflt = .ok (if v.isEmpty then dflt else v) := by
  simp [coil.Properties.getPropertyOr, h]

/-! ### `init` -/

theorem setMeasurement_eq (conv : Conversions) (prop : coil.Properties)
    (task : PeriodicTask) : setMeasurement conv prop task = .ok task := by
  obtain ⟨v1, h1⟩ := prop.getProperty_total "measurement.exec_time".toList (by decide)
  obtain ⟨v2, h2⟩ := prop.getProperty_total "measurement.exec_count".toList (by decide)
  obtain ⟨v3, h3⟩ := prop.getProperty_total "measurement.period_time".toList (by decide)
  obtain ⟨v4, h4⟩ := prop.getProperty_total "measurement.period_count".toList (by decide)
  simp only [setMeasurement, h1, h2, h3, h4, PeriodicTask.executionMeasure,
    PeriodicTask.executionMeasureCount, PeriodicTask.periodicMeasure,
    PeriodicTask.periodicMeasureCount]
  cases conv.stringToInt v2 <;> cases conv.stringToInt v4 <;> rfl

theorem pushRate_eq (conv : Conversions) (prop : coil.Properties) (s1 s2 : Str)
    (h1 : prop.getProperty "publisher.push_rate".toList = .ok s1)
    (h2 : prop.getProperty "push_rate".toList = .ok s2) :
    pushRate conv prop = .ok (rateOf conv s1 s2) := by
  simp only [pushRate, h1, h2, rateOf]
  cases conv.stringToDouble s1 <;> rfl

theorem createTask_eq (conv : Conversions) (factory : PeriodicTaskFactory)
    (st : PublisherPeriodic β) (prop : coil.Properties) (th s1 s2 : Str)
    (hth : prop.getProperty "thread_type".toList = .ok th)
    (h1 : prop.getProperty "publisher.push_rate".toList = .ok s1)
    (h2 : prop.getProperty "push_rate".toList = .ok s2) :
    createTask conv factory st prop =
      .ok (match factory (if th.isEmpty then "default".toList else th) with
        | none => (false, { st with m_task := none })
        | some task =>
          match rateOf conv s1 s2 with
          | none => (false, { st with m_task := some task })
          | some hz =>
            if hz ≤ 0 then (false, { st with m_task := some task })
            else
              (true,
                { st with
                    m_task := some
                      { m_period := conv.periodOf hz
                        m_alive := true
                        m_suspend := true } })) := by
  simp only [createTask, prop.getPropertyOr_of _ _ _ hth, pushRate_eq conv prop s1 s2 h1 h2]
  cases factory (if th.isEmpty then "default".toList else th) with
  | none => rfl
  | some task =>
    simp only []
    cases rateOf conv s1 s2 with
    | none => rfl
    | some hz =>
      simp only []
      split_ifs
      · rfl
      · simp [setMeasurement_eq, PeriodicTask.setPeriod, PeriodicTask.suspend,
          PeriodicTask.activate]

theorem setPushPolicy_eq (conv : Conversions) (st : PublisherPeriodic β)
    (prop : coil.Properties) (v c : Str)
    (hv : prop.getProperty "publisher.push_policy".toList = .ok v)
    (hc : prop.getProperty "publisher.skip_count".toList = .ok c) :
    ∃ p n, setPushPolicy conv st prop =
        .ok { st with m_pushPolicy := p, m_skipn := n } ∧ 0 ≤ n ∧
      (coil.normalize v = "all".toList → p = .PUBLISHER_POLICY_ALL) ∧
      (coil.normalize v = "fifo".toList → p = .PUBLISHER_POLICY_FIFO) ∧
      (coil.normalize v = "skip".toList → p = .PUBLISHER_POLICY_SKIP) ∧
      (coil.normalize v = "new".toList → p = .PUBLISHER_POLICY_NEW) ∧
      (v = [] → p = .PUBLISHER_POLICY_NEW) ∧
      (coil.normalize v ≠ "all".toList → coil.normalize v ≠ "fifo".toList →
        coil.normalize v ≠ "skip".toList → p = .PUBLISHER_POLICY_NEW) := by
  have hnew : coil.normalize "new".toList = "new".toList := by decide
  have h12 : "all".toList ≠ "fifo".toList := by decide
  have h13 : "all".toList ≠ "skip".toList := by decide
  have h14 : "all".toList ≠ "new".toList := by decide
  have h23 : "fifo".toList ≠ "skip".toList := by decide
  have h24 : "fifo".toList ≠ "new".toList := by decide
  have h34 : "skip".toList ≠ "new".toList := by decide
  have hval : ∃ value, prop.getPropertyOr "publisher.push_policy".toList
        "new".toList = .ok value ∧ (v = [] → value = "new".toList) ∧
      (v ≠ [] → value = v) := by
    refine ⟨_, prop.getPropertyOr_of _ _ _ hv, ?_, ?_⟩
    · intro h; simp [h]
    · intro h
      cases v with
      | nil => exact absurd rfl h
      | cons a l => simp
  obtain ⟨value, hget, hempty, hfull⟩ := hval
  have hnorm : v = [] → coil.normalize value = "new".toList := by
    intro h; rw [hempty h]; exact hnew
  have hnorm2 : v ≠ [] → coil.normalize value = coil.normalize v := by
    intro h; rw [hfull h]
  have hnil : v = [] → coil.normalize v ≠ "all".toList ∧
      coil.normalize v ≠ "fifo".toList ∧ coil.normalize v ≠ "skip".toList ∧
      coil.normalize v ≠ "new".toList := by
    intro h; subst h; decide
  have hset : setPushPolicy conv st prop =
      .ok { st with
        m_pushPolicy :=
          if coil.normalize value = "all".toList then .PUBLISHER_POLICY_ALL
          else if coil.normalize value = "fifo".toList then .PUBLISHER_POLICY_FIFO
          else if coil.normalize value = "skip".toList then .PUBLISHER_POLICY_SKIP
          else .PUBLISHER_POLICY_NEW
        m_skipn :=
          match conv.stringToInt (if c.isEmpty then "0".toList else c) with
          | some n => if n < 0 then 0 else n
          | none => 0 } := by
    simp only [setPushPolicy, hget, prop.getPropertyOr_of _ _ _ hc]
    cases conv.stringToInt (if c.isEmpty then "0".toList else c) <;>
      dsimp only <;> split_ifs <;> rfl
  generalize coil.normalize value = w at hnorm hnorm2 hset
  generalize coil.normalize v = u at hnorm2 hnil
  generalize conv.stringToInt (if c.isEmpty then "0".toList else c) = k at hset
  generalize "all".toList = sAll at *
  generalize "fifo".toList = sFifo at *
  generalize "skip".toList = sSkip at *
  generalize "new".toList = sNew at *
  have hw : w = (if v = [] then sNew else u) := by
    by_cases h : v = []
    · simp [h, hnorm h]
    · simp [h, hnorm2 h]
  refine ⟨_, _, hset, ?_, ?_⟩
  · cases k with
    | none => simp
    | some n =>
      simp only []
      split_ifs <;> omega
  · by_cases h : v = []
    · obtain ⟨n1, n2, n3, n4⟩ := hnil h
      simp only [hw, h, if_true]
      refine ⟨fun e => absurd e n1, fun e => absurd e n2, fun e => absurd e n3,
        fun e => absurd e n4, fun _ => ?_, fun _ _ _ => ?_⟩ <;>
        simp [Ne.symm h14, Ne.symm h24, Ne.symm h34]
    · simp only [hw, h, if_false]
      refine ⟨?_, ?_, ?_, ?_, ?_, ?_⟩
      · intro e; simp [e]
      · intro e; simp [e, Ne.symm h12]
      · intro e; simp [e, Ne.symm h13, Ne.symm h23]
      · intro e; simp [e, Ne.symm h14, Ne.symm h24, Ne.symm h34]
      · intro e; exact e.elim
      · intro e1 e2 e3; simp [e1, e2, e3]

/-! ### What `write` and a tick leave unchanged -/

theorem write_frame {B : CdrBufferBase β} {st st' : PublisherPeriodic β}
    {data : ByteData} {timeout : Int} {r : DataPortStatus}
    (h : write B st data timeout = .ok (r, st')) :
    WriteFrame st st' ∧
      (st'.m_task = st.m_task ∨
        ∃ t, st.m_task = some t ∧ st'.m_task = some t.resume) := by
  obtain ⟨pr, c, b, l, t, rc, pp, sk, ac, rb, ls, dt, tr⟩ := st
  cases c with
  | none => simp [write] at h; obtain ⟨-, rfl⟩ := h; simp [WriteFrame]
  | some c =>
  cases b with
  | none => simp [write] at h; obtain ⟨-, rfl⟩ := h; simp [WriteFrame]
  | some b =>
  cases l with
  | none => simp [write] at h; obtain ⟨-, rfl⟩ := h; simp [WriteFrame]
  | some l =>
  by_cases h1 : rc = .CONNECTION_LOST
  · simp [write, h1] at h; obtain ⟨-, rfl⟩ := h; simp [WriteFrame, h1]
  · by_cases h2 : rc = .SEND_FULL
    · simp [write, h2] at h; obtain ⟨-, rfl⟩ := h; simp [WriteFrame, h2]
    · cases t with
      | none => simp [write, h1, h2, notifyOut] at h
      | some t =>
        simp only [write, h1, h2, notifyOut, if_false] at h
        cases hs : (B.write b data timeout).1 <;>
          simp [hs, convertReturn, notifyOut, Except.map] at h <;>
          obtain ⟨-, rfl⟩ := h <;> simp [WriteFrame]

theorem svc_frame {B : CdrBufferBase β} {fuel : Nat} {st st' : PublisherPeriodic β}
    (h : svc B fuel st = .ok st') :
    st'.m_pushPolicy = st.m_pushPolicy ∧ st'.m_skipn = st.m_skipn ∧
      st'.m_active = st.m_active ∧ st'.m_task = st.m_task := by
  obtain ⟨ret, st1, hp, rfl⟩ := svc_ok h
  obtain ⟨evs, hext, -, -⟩ := push_summary B fuel st st1 ret hp
  obtain ⟨-, -, -, -, ht, hpol, hsk, hac, -, -, -⟩ := hext
  exact ⟨hpol, hsk, hac, ht⟩

theorem run_frame (B : CdrBufferBase β) (fuel : Nat) (ops : List Op) :
    ∀ (st st' : PublisherPeriodic β) (rs : List DataPortStatus),
      run B fuel ops st = .ok (rs, st') →
      st'.m_pushPolicy = st.m_pushPolicy ∧ st'.m_skipn = st.m_skipn ∧
        st'.m_active = st.m_active := by
  induction ops with
  | nil =>
    intro st st' rs h
    simp [run] at h
    obtain ⟨-, rfl⟩ := h
    exact ⟨rfl, rfl, rfl⟩
  | cons op ops ih =>
    intro st st' rs h
    cases op with
    | write data timeout =>
      simp only [run] at h
      cases hw : write B st data timeout with
      | error e => simp [hw] at h
      | ok res =>
        obtain ⟨r, st1⟩ := res
        simp only [hw] at h
        cases hr : run B fuel ops st1 with
        | error e => simp [hr] at h
        | ok res2 =>
          obtain ⟨rs2, st2⟩ := res2
          simp [hr] at h
          obtain ⟨-, rfl⟩ := h
          obtain ⟨⟨-, -, hp, hs, -, -, -, ha, -⟩, -⟩ := write_frame hw
          obtain ⟨hp2, hs2, ha2⟩ := ih st1 st2 rs2 hr
          exact ⟨hp2.trans hp, hs2.trans hs, ha2.trans ha⟩
    | tick =>
      simp only [run] at h
      cases hw : svc B fuel st with
      | error e => simp [hw] at h
      | ok st1 =>
        simp only [hw] at h
        obtain ⟨hp, hs, ha, -⟩ := svc_frame hw
        obtain ⟨hp2, hs2, ha2⟩ := ih st1 st' rs h
        exact ⟨hp2.trans hp, hs2.trans hs, ha2.trans ha⟩

theorem init_eq (conv : Conversions) (factory : PeriodicTaskFactory)
    (st : PublisherPeriodic β) (prop : coil.Properties) (p : Policy) (n : Int)
    (th s1 s2 : Str)
    (hset : setPushPolicy conv st prop =
      .ok { st with m_pushPolicy := p, m_skipn := n })
    (hth : prop.getProperty "thread_type".toList = .ok th)
    (h1 : prop.getProperty "publisher.push_rate".toList = .ok s1)
    (h2 : prop.getProperty "push_rate".toList = .ok s2) :
    init conv factory st prop =
      .ok (match factory (if th.isEmpty then "default".toList else th) with
        | none =>
          (.INVALID_ARGS, { st with m_pushPolicy := p, m_skipn := n, m_task := none })
        | some task =>
          match rateOf conv s1 s2 with
          | none =>
            (.INVALID_ARGS,
              { st with m_pushPolicy := p, m_skipn := n, m_task := some task })
          | some hz =>
            if hz ≤ 0 then
              (.INVALID_ARGS,
                { st with m_pushPolicy := p, m_skipn := n, m_task := some task })
            else
              (.PORT_OK,
                { st with
                    m_pushPolicy := p
                    m_skipn := n
                    m_task := some
                      { m_period := conv.periodOf hz
                        m_alive := true
                        m_suspend := true } })) := by
  simp only [init, hset, createTask_eq conv factory _ prop th s1 s2 hth h1 h2]
  cases factory (if th.isEmpty then "default".toList else th) with
  | none => rfl
  | some task =>
    simp only []
    cases rateOf conv s1 s2 with
    | none => rfl
    | some hz =>
      simp only []
      split_ifs <;> rfl

theorem init_frame (conv : Conversions) (factory : PeriodicTaskFactory)
    (st : PublisherPeriodic β) (prop : coil.Properties) :
    ∃ p n r tk, init conv factory st prop =
        .ok (r, { st with m_pushPolicy := p, m_skipn := n, m_task := tk }) ∧
      setPushPolicy conv st prop =
        .ok { st with m_pushPolicy := p, m_skipn := n } ∧ 0 ≤ n ∧
      (r = .PORT_OK → ∃ t, tk = some t ∧ t.m_suspend = true) := by
  obtain ⟨v, hv⟩ := prop.getProperty_total "publisher.push_policy".toList (by decide)
  obtain ⟨c, hc⟩ := prop.getProperty_total "publisher.skip_count".toList (by decide)
  obtain ⟨th, hth⟩ := prop.getProperty_total "thread_type".toList (by decide)
  obtain ⟨s1, h1⟩ := prop.getProperty_total "publisher.push_rate".toList (by decide)
  obtain ⟨s2, h2⟩ := prop.getProperty_total "push_rate".toList (by decide)
  obtain ⟨p, n, hset, hn, -⟩ := setPushPolicy_eq conv st prop v c hv hc
  have hinit := init_eq conv factory st prop p n th s1 s2 hset hth h1 h2
  refine ⟨p, n, ?_⟩
  cases hf : factory (if th.isEmpty then "default".toList else th) with
  | none =>
    rw [hf] at hinit
    exact ⟨_, _, hinit, hset, hn, by simp⟩
  | some task =>
    rw [hf] at hinit
    cases hr : rateOf conv s1 s2 with
    | none =>
      rw [hr] at hinit
      exact ⟨_, _, hinit, hset, hn, by simp⟩
    | some hz =>
      rw [hr] at hinit
      by_cases hz0 : hz ≤ 0
      · simp only [hz0, if_true] at hinit
        exact ⟨_, _, hinit, hset, hn, by simp⟩
      · simp only [hz0, if_false] at hinit
        exact ⟨_, _, hinit, hset, hn, fun _ => ⟨_, rfl, rfl⟩⟩

/-- C14: `init` selects the push policy from the value `v` of
`publisher.push_policy` (the empty string when the key is missing): with `v`
trimmed of blanks at both ends and lower-cased, `all`, `fifo`, `skip` and `new`
select their policy, and an empty or missing value and every other string
select `new`; `init` itself never fails to return.  The selected policy is
still in place after every later sequence of writes and ticks, and each tick
runs the push function of that policy. -/
theorem init_selects_push_policy (conv : Conversions)
    (factory : PeriodicTaskFactory) (st : PublisherPeriodic β)
    (prop : coil.Properties) :
    ∃ v r st', prop.getProperty "publisher.push_policy".toList = .ok v ∧
      init conv factory st prop = .ok (r, st') ∧
      (coil.normalize v = "all".toList →
        st'.m_pushPolicy = .PUBLISHER_POLICY_ALL) ∧
      (coil.normalize v = "fifo".toList →
        st'.m_pushPolicy = .PUBLISHER_POLICY_FIFO) ∧
      (coil.normalize v = "skip".toList →
        st'.m_pushPolicy = .PUBLISHER_POLICY_SKIP) ∧
      (coil.normalize v = "new".toList →
        st'.m_pushPolicy = .PUBLISHER_POLICY_NEW) ∧
      (v = [] → st'.m_pushPolicy = .PUBLISHER_POLICY_NEW) ∧
      (coil.normalize v ≠ "all".toList → coil.normalize v ≠ "fifo".toList →
        coil.normalize v ≠ "skip".toList →
        st'.m_pushPolicy = .PUBLISHER_POLICY_NEW) ∧
      (coil.Properties._getNode
          (coil.Properties.split "publisher.push_policy".toList '.').2 0 prop =
        .ok none → v = []) ∧
      ∀ (B : CdrBufferBase β) (fuel : Nat) (ops : List Op)
        (rs : List DataPortStatus) (st'' : PublisherPeriodic β),
        run B fuel ops st' = .ok (rs, st'') →
        st''.m_pushPolicy = st'.m_pushPolicy ∧
        (st'.m_pushPolicy = .PUBLISHER_POLICY_ALL →
          push B fuel st'' = pushAll B fuel st'') ∧
        (st'.m_pushPolicy = .PUBLISHER_POLICY_FIFO →
          push B fuel st'' = pushFifo B st'') ∧
        (st'.m_pushPolicy = .PUBLISHER_POLICY_SKIP →
          push B fuel st'' = pushSkip B st'') ∧
        (st'.m_pushPolicy = .PUBLISHER_POLICY_NEW →
          push B fuel st'' = pushNew B st'') := by
  obtain ⟨v, hv⟩ := prop.getProperty_total "publisher.push_policy".toList (by decide)
  obtain ⟨c, hc⟩ := prop.getProperty_total "publisher.skip_count".toList (by decide)
  obtain ⟨p, n, hset, -, hall, hfifo, hskip, hnew, hempty, hother⟩ :=
    setPushPolicy_eq conv st prop v c hv hc
  obtain ⟨p', n', r, tk, hinit, hset', -, -⟩ := init_frame conv factory st prop
  have hp : p' = p := by
    rw [hset] at hset'
    have := congrArg (fun x => x.toOption.map (fun s => s.m_pushPolicy)) hset'
    simpa [Except.toOption] using this.symm
  subst hp
  refine ⟨v, r, _, hv, hinit, hall, hfifo, hskip, hnew, hempty, hother, ?_, ?_⟩
  · intro hnone
    simp only [coil.Properties.getProperty, hnone] at hv
    exact (Except.ok.inj hv).symm
  · intro B fuel ops rs st'' hrun
    obtain ⟨hpol, -, -⟩ := run_frame B fuel ops _ _ rs hrun
    refine ⟨hpol, ?_, ?_, ?_, ?_⟩ <;> intro h <;> rw [← hpol] at h <;>
      simp [push, h]

/-! ### Double arithmetic -/

namespace Binary64

theorem levelOf_spec : ∀ (fuel n j : Nat), n < 2 ^ 2 ^ (j + fuel) →
    n < 2 ^ 2 ^ levelOf fuel n j := by
  intro fuel
  induction fuel with
  | zero => intro n j h; simpa [levelOf] using h
  | succ f ih =>
    intro n j h
    unfold levelOf
    split_ifs with hlt
    · exact hlt
    · apply ih
      have : j + 1 + f = j + (f + 1) := by omega
      rw [this]
      exact h

theorem bitsBelow_spec : ∀ (j n : Nat), n < 2 ^ 2 ^ j →
    n < 2 ^ bitsBelow j n ∧ (n ≠ 0 → 2 ^ bitsBelow j n ≤ 2 * n) := by
  intro j
  induction j with
  | zero =>
    intro n h
    have h2 : n < 2 := by simpa using h
    unfold bitsBelow
    split_ifs with h0
    · subst h0; simp
    · have : n = 1 := by omega
      subst this; simp
  | succ j ih =>
    intro n h
    unfold bitsBelow
    split_ifs with hlt
    · exact ih n hlt
    · have hP : 0 < 2 ^ 2 ^ j := Nat.pow_pos (by norm_num)
      have hsq : 2 ^ 2 ^ (j + 1) = 2 ^ 2 ^ j * 2 ^ 2 ^ j := by
        rw [pow_succ, pow_mul, pow_two]
      rw [hsq] at h
      have hq : n / 2 ^ 2 ^ j < 2 ^ 2 ^ j := Nat.div_lt_of_lt_mul h
      have hq1 : 0 < n / 2 ^ 2 ^ j := Nat.div_pos (not_lt.mp hlt) hP
      obtain ⟨h1, h2⟩ := ih _ hq
      have h2' := h2 (by omega)
      have hle : 2 ^ 2 ^ j * (n / 2 ^ 2 ^ j) ≤ n := Nat.mul_div_le n _
      have hlt' : n < 2 ^ 2 ^ j * (n / 2 ^ 2 ^ j + 1) := Nat.lt_mul_div_succ n hP
      rw [pow_add]
      constructor
      · calc n < 2 ^ 2 ^ j * (n / 2 ^ 2 ^ j + 1) := hlt'
          _ ≤ 2 ^ 2 ^ j * 2 ^ bitsBelow j (n / 2 ^ 2 ^ j) :=
            Nat.mul_le_mul_left _ h1
      · intro _
        calc 2 ^ 2 ^ j * 2 ^ bitsBelow j (n / 2 ^ 2 ^ j)
            ≤ 2 ^ 2 ^ j * (2 * (n / 2 ^ 2 ^ j)) := Nat.mul_le_mul_left _ h2'
          _ = 2 * (2 ^ 2 ^ j * (n / 2 ^ 2 ^ j)) := by ring
          _ ≤ 2 * n := Nat.mul_le_mul_left _ hle

theorem bitLength_spec (n : Nat) :
    n < 2 ^ bitLength n ∧ (n ≠ 0 → 2 ^ bitLength n ≤ 2 * n) := by
  apply bitsBelow_spec
  apply levelOf_spec
  simp only [Nat.zero_add]
  calc n < 2 ^ n := Nat.lt_two_pow n
    _ ≤ 2 ^ 2 ^ n := Nat.pow_le_pow_right (by norm_num) (Nat.lt_two_pow n).le

theorem pow2_pos (k : Int) : 0 < pow2 k := Nat.pow_pos (by norm_num)

theorem pow2_ratio (k : Int) :
    ((pow2 k : Nat) : ℚ) / ((pow2 (-k) : Nat) : ℚ) = (2 : ℚ) ^ k := by
  unfold pow2
  rcases le_or_lt 0 k with h | h
  · have h1 : (-k).toNat = 0 := Int.toNat_eq_zero.mpr (by omega)
    have h2 : ((k.toNat : Nat) : Int) = k := Int.toNat_of_nonneg h
    rw [h1]
    push_cast
    rw [div_one, ← zpow_natCast, h2]
  · have h1 : k.toNat = 0 := Int.toNat_eq_zero.mpr (by omega)
    have h2 : (((-k).toNat : Nat) : Int) = -k := Int.toNat_of_nonneg (by omega)
    rw [h1]
    push_cast
    rw [one_div, ← zpow_natCast, h2, zpow_neg, inv_inv]

theorem pow2_lt_iff (n d : Nat) (hd : 0 < d) (k : Int) :
    n * pow2 (-k) < d * pow2 k ↔ (n : ℚ) / d < (2 : ℚ) ^ k := by
  have hdq : (0 : ℚ) < d := by exact_mod_cast hd
  have ha : (0 : ℚ) < (pow2 (-k) : Nat) := by exact_mod_cast pow2_pos _
  rw [← pow2_ratio, div_lt_div_iff₀ hdq ha, mul_comm ((pow2 k : Nat) : ℚ) _]
  exact_mod_cast Iff.rfl

theorem floorLog2_spec (n d : Nat) (hn : 0 < n) (hd : 0 < d) :
    (2 : ℚ) ^ floorLog2 n d ≤ (n : ℚ) / d ∧
    (n : ℚ) / d < (2 : ℚ) ^ (floorLog2 n d + 1) := by
  obtain ⟨hn1, hn2⟩ := bitLength_spec n
  obtain ⟨hd1, hd2⟩ := bitLength_spec d
  have hn2 := hn2 (by omega)
  have hd2 := hd2 (by omega)
  have hdq : (0 : ℚ) < d := by exact_mod_cast hd
  have hnq : (0 : ℚ) < n := by exact_mod_cast hn
  have qn1 : (n : ℚ) < 2 ^ bitLength n := by exact_mod_cast hn1
  have qn2 : (2 : ℚ) ^ bitLength n ≤ 2 * n := by exact_mod_cast hn2
  have qd1 : (d : ℚ) < 2 ^ bitLength d := by exact_mod_cast hd1
  have qd2 : (2 : ℚ) ^ bitLength d ≤ 2 * d := by exact_mod_cast hd2
  have hpn : (0 : ℚ) < 2 ^ bitLength n := by positivity
  have hpd : (0 : ℚ) < 2 ^ bitLength d := by positivity
  have he0 : (2 : ℚ) ^ ((bitLength n : Int) - (bitLength d : Int)) =
      2 ^ bitLength n / 2 ^ bitLength d := by
    rw [zpow_sub₀ (by norm_num : (2 : ℚ) ≠ 0), zpow_natCast, zpow_natCast]
  have hcond := pow2_lt_iff n d hd ((bitLength n : Int) - (bitLength d : Int))
  unfold floorLog2
  simp only
  split_ifs with hc
  · have hlt := hcond.mp hc
    refine ⟨?_, by simpa using hlt⟩
    rw [zpow_sub₀ (by norm_num : (2 : ℚ) ≠ 0), he0, zpow_one,
      le_div_iff₀ hdq, div_div, div_mul_eq_mul_div, div_le_iff₀ (by positivity)]
    nlinarith
  · have hge := not_lt.mp (fun h => hc (hcond.mpr h))
    refine ⟨hge, ?_⟩
    rw [zpow_add₀ (by norm_num : (2 : ℚ) ≠ 0), he0, zpow_one,
      div_lt_iff₀ hdq, div_mul_eq_mul_div, div_mul_eq_mul_div, lt_div_iff₀ hpd]
    nlinarith

theorem nearest_spec (N D : Nat) (hD : 0 < D) :
    N / D ≤ (if 2 * (N % D) < D then N / D else if D < 2 * (N % D) then N / D + 1
      else if N / D % 2 = 0 then N / D else N / D + 1) ∧
    (if 2 * (N % D) < D then N / D else if D < 2 * (N % D) then N / D + 1
      else if N / D % 2 = 0 then N / D else N / D + 1) ≤ N / D + 1 ∧
    |(N : ℚ) / D - ((if 2 * (N % D) < D then N / D
        else if D < 2 * (N % D) then N / D + 1
        else if N / D % 2 = 0 then N / D else N / D + 1 : Nat) : ℚ)| ≤ 1 / 2 ∧
    (|(N : ℚ) / D - ((if 2 * (N % D) < D then N / D
        else if D < 2 * (N % D) then N / D + 1
        else if N / D % 2 = 0 then N / D else N / D + 1 : Nat) : ℚ)| = 1 / 2 →
      (if 2 * (N % D) < D then N / D else if D < 2 * (N % D) then N / D + 1
        else if N / D % 2 = 0 then N / D else N / D + 1) % 2 = 0) := by
  have hDq : (0 : ℚ) < D := by exact_mod_cast hD
  have hdm : D * (N / D) + N % D = N := Nat.div_add_mod N D
  have hr : N % D < D := Nat.mod_lt N hD
  have hNq : (N : ℚ) = D * ((N / D : Nat) : ℚ) + ((N % D : Nat) : ℚ) := by
    exact_mod_cast hdm.symm
  generalize N / D = q at *
  generalize N % D = r at *
  have hrq : (r : ℚ) < D := by exact_mod_cast hr
  have hr0 : (0 : ℚ) ≤ r := by positivity
  have hfrac : (N : ℚ) / D = q + r / D := by
    rw [hNq]; field_simp; ring
  rw [hfrac]
  split_ifs with h1 h2 h3
  · have h1q : 2 * (r : ℚ) < D := by exact_mod_cast h1
    have hlt : (r : ℚ) / D < 1 / 2 := by rw [div_lt_div_iff₀ hDq (by norm_num)]; linarith
    have hge : (0 : ℚ) ≤ r / D := by positivity
    refine ⟨le_rfl, by omega, ?_, ?_⟩
    · rw [add_sub_cancel_left, abs_of_nonneg hge]; exact hlt.le
    · rw [add_sub_cancel_left, abs_of_nonneg hge]; intro h; linarith
  · have h2q : (D : ℚ) < 2 * r := by exact_mod_cast h2
    have hgt : 1 / 2 < (r : ℚ) / D := by rw [div_lt_div_iff₀ (by norm_num) hDq]; linarith
    have hlt1 : (r : ℚ) / D < 1 := by rw [div_lt_one hDq]; exact hrq
    have hneg : (q : ℚ) + r / D - ((q + 1 : Nat) : ℚ) = -(1 - r / D) := by
      push_cast; ring
    refine ⟨by omega, le_rfl, ?_, ?_⟩
    · rw [hneg, abs_neg, abs_of_nonneg (by linarith)]; linarith
    · rw [hneg, abs_neg, abs_of_nonneg (by linarith)]; intro h; linarith
  · have hhalf : (r : ℚ) / D = 1 / 2 := by
      have : 2 * r = D := by omega
      have hq : 2 * (r : ℚ) = D := by exact_mod_cast this
      rw [div_eq_iff hDq.ne']; linarith
    refine ⟨le_rfl, by omega, ?_, fun _ => h3⟩
    rw [add_sub_cancel_left, hhalf, abs_of_pos (by norm_num : (0 : ℚ) < 1 / 2)]
  · have hhalf : (r : ℚ) / D = 1 / 2 := by
      have : 2 * r = D := by omega
      have hq : 2 * (r : ℚ) = D := by exact_mod_cast this
      rw [div_eq_iff hDq.ne']; linarith
    have hneg : (q : ℚ) + r / D - ((q + 1 : Nat) : ℚ) = -(1 / 2) := by
      push_cast; rw [hhalf]; ring
    refine ⟨by omega, le_rfl, ?_, fun _ => by omega⟩
    rw [hneg, abs_neg, abs_of_pos (by norm_num : (0 : ℚ) < 1 / 2)]

/-- When `round` gives infinity the number is at least `2^1024 - 2^970`, the
least one that IEEE 754 rounds to infinity. -/
theorem round_none (n d : Nat) (hd : 0 < d) (h : round n d = none) :
    (2 : ℚ) ^ (1024 : Int) - 2 ^ (970 : Int) ≤ (n : ℚ) / d := by
  rcases Nat.eq_zero_or_pos n with h0 | hn
  · subst h0
    simp [round] at h
  obtain ⟨hlo, -⟩ := floorLog2_spec n d hn hd
  unfold round at h
  rw [if_neg (by omega)] at h
  simp only at h
  generalize he : max (floorLog2 n d) (-1022) = e at h
  have he3 : e = floorLog2 n d ∨ e = -1022 := by
    rw [← he]; rcases max_choice (floorLog2 n d) (-1022) with h | h <;> simp [h]
  have key : ∀ m0 : Nat,
      (if 1023 < e ∨ (e = 1023 ∧ m0 = 2 ^ 53) then (none : Option Binary64)
        else some ⟨m0, e - 52⟩) = none →
      1023 < e ∨ (e = 1023 ∧ m0 = 2 ^ 53) := by
    intro m0 hh
    by_contra hc
    rw [if_neg hc] at hh
    exact absurd hh (by simp)
  have hcond := key _ h
  clear h key
  have h2 : (2 : ℚ) ≠ 0 := by norm_num
  have h970 : (0 : ℚ) < 2 ^ (970 : Int) := by positivity
  rcases hcond with hbig | ⟨he1023, hm⟩
  · have hfl : e = floorLog2 n d := by
      rcases he3 with h | h
      · exact h
      · omega
    calc (2 : ℚ) ^ (1024 : Int) - 2 ^ (970 : Int) ≤ 2 ^ (1024 : Int) := by linarith
      _ ≤ 2 ^ e := zpow_le_zpow_right₀ (by norm_num) (by omega)
      _ = 2 ^ floorLog2 n d := by rw [hfl]
      _ ≤ (n : ℚ) / d := hlo
  · subst he1023
    have hDpos : 0 < d * pow2 (1023 - 52) := Nat.mul_pos hd (pow2_pos _)
    have h2s : (0 : ℚ) < 2 ^ ((1023 : Int) - 52) := by positivity
    have hscale : ((n * pow2 (-((1023 : Int) - 52)) : Nat) : ℚ) /
        ((d * pow2 ((1023 : Int) - 52) : Nat) : ℚ) =
        (n : ℚ) / d / 2 ^ ((1023 : Int) - 52) := by
      have hb : (0 : ℚ) < (pow2 ((1023 : Int) - 52) : Nat) := by
        exact_mod_cast pow2_pos _
      have ha : (0 : ℚ) < (pow2 (-((1023 : Int) - 52)) : Nat) := by
        exact_mod_cast pow2_pos _
      rw [← pow2_ratio ((1023 : Int) - 52)]
      push_cast
      field_simp
    obtain ⟨-, -, hnear, -⟩ :=
      nearest_spec (n * pow2 (-((1023 : Int) - 52))) (d * pow2 ((1023 : Int) - 52)) hDpos
    rw [hm, hscale] at hnear
    have hge : ((2 ^ 53 : Nat) : ℚ) - 1 / 2 ≤ (n : ℚ) / d / 2 ^ ((1023 : Int) - 52) := by
      have := (abs_le.mp hnear).1
      linarith
    rw [le_div_iff₀ h2s] at hge
    have hc53 : ((2 ^ 53 : Nat) : ℚ) = (2 : ℚ) ^ (53 : Int) := by norm_num
    have e1 : (2 : ℚ) ^ (1024 : Int) = ((2 ^ 53 : Nat) : ℚ) * 2 ^ ((1023 : Int) - 52) := by
      rw [hc53, ← zpow_add₀ h2]; congr 1
    have e2 : (2 : ℚ) ^ (970 : Int) = 1 / 2 * 2 ^ ((1023 : Int) - 52) := by
      have : (1 : ℚ) / 2 = 2 ^ (-1 : Int) := by norm_num
      rw [this, ← zpow_add₀ h2]; congr 1
    rw [e1, e2, ← sub_mul]
    exact hge

end Binary64

/-- Known values of the `double` arithmetic: 0.1 is `0x1.999999999999ap-4`,
one third is `0x1.5555555555555p-2`, and a tie goes to the even neighbour:
`2^53 + 1` becomes `2^53` and `2^53 + 3` becomes `2^53 + 4`. -/
theorem Binary64.round_values :
    Binary64.round 1 10 = some ⟨7205759403792794, -56⟩ ∧
    Binary64.round 1 3 = some ⟨6004799503160661, -54⟩ ∧
    Binary64.round (2 ^ 53 + 1) 1 = some ⟨2 ^ 52, 1⟩ ∧
    Binary64.round (2 ^ 53 + 3) 1 = some ⟨2 ^ 52 + 2, 1⟩ := by
  decide

/-- C15 (as stated, refuted): with `publisher.push_rate` 0.0000353 the rate
is the `double` `5209360526415577 * 2^-67`, `init` returns PORT_OK and the
period of the task is 28328611898017 ns; `1/hz` seconds truncated to whole
nanoseconds is 28328611898016, for the `double` as for the number written. -/
theorem period_is_not_truncated_quotient :
    decimalConversions.stringToDouble "0.0000353".toList =
      some (mkRat 5209360526415577 (2 ^ 67)) ∧
    (init decimalConversions defaultFactory (PublisherPeriodic.new RingBuffer)
        slowRateConfig).toOption.map
        (fun r => (r.1, r.2.m_task.map (fun t => t.m_period))) =
      some (.PORT_OK, some 28328611898017) ∧
    truncatedPeriod (mkRat 5209360526415577 (2 ^ 67)) = 28328611898016 ∧
    truncatedPeriod (mkRat 353 10000000) = 28328611898016 := by
  decide

theorem init_selects_push_policy_witness :
    ∃ r st',
      init plainConversions defaultFactory (PublisherPeriodic.new RingBuffer)
        skipConfig = .ok (r, st') ∧
      st'.m_pushPolicy = .PUBLISHER_POLICY_SKIP := by
  obtain ⟨v, r, st', hv, hinit, -, -, hskip, -⟩ :=
    init_selects_push_policy plainConversions defaultFactory
      (PublisherPeriodic.new RingBuffer) skipConfig
  have hv' : skipConfig.getProperty "publisher.push_policy".toList =
      .ok " Skip ".toList := by rfl
  rw [hv'] at hv
  cases hv
  exact ⟨r, st', hinit, hskip (by decide)⟩

/-- C17 (as stated, refuted): after a successful `init`, the three setters and one
`write` that reaches the buffer, the task has been resumed although the
publisher was never activated: `isActive()` is false and the task runs. -/
theorem write_resumes_inactive_task :
    (init plainConversions defaultFactory (PublisherPeriodic.new RingBuffer)
        rateConfig).toOption.map (fun r => (r.1, isActive r.2, taskRunning r.2)) =
      some (.PORT_OK, false, false) ∧
    writtenAfterInit.toOption.map (fun st => (isActive st, taskRunning st)) =
      some (false, true) := by
  decide

theorem step_active {B : CdrBufferBase β} {fuel : Nat} {op : PubOp β}
    {s s' : PublisherPeriodic β} (h : step B fuel op s = .ok s') :
    (op ≠ .activate → op ≠ .deactivate → isActive s' = isActive s) ∧
    ((isActive s = true → taskRunning s = true) →
      isActive s' = true → taskRunning s' = true) := by
  cases op with
  | setConsumer consumer =>
    cases consumer <;> simp [step, setConsumer] at h <;> subst h <;>
      simp [isActive, taskRunning]
  | setBuffer buffer =>
    cases buffer <;> simp [step, setBuffer] at h <;> subst h <;>
      simp [isActive, taskRunning]
  | setListener info listeners =>
    cases listeners <;> simp [step, setListener] at h <;> subst h <;>
      simp [isActive, taskRunning]
  | activate =>
    simp only [step, Except.ok.injEq] at h
    subst h
    refine ⟨fun h => absurd rfl h, ?_⟩
    cases ht : s.m_task <;> cases hb : s.m_buffer <;>
      simp [activate, ht, hb, isActive, taskRunning, PeriodicTask.resume]
  | deactivate =>
    simp only [step, Except.ok.injEq] at h
    subst h
    refine ⟨fun _ h => absurd rfl h, ?_⟩
    cases ht : s.m_task <;>
      simp [deactivate, ht, isActive, taskRunning]
  | write data timeout =>
    simp only [step] at h
    cases hw : write B s data timeout with
    | error e => simp [hw, Except.map] at h
    | ok res =>
      obtain ⟨r, s1⟩ := res
      simp [hw, Except.map] at h
      subst h
      obtain ⟨⟨-, -, -, -, -, -, -, ha, -⟩, ht⟩ := write_frame hw
      refine ⟨fun _ _ => ha, ?_⟩
      intro hinv hact
      rcases ht with ht | ⟨t, ht, ht'⟩
      · have := hinv (by simpa [isActive, ha] using hact)
        simpa [taskRunning, ht] using this
      · simp [taskRunning, ht', PeriodicTask.resume]
  | tick =>
    simp only [step] at h
    obtain ⟨-, -, ha, ht⟩ := svc_frame h
    refine ⟨fun _ _ => ha, ?_⟩
    intro hinv hact
    have := hinv (by simpa [isActive, ha] using hact)
    simpa [taskRunning, ht] using this

theorem steps_active (B : CdrBufferBase β) (fuel : Nat) (ops : List (PubOp β)) :
    ∀ s s' : PublisherPeriodic β, steps B fuel ops s = .ok s' →
      (isActive s = true → taskRunning s = true) →
      isActive s' = true → taskRunning s' = true := by
  induction ops with
  | nil =>
    intro s s' h
    simp [steps] at h
    subst h
    exact id
  | cons op ops ih =>
    intro s s' h hinv
    simp only [steps] at h
    cases hs : step B fuel op s with
    | error e => simp [hs] at h
    | ok s1 =>
      simp only [hs] at h
      exact ih s1 s' h ((step_active hs).2 hinv)

/-- C17, amended: after a successful `init` of an inactive publisher the
publisher is inactive and its task suspended; in every state reached from
there by setters, `activate()`, `deactivate()`, `write()` and delivery ticks,
an active publisher has a running task; and no operation other than
`activate()` and `deactivate()` changes `isActive()`.  (The converse fails:
`write()` resumes the task of an inactive publisher.) -/
theorem active_implies_task_running (conv : Conversions)
    (factory : PeriodicTaskFactory) (prop : coil.Properties)
    (B : CdrBufferBase β) (fuel : Nat) (st0 st1 : PublisherPeriodic β)
    (h0 : isActive st0 = false)
    (hinit : init conv factory st0 prop = .ok (.PORT_OK, st1)) :
    (isActive st1 = false ∧ taskRunning st1 = false) ∧
    (∀ ops st2, steps B fuel ops st1 = .ok st2 →
      isActive st2 = true → taskRunning st2 = true) ∧
    (∀ op s s', step B fuel op s = .ok s' → op ≠ .activate →
      op ≠ .deactivate → isActive s' = isActive s) := by
  obtain ⟨p, n, r, tk, hinit', -, -, htk⟩ := init_frame conv factory st0 prop
  rw [hinit] at hinit'
  simp only [Except.ok.injEq, Prod.mk.injEq] at hinit'
  obtain ⟨hr, hst⟩ := hinit'
  obtain ⟨t, rfl, hsus⟩ := htk hr.symm
  have hact : isActive st1 = false := by
    rw [hst]
    exact h0
  have hrun : taskRunning st1 = false := by
    rw [hst]
    simp [taskRunning, hsus]
  refine ⟨⟨hact, hrun⟩, ?_, ?_⟩
  · intro ops st2 hsteps
    exact steps_active B fuel ops st1 st2 hsteps (by simp [hact])
  · intro op s s' hstep
    exact (step_active hstep).1

theorem active_implies_task_running_witness :
    ∃ st1 st2,
      init plainConversions defaultFactory (PublisherPeriodic.new RingBuffer)
        rateConfig = .ok (.PORT_OK, st1) ∧
      steps RingBuffer.ops 8 wireActivateWriteTick st1 = .ok st2 ∧
      isActive st2 = true ∧ taskRunning st2 = true := by
  have hex : ∃ st1,
      init plainConversions defaultFactory (PublisherPeriodic.new RingBuffer)
        rateConfig = .ok (.PORT_OK, st1) ∧
      ∃ st2, steps RingBuffer.ops 8 wireActivateWriteTick st1 = .ok st2 ∧
        isActive st2 = true :=
    ⟨_, rfl, _, rfl, rfl⟩
  obtain ⟨st1, hinit, st2, hsteps, hact⟩ := hex
  exact ⟨st1, st2, hinit, hsteps, hact,
    (active_implies_task_running plainConversions defaultFactory rateConfig
      RingBuffer.ops 8 (PublisherPeriodic.new RingBuffer) st1 rfl hinit).2.1
      wireActivateWriteTick st2 hsteps hact⟩

/-! ### Skip cadence over several ticks -/

theorem skipPicks_cons (n k p : Nat) (d : ByteData) (ds : List ByteData) :
    skipPicks n k (p + 1) (d :: ds) = skipPicks n k p ds := by
  cases k with
  | zero => simp [skipPicks]
  | succ k => simp [skipPicks]

theorem skipPicks_eq_everyNth (n : Nat) (ds : List ByteData) :
    ∀ l, l ≤ n →
      skipPicks n ((ds.length + l) / (n + 1)) (n - l) ds = everyNth n l ds := by
  induction ds with
  | nil =>
    intro l hl
    have h0 : l / (n + 1) = 0 := Nat.div_eq_of_lt (by omega)
    simp [everyNth, h0, skipPicks]
  | cons d ds ih =>
    intro l hl
    by_cases h : n ≤ l
    · have hln : l = n := by omega
      subst hln
      have hk : (ds.length + 1 + l) / (l + 1) = (ds.length + 0) / (l + 1) + 1 := by
        rw [Nat.add_assoc, Nat.add_comm 1 l, Nat.add_div_right _ (by omega)]
        rfl
      simp only [List.length_cons, hk, Nat.sub_self, skipPicks, List.drop_zero,
        everyNth, Nat.le_refl, if_true]
      rw [skipPicks_cons, ← ih 0 (Nat.zero_le _), Nat.sub_zero]
    · have hp : n - l = (n - (l + 1)) + 1 := by omega
      have hk : (ds.length + 1 + l) = ds.length + (l + 1) := by omega
      simp only [List.length_cons, hk, everyNth, h, if_false]
      rw [hp, skipPicks_cons]
      exact ih (l + 1) (by omega)

theorem everyNth_append (n : Nat) (a b : List ByteData) :
    ∀ l, l ≤ n →
      everyNth n l (a ++ b) =
        everyNth n l a ++ everyNth n ((a.length + l) % (n + 1)) b := by
  induction a with
  | nil =>
    intro l hl
    have h0 : l % (n + 1) = l := Nat.mod_eq_of_lt (by omega)
    simp [everyNth, h0]
  | cons d a ih =>
    intro l hl
    by_cases h : n ≤ l
    · have hln : l = n := by omega
      subst hln
      have hm : (a.length + 1 + l) % (l + 1) = (a.length + 0) % (l + 1) := by
        rw [Nat.add_assoc, Nat.add_comm 1 l, Nat.add_mod_right]
        rfl
      simp only [List.cons_append, everyNth, Nat.le_refl, if_true, List.length_cons, hm]
      exact congrArg (List.cons d) (ih 0 (Nat.zero_le _))
    · have hk : (a.length + 1 + l) = a.length + (l + 1) := by omega
      simp only [List.cons_append, everyNth, h, if_false, List.length_cons, hk]
      exact ih (l + 1) (by omega)

theorem write_ring_accepts (st : PublisherPeriodic RingBuffer) (b : RingBuffer)
    (c : InPortConsumer) (t : PeriodicTask) (d : ByteData) (timeout : Int)
    (hb : st.m_buffer = some b) (hc : st.m_consumer = some c)
    (hl : st.m_listeners = some ()) (ht : st.m_task = some t)
    (hr : st.m_retcode = .PORT_OK ∨ st.m_retcode = .BUFFER_EMPTY)
    (hfree : b.m_fillcount < b.m_length) :
    write RingBuffer.ops st d timeout =
      .ok (.PORT_OK,
        { st with
            m_data := d
            m_buffer := some (b.putAndAdvance d)
            m_task := some t.resume
            trace := st.trace ++
              [Event.notifyOut .ON_BUFFER_WRITE d, Event.bufferWrite d timeout .OK] }) := by
  unfold write
  rcases hr with hr | hr <;>
    simp [hb, hc, hl, ht, hr, notifyOut, RingBuffer.ops,
      RingBuffer.write_of_not_full b d timeout hfree, convertReturn]

theorem run_writes_ring_accepts (fuel : Nat) (timeout : Int) :
    ∀ (ds : List ByteData) (st : PublisherPeriodic RingBuffer)
      (b : RingBuffer) (c : InPortConsumer) (t : PeriodicTask),
      st.m_buffer = some b → st.m_consumer = some c →
      st.m_listeners = some () → st.m_task = some t →
      (st.m_retcode = .PORT_OK ∨ st.m_retcode = .BUFFER_EMPTY) → b.WF →
      b.m_fillcount + ds.length ≤ b.m_length →
      ∃ st' b' t' evs,
        run RingBuffer.ops fuel (ds.map (fun d => Op.write d timeout)) st =
          .ok (List.replicate ds.length .PORT_OK, st') ∧
        st'.m_buffer = some b' ∧ b'.WF ∧ b'.m_length = b.m_length ∧
        b'.unread = b.unread ++ ds ∧
        st'.m_task = some t' ∧ WriteFrame st st' ∧
        st'.trace = st.trace ++ evs ∧ putSamples evs = [] ∧
        bufferWrites evs = ds := by
  intro ds
  induction ds with
  | nil =>
    intro st b c t hb hc hl ht hr hwf hlen
    exact ⟨st, b, t, [], rfl, hb, hwf, rfl, by simp, ht, by simp [WriteFrame],
      by simp, rfl, rfl⟩
  | cons w ws ih =>
    intro st b c t hb hc hl ht hr hwf hlen
    have hfree : b.m_fillcount < b.m_length := by
      simp only [List.length_cons] at hlen
      omega
    have hw := write_ring_accepts st b c t w timeout hb hc hl ht hr hfree
    have hwf1 := RingBuffer.WF_putAndAdvance b w hwf hfree
    obtain ⟨st', b', t', evs, hrun, hb', hwf', hlen', hun, ht', hfr, htr, hput, hbw⟩ :=
      ih { st with
            m_data := w
            m_buffer := some (b.putAndAdvance w)
            m_task := some t.resume
            trace := st.trace ++
              [Event.notifyOut .ON_BUFFER_WRITE w,
               Event.bufferWrite w timeout .OK] }
        (b.putAndAdvance w) c t.resume rfl hc hl rfl hr hwf1
        (by
          show b.m_fillcount + 1 + ws.length ≤ b.m_length
          simp only [List.length_cons] at hlen
          omega)
    refine ⟨st', b', t',
      [Event.notifyOut .ON_BUFFER_WRITE w, Event.bufferWrite w timeout .OK] ++ evs,
      ?_, hb', hwf', hlen', ?_, ht', ?_, ?_, ?_, ?_⟩
    · simp only [List.map_cons, run, hw, hrun, List.length_cons,
        List.replicate_succ]
    · rw [hun, RingBuffer.unread_putAndAdvance b w hwf hfree]
      simp
    · obtain ⟨h1, h2, h3, h4, h5, h6, h7, h8, h9⟩ := hfr
      exact ⟨h1, h2, h3, h4, h5, h6, h7, h8, h9⟩
    · rw [htr]
      simp
    · simp [putSamples, hput]
    · simp [bufferWrites, hbw]

theorem bufferWrites_deliveries (ds : List ByteData) :
    bufferWrites (deliveries ds) = [] := by
  induction ds with
  | nil => rfl
  | cons d ds ih => simp [deliveries, delivery, bufferWrites, ih]

theorem bufferWrites_append (e1 e2 : List Event) :
    bufferWrites (e1 ++ e2) = bufferWrites e1 ++ bufferWrites e2 := by
  induction e1 with
  | nil => rfl
  | cons e es ih => cases e <;> simp [bufferWrites, ih]

theorem skip_tick_ring (fuel : Nat) (n l : Nat)
    (st : PublisherPeriodic RingBuffer) (b : RingBuffer) (c : InPortConsumer)
    (hpol : st.m_pushPolicy = .PUBLISHER_POLICY_SKIP)
    (hn : st.m_skipn = (n : Int)) (hleft : st.m_leftskip = l) (hl : l ≤ n)
    (hb : st.m_buffer = some b) (hc : st.m_consumer = some c)
    (hlis : st.m_listeners = some ()) (hrb : st.m_readback = false)
    (hwf : b.WF) (hok : ∀ i, c.results i = .PORT_OK) :
    ∃ st' b' c' evs,
      svc RingBuffer.ops fuel st = .ok st' ∧
      st'.trace = st.trace ++ evs ∧
      putSamples evs = everyNth n l b.unread ∧ bufferWrites evs = [] ∧
      st'.m_leftskip = (b.m_fillcount + l) % (n + 1) ∧
      st'.m_buffer = some b' ∧ b'.WF ∧ b'.m_fillcount = 0 ∧
      b'.m_length = b.m_length ∧
      st'.m_consumer = some c' ∧ (∀ i, c'.results i = .PORT_OK) ∧
      st'.m_listeners = some () ∧ st'.m_task = st.m_task ∧
      st'.m_pushPolicy = .PUBLISHER_POLICY_SKIP ∧ st'.m_skipn = (n : Int) ∧
      st'.m_readback = false ∧
      (st'.m_retcode = .PORT_OK ∨ st'.m_retcode = .BUFFER_EMPTY) := by
  by_cases hfill : b.m_fillcount = 0
  · have hun : b.unread = [] := by
      apply List.eq_nil_of_length_eq_zero
      rw [RingBuffer.unread_length, hfill]
    have he : RingBuffer.ops.empty b = true := by
      simp [RingBuffer.ops, RingBuffer.empty, hfill]
    have hsvc : svc RingBuffer.ops fuel st =
        .ok { st with
          trace := st.trace ++
            [Event.notify .ON_BUFFER_EMPTY, Event.notify .ON_SENDER_EMPTY]
          m_retcode := .BUFFER_EMPTY } := by
      simp only [svc, push, hpol, pushSkip,
        bufferIsEmpty_of_empty RingBuffer.ops st b hb hlis he hrb]
    refine ⟨_, b, c, _, hsvc, rfl, ?_, ?_, ?_, hb, hwf, hfill, rfl, hc, hok,
      hlis, rfl, hpol, hn, hrb, Or.inr rfl⟩
    · simp [hun, everyNth, putSamples]
    · simp [bufferWrites]
    · show st.m_leftskip = (b.m_fillcount + l) % (n + 1)
      rw [hfill, hleft, Nat.zero_add, Nat.mod_eq_of_lt (by omega)]
  · have hm : 1 ≤ b.m_fillcount := by omega
    have hpush := pushSkip_ring_ok st b c n hb hc hlis hwf hm hn
      (by rw [hleft]; exact hl) hok
    rw [hleft] at hpush
    have hsvc : svc RingBuffer.ops fuel st =
        .ok { ({ st.after ((b.m_fillcount + l) / (n + 1))
            (b.advanceRptr (b.m_fillcount : Int))
            (deliveries
              (skipPicks n ((b.m_fillcount + l) / (n + 1)) (n - l) b.unread)) with
          m_leftskip := (b.m_fillcount + l) % (n + 1) } :
            PublisherPeriodic RingBuffer) with m_retcode := .PORT_OK } := by
      simp only [svc, push, hpol, hpush]
    have hpick := skipPicks_eq_everyNth n b.unread l hl
    rw [RingBuffer.unread_length] at hpick
    refine ⟨_, b.advanceRptr (b.m_fillcount : Int),
      { c with calls := c.calls + (b.m_fillcount + l) / (n + 1) }, _, hsvc, rfl,
      ?_, ?_, rfl, rfl, RingBuffer.WF_advanceRptr_nat b _ hwf (Nat.le_refl _),
      ?_, ?_, ?_, hok, hlis, rfl, hpol, hn, hrb, Or.inl rfl⟩
    · rw [putSamples_deliveries, hpick]
    · exact bufferWrites_deliveries _
    · rw [RingBuffer.advanceRptr_nat b _ (Nat.le_refl _)]
      simp
    · rw [RingBuffer.advanceRptr_nat b _ (Nat.le_refl _)]
    · simp [PublisherPeriodic.after, hc]

theorem skip_chunks_ring (fuel : Nat) (n : Nat) (timeout : Int) :
    ∀ (chunks : List (List ByteData)) (st : PublisherPeriodic RingBuffer)
      (b : RingBuffer) (c : InPortConsumer) (t : PeriodicTask) (l : Nat),
      st.m_pushPolicy = .PUBLISHER_POLICY_SKIP → st.m_skipn = (n : Int) →
      st.m_leftskip = l → l ≤ n →
      st.m_buffer = some b → st.m_consumer = some c →
      st.m_listeners = some () → st.m_task = some t →
      (st.m_retcode = .PORT_OK ∨ st.m_retcode = .BUFFER_EMPTY) →
      st.m_readback = false → b.WF → b.m_fillcount = 0 →
      (∀ ch ∈ chunks, ch.length ≤ b.m_length) →
      (∀ i, c.results i = .PORT_OK) →
      ∃ st' evs,
        run RingBuffer.ops fuel (chunkOps timeout chunks) st =
          .ok (List.replicate chunks.flatten.length .PORT_OK, st') ∧
        st'.trace = st.trace ++ evs ∧
        putSamples evs = everyNth n l chunks.flatten ∧
        bufferWrites evs = chunks.flatten ∧
        st'.m_leftskip = (chunks.flatten.length + l) % (n + 1) := by
  intro chunks
  induction chunks with
  | nil =>
    intro st b c t l hpol hn hleft hl hb hc hlis ht hr hrb hwf hfill hfit hok
    refine ⟨st, [], rfl, by simp, rfl, rfl, ?_⟩
    simp only [List.flatten_nil, List.length_nil, Nat.zero_add]
    rw [hleft, Nat.mod_eq_of_lt (by omega)]
  | cons ch rest ih =>
    intro st b c t l hpol hn hleft hl hb hc hlis ht hr hrb hwf hfill hfit hok
    have hun0 : b.unread = [] := by
      apply List.eq_nil_of_length_eq_zero
      rw [RingBuffer.unread_length, hfill]
    obtain ⟨st1, b1, t1, evs1, hrun1, hb1, hwf1, hlen1, hun1, ht1, hfr, htr1,
        hput1, hbw1⟩ :=
      run_writes_ring_accepts fuel timeout ch st b c t hb hc hlis ht hr hwf
        (by
          have := hfit ch (List.mem_cons_self _ _)
          omega)
    obtain ⟨hc1, hl1, hp1, hs1, hls1, hrb1, hr1, -, -⟩ := hfr
    rw [hun0, List.nil_append] at hun1
    have hfill1 : b1.m_fillcount = ch.length := by
      rw [← RingBuffer.unread_length, hun1]
    obtain ⟨st2, b2, c2, evs2, hsvc, htr2, hput2, hbw2, hls2, hb2, hwf2, hfill2,
        hlen2, hc2, hok2, hlis2, ht2, hp2, hs2, hrb2, hr2⟩ :=
      skip_tick_ring fuel n l st1 b1 c (hp1.trans hpol) (hs1.trans hn)
        (hls1.trans hleft) hl hb1 (hc1.trans hc) (hl1.trans hlis)
        (hrb1.trans hrb) hwf1 hok
    rw [hun1] at hput2
    rw [hfill1] at hls2
    obtain ⟨st3, evs3, hrun3, htr3, hput3, hbw3, hls3⟩ :=
      ih st2 b2 c2 t1 ((ch.length + l) % (n + 1)) hp2 hs2 hls2
        (Nat.lt_succ_iff.mp (Nat.mod_lt (ch.length + l) (Nat.succ_pos n)))
        hb2 hc2 hlis2 (ht2.trans ht1) hr2 hrb2 hwf2 hfill2
        (by
          intro ch' hmem
          rw [hlen2, hlen1]
          exact hfit ch' (List.mem_cons_of_mem _ hmem))
        hok2
    have htick : run RingBuffer.ops fuel ([Op.tick] ++ chunkOps timeout rest) st1 =
        .ok (List.replicate rest.flatten.length .PORT_OK, st3) := by
      show run RingBuffer.ops fuel (Op.tick :: chunkOps timeout rest) st1 = _
      simp only [run, hsvc, hrun3]
    have hall := run_append RingBuffer.ops fuel _ _ st st1 st3 _ _ hrun1 htick
    refine ⟨st3, evs1 ++ (evs2 ++ evs3), ?_, ?_, ?_, ?_, ?_⟩
    · simp only [chunkOps, List.append_assoc, List.flatten_cons, List.length_append,
        List.replicate_add]
      exact hall
    · rw [htr3, htr2, htr1]
      simp
    · rw [List.flatten_cons, everyNth_append n ch rest.flatten l hl, putSamples_append,
        putSamples_append, hput1, hput2, hput3]
      simp
    · rw [List.flatten_cons, bufferWrites_append, bufferWrites_append, hbw1, hbw2,
        hbw3]
      simp
    · rw [hls3, List.flatten_cons, List.length_append]
      rw [Nat.add_mod, Nat.mod_mod, ← Nat.add_mod]
      congr 1
      omega

/-- C11: skip cadence over several ticks.  For a skip count `n`, a consumer
that always answers PORT_OK and a Ring Buffer that never overflows (every
group of writes fits the buffer), a run in which the written samples are split
into the consecutive groups `chunks`, one delivery tick after each group,
accepts every write and delivers exactly every `(n + 1)`-th of the written
samples, counted from the carried remainder: the delivered sequence depends on
the concatenation of the groups only, the remainder left is the number of
samples seen modulo `n + 1`, and when all samples fit the buffer a single tick
after all the writes delivers the same sequence and leaves the same
remainder. -/
theorem skip_cadence_partition_independent (fuel : Nat) (n : Nat)
    (timeout : Int) (chunks : List (List ByteData))
    (st : PublisherPeriodic RingBuffer) (b : RingBuffer) (c : InPortConsumer)
    (t : PeriodicTask)
    (hpol : st.m_pushPolicy = .PUBLISHER_POLICY_SKIP)
    (hn : st.m_skipn = (n : Int)) (hleft : st.m_leftskip ≤ n)
    (hb : st.m_buffer = some b) (hc : st.m_consumer = some c)
    (hlis : st.m_listeners = some ()) (ht : st.m_task = some t)
    (hr : st.m_retcode = .PORT_OK) (hrb : st.m_readback = false)
    (hwf : b.WF) (hempty : b.readable = 0)
    (hfit : ∀ ch ∈ chunks, ch.length ≤ b.m_length)
    (hok : ∀ i, c.results i = .PORT_OK) :
    ∃ st',
      run RingBuffer.ops fuel (chunkOps timeout chunks) st =
        .ok (List.replicate chunks.flatten.length .PORT_OK, st') ∧
      bufferWrites (newEvents st st') = chunks.flatten ∧
      putSamples (newEvents st st') = everyNth n st.m_leftskip chunks.flatten ∧
      st'.m_leftskip = (chunks.flatten.length + st.m_leftskip) % (n + 1) ∧
      (chunks.flatten.length ≤ b.m_length →
        ∃ st1,
          run RingBuffer.ops fuel (chunkOps timeout [chunks.flatten]) st =
            .ok (List.replicate chunks.flatten.length .PORT_OK, st1) ∧
          putSamples (newEvents st st1) = putSamples (newEvents st st') ∧
          st1.m_leftskip = st'.m_leftskip) := by
  obtain ⟨st', evs, hrun, htr, hput, hbw, hls⟩ :=
    skip_chunks_ring fuel n timeout chunks st b c t st.m_leftskip hpol hn rfl
      hleft hb hc hlis ht (Or.inl hr) hrb hwf hempty hfit hok
  have hnew : newEvents st st' = evs := by simp [newEvents, htr]
  refine ⟨st', hrun, by rw [hnew, hbw], by rw [hnew, hput], hls, ?_⟩
  intro hall
  obtain ⟨st1, evs1, hrun1, htr1, hput1, -, hls1⟩ :=
    skip_chunks_ring fuel n timeout [chunks.flatten] st b c t st.m_leftskip hpol hn
      rfl hleft hb hc hlis ht (Or.inl hr) hrb hwf hempty
      (by
        intro ch hmem
        rw [List.mem_singleton] at hmem
        rw [hmem]
        exact hall)
      hok
  have hnew1 : newEvents st st1 = evs1 := by simp [newEvents, htr1]
  have hj : [chunks.flatten].flatten = chunks.flatten := by simp
  rw [hj] at hrun1 hput1 hls1
  exact ⟨st1, hrun1, by rw [hnew1, hnew, hput1, hput], by rw [hls1, hls]⟩

theorem skip_cadence_partition_independent_witness :
    skipTwo.m_leftskip ≤ 2 ∧ (RingBuffer.create 8 .do_nothing).WF ∧
    (∀ ch ∈ threeTicks, ch.length ≤ (RingBuffer.create 8 .do_nothing).m_length) ∧
    ∃ st',
      run RingBuffer.ops 1 (chunkOps 0 threeTicks) skipTwo =
        .ok (List.replicate 9 .PORT_OK, st') ∧
      putSamples (newEvents skipTwo st') = [[2], [5], [8]] ∧
      st'.m_leftskip = 0 := by
  have hfit : ∀ ch ∈ threeTicks,
      ch.length ≤ (RingBuffer.create 8 .do_nothing).m_length := by decide
  obtain ⟨st', hrun, -, hput, hls, -⟩ :=
    skip_cadence_partition_independent 1 2 0 threeTicks skipTwo
      (RingBuffer.create 8 .do_nothing) (scripted [])
      { m_period := 1000000, m_alive := true, m_suspend := true }
      rfl rfl (by decide) rfl rfl rfl rfl rfl rfl
      (RingBuffer.WF_create 8 .do_nothing (by decide)) rfl hfit
      (by intro i; simp [scripted])
  exact ⟨by decide, RingBuffer.WF_create 8 .do_nothing (by decide), hfit, st',
    hrun, hput, hls⟩

/-! ### coil::Properties: set and get -/

namespace coil.Properties

theorem find_replaceFirst (k : Str) (node next : Properties)
    (hname : node.name = k) :
    ∀ l : List Properties, l.find? (fun prop => prop.name == k) = some next →
      (replaceFirst k node l).find? (fun prop => prop.name == k) = some node := by
  intro l
  induction l with
  | nil => intro h; simp at h
  | cons c cs ih =>
    intro h
    by_cases hc : c.name = k
    · simp [replaceFirst, hc, hname]
    · have hc' : (c.name == k) = false := by simpa using hc
      simp only [List.find?, hc'] at h
      simp only [replaceFirst, hc', Bool.false_eq_true, if_false, List.find?]
      exact ih h

theorem find_append_new (k : Str) (node : Properties) (hname : node.name = k)
    (l : List Properties) (h : l.find? (fun prop => prop.name == k) = none) :
    (l ++ [node]).find? (fun prop => prop.name == k) = some node := by
  rw [List.find?_append, h]
  simp [hname]

theorem name_of_hasKey {p next : Properties} {k : Str}
    (h : p.hasKey k = some next) : next.name = k := by
  have := List.find?_some h
  simpa using this

theorem walk_name {α : Type} (f : Properties → α × Properties)
    (hf : ∀ n, (f n).2.name = n.name) (keys : List Str) (p : Properties) :
    (walk f keys p).2.name = p.name := by
  cases keys with
  | nil => exact hf p
  | cons k ks =>
    simp only [walk]
    cases p.hasKey k <;> rfl

theorem walk_getNode {α : Type} (f : Properties → α × Properties)
    (hf : ∀ n, (f n).2.name = n.name) (keys : List Str) :
    ∀ p : Properties, keys ≠ [] →
      ∃ n0, _getNodeFrom keys (walk f keys p).2 = .ok (some (f n0).2) ∧
        (walk f keys p).1 = (f n0).1 ∧
        (_getNodeFrom keys p = .ok (some n0) ∨
          (_getNodeFrom keys p = .ok none ∧
            n0.value = [] ∧ n0.default_value = [])) := by
  induction keys with
  | nil => intro p h; exact absurd rfl h
  | cons k ks ih =>
    intro p _
    cases hkey : p.hasKey k with
    | some next =>
      have hname : (walk f ks next).2.name = k :=
        (walk_name f hf ks next).trans (name_of_hasKey hkey)
      have hfind : (mk p.name p.value p.default_value p.set_value
          (replaceFirst k (walk f ks next).2 p.leaf)).hasKey k =
          some (walk f ks next).2 :=
        find_replaceFirst k _ next hname p.leaf hkey
      by_cases hks : ks = []
      · subst hks
        refine ⟨next, ?_, ?_, Or.inl ?_⟩
        · simp only [walk, hkey, _getNodeFrom]
          simp only [walk] at hfind
          rw [hfind]
          simp
        · simp only [walk, hkey]
        · simp [_getNodeFrom, hkey]
      · obtain ⟨n0, h1, h2, h3⟩ := ih next hks
        have hlen : ks.length ≠ 0 := by
          intro h
          exact hks (List.length_eq_zero.mp h)
        refine ⟨n0, ?_, ?_, ?_⟩
        · simp only [walk, hkey, _getNodeFrom]
          rw [hfind]
          simp only [hlen, ne_eq, not_false_eq_true, if_true]
          exact h1
        · simp only [walk, hkey]
          exact h2
        · simp only [_getNodeFrom, hkey, hlen, ne_eq, not_false_eq_true, if_true]
          exact h3
    | none =>
      have hname : (walk f ks (create k [] false)).2.name = k :=
        (walk_name f hf ks _).trans rfl
      have hfind : (mk p.name p.value p.default_value p.set_value
          (p.leaf ++ [(walk f ks (create k [] false)).2])).hasKey k =
          some (walk f ks (create k [] false)).2 :=
        find_append_new k _ hname p.leaf hkey
      by_cases hks : ks = []
      · subst hks
        refine ⟨create k [] false, ?_, ?_, Or.inr ⟨?_, rfl, rfl⟩⟩
        · simp only [walk, hkey, _getNodeFrom]
          simp only [walk] at hfind
          rw [hfind]
          simp
        · simp only [walk, hkey]
        · simp [_getNodeFrom, hkey]
      · obtain ⟨n0, h1, h2, h3⟩ := ih (create k [] false) hks
        have hlen : ks.length ≠ 0 := by
          intro h
          exact hks (List.length_eq_zero.mp h)
        have hnone : _getNodeFrom ks (create k [] false) = .ok none := by
          cases ks with
          | nil => exact absurd rfl hks
          | cons k2 ks2 => simp [_getNodeFrom, hasKey, create, leaf]
        refine ⟨n0, ?_, ?_, Or.inr ⟨?_, ?_⟩⟩
        · simp only [walk, hkey, _getNodeFrom]
          rw [hfind]
          simp only [hlen, ne_eq, not_false_eq_true, if_true]
          exact h1
        · simp only [walk, hkey]
          exact h2
        · simp [_getNodeFrom, hkey]
        · rcases h3 with h3 | h3
          · rw [hnone] at h3
            simp at h3
          · exact h3.2

end coil.Properties

namespace coil.Properties

theorem split_keys_ne_nil (key : Str) (h : key ≠ []) :
    (split key '.').2 ≠ [] := by
  cases key with
  | nil => exact absurd rfl h
  | cons c cs =>
    simp only [split, List.isEmpty_cons, Bool.false_eq_true, if_false]
    exact splitLoop_ne_nil _ _ _ _ _ _

theorem getDefault_total (p : Properties) (key : Str) (h : key ≠ []) :
    ∃ v, p.getDefault key = .ok v := by
  obtain ⟨r, hr⟩ := _getNodeFrom_total _ p (split_keys_ne_nil key h)
  unfold getDefault _getNode
  rw [List.drop_zero, hr]
  cases r with
  | none => exact ⟨_, rfl⟩
  | some node => exact ⟨_, rfl⟩

end coil.Properties

/-- C29: for every non-empty key and every value `v`, `setProperty(key, v)`
returns the value stored before at the node of the key (the empty string when
the node did not exist), afterwards `getProperty(key)` returns `v` and
`getDefault(key)` returns what it returned before; with a default `d`
registered by `setDefault(key, d)` first, `getProperty(key)` still returns `v`
and `getDefault(key)` returns `d`. -/
theorem setProperty_round_trip (p : coil.Properties) (key v : Str)
    (h : key ≠ []) :
    (∃ old, coil.Properties._getNode (coil.Properties.split key '.').2 0 p =
        .ok old ∧
      (p.setProperty key v).1 =
        match old with
        | some node => node.value
        | none => []) ∧
    (p.setProperty key v).2.getProperty key = .ok v ∧
    (p.setProperty key v).2.getDefault key = p.getDefault key ∧
    ∀ d, ((p.setDefault key d).2.setProperty key v).2.getProperty key = .ok v ∧
      ((p.setDefault key d).2.setProperty key v).2.getDefault key = .ok d := by
  have hk := coil.Properties.split_keys_ne_nil key h
  have main : ∀ q : coil.Properties,
      (∃ old, coil.Properties._getNode (coil.Properties.split key '.').2 0 q =
          .ok old ∧
        (q.setProperty key v).1 =
          match old with
          | some node => node.value
          | none => []) ∧
      (q.setProperty key v).2.getProperty key = .ok v ∧
      (q.setProperty key v).2.getDefault key = q.getDefault key := by
    intro q
    obtain ⟨n0, h1, h2, h3⟩ := coil.Properties.walk_getNode
      (fun curr =>
        (curr.value,
          coil.Properties.mk curr.name v curr.default_value true curr.leaf))
      (fun _ => rfl) _ q hk
    refine ⟨?_, ?_, ?_⟩
    · rcases h3 with h3 | ⟨h3, hv, -⟩
      · exact ⟨some n0, by simp [coil.Properties._getNode, h3],
          by simp only [coil.Properties.setProperty, h2]⟩
      · exact ⟨none, by simp [coil.Properties._getNode, h3],
          by simp only [coil.Properties.setProperty, h2, hv]⟩
    · simp only [coil.Properties.getProperty, coil.Properties._getNode,
        List.drop_zero, coil.Properties.setProperty, h1]
      rfl
    · simp only [coil.Properties.getDefault, coil.Properties._getNode,
        List.drop_zero, coil.Properties.setProperty, h1]
      rcases h3 with h3 | ⟨h3, -, hd⟩
      · rw [h3]
        rfl
      · rw [h3]
        exact congrArg Except.ok hd
  obtain ⟨m1, m2, m3⟩ := main p
  refine ⟨m1, m2, m3, ?_⟩
  intro d
  obtain ⟨-, m2', m3'⟩ := main (p.setDefault key d).2
  refine ⟨m2', ?_⟩
  rw [m3']
  obtain ⟨n0, h1, -, -⟩ := coil.Properties.walk_getNode
    (fun curr =>
      (d, coil.Properties.mk curr.name curr.value d curr.set_value curr.leaf))
    (fun _ => rfl) _ p hk
  simp only [coil.Properties.getDefault, coil.Properties._getNode,
    List.drop_zero, coil.Properties.setDefault, h1]
  rfl

theorem setProperty_round_trip_witness :
    "conf.rate".toList ≠ [] ∧
    (emptyConfig.setProperty "conf.rate".toList "10".toList).1 = [] ∧
    (emptyConfig.setProperty "conf.rate".toList "10".toList).2.getProperty
      "conf.rate".toList = .ok "10".toList := by
  obtain ⟨⟨old, hold, hret⟩, hget, -, -⟩ :=
    setProperty_round_trip emptyConfig "conf.rate".toList "10".toList (by decide)
  have hnone : coil.Properties._getNode
      (coil.Properties.split "conf.rate".toList '.').2 0 emptyConfig =
      .ok none := by rfl
  rw [hnone] at hold
  cases hold
  exact ⟨by decide, hret, hget⟩

/-- C30 (evaluation at the failing input): for the empty key `split` leaves
the key list empty and `_getNode` indexes it at 0, past its end, in
`getProperty` (which is also the `const` `operator[]`) and in `getDefault`;
for every non-empty key both return a string. -/
theorem lookup_empty_key_out_of_range (p : coil.Properties) :
    coil.Properties.split [] '.' = (false, []) ∧
    p.getProperty [] = .error .outOfRange ∧
    p.getDefault [] = .error .outOfRange ∧
    ∀ key : Str, key ≠ [] →
      (∃ v, p.getProperty key = .ok v) ∧ ∃ d, p.getDefault key = .ok d :=
  ⟨rfl, rfl, rfl, fun key h =>
    ⟨p.getProperty_total key h, p.getDefault_total key h⟩⟩

/-! ### The carried remainder of the skip policy -/

theorem notify_ok {st st' : PublisherPeriodic β} {type : ConnectorListenerType}
    (h : notify st type = .ok st') :
    st' = { st with trace := st.trace ++ [Event.notify type] } := by
  unfold notify at h
  cases hl : st.m_listeners with
  | none => simp [hl] at h
  | some l =>
    simp [hl] at h
    exact h.symm

theorem advanceRptr_ok {B : CdrBufferBase β} {st st' : PublisherPeriodic β}
    {n : Int} (h : advanceRptr B st n = .ok st') :
    ∃ buf, st.m_buffer = some buf ∧
      st' = { st with m_buffer := some (B.advanceRptr buf n) } := by
  unfold advanceRptr at h
  cases hb : st.m_buffer with
  | none => simp [hb] at h
  | some buf =>
    simp [hb] at h
    exact ⟨buf, rfl, h.symm⟩

theorem invokeListener_leftskip {st st' : PublisherPeriodic β}
    {status ret : DataPortStatus} {data : ByteData}
    (h : invokeListener st status data = .ok (ret, st')) :
    st'.m_leftskip = st.m_leftskip := by
  cases hl : st.m_listeners with
  | none => cases status <;> simp [invokeListener, notifyOut, hl, Except.map] at h
  | some l =>
    cases status <;>
      simp [invokeListener, notifyOut, hl, Except.map] at h <;>
      obtain ⟨-, rfl⟩ := h <;> rfl

theorem bufferIsEmpty_leftskip {B : CdrBufferBase β} {st st' : PublisherPeriodic β}
    {e : Bool} (h : bufferIsEmpty B st = .ok (e, st')) :
    st'.m_leftskip = st.m_leftskip ∧ st'.m_skipn = st.m_skipn := by
  unfold bufferIsEmpty at h
  cases hb : st.m_buffer with
  | none => simp [hb] at h
  | some buf =>
    simp only [hb] at h
    split at h
    · cases h1 : notify st .ON_BUFFER_EMPTY with
      | error e1 => simp [h1] at h
      | ok st1 =>
        cases h2 : notify st1 .ON_SENDER_EMPTY with
        | error e2 => simp [h1, h2] at h
        | ok st2 =>
          simp [h1, h2] at h
          obtain ⟨-, rfl⟩ := h
          rw [notify_ok h2, notify_ok h1]
          exact ⟨rfl, rfl⟩
    · simp at h
      obtain ⟨-, rfl⟩ := h
      exact ⟨rfl, rfl⟩

theorem pushSkipLoop_leftskip (B : CdrBufferBase β) (skipn : Nat) (k : Nat) :
    ∀ (postskip readable : Nat) (ret : DataPortStatus)
      (st : PublisherPeriodic β) (x : SkipLoopExit (PublisherPeriodic β)),
      pushSkipLoop B skipn k postskip readable ret st = .ok x →
      match x with
      | .returned _ st' => st'.m_leftskip = st.m_leftskip
      | .finished _ _ st' => st'.m_leftskip = st.m_leftskip := by
  induction k with
  | zero =>
    intro postskip readable ret st x h
    simp [pushSkipLoop] at h
    subst h
    rfl
  | succ k ih =>
    intro postskip readable ret st x h
    simp only [pushSkipLoop] at h
    cases h1 : advanceRptr B st (postskip : Int) with
    | error e => simp [h1] at h
    | ok st1 =>
      obtain ⟨buf, -, e1⟩ := advanceRptr_ok h1
      simp only [h1] at h
      cases h2 : getAndPut B st1 with
      | error e => simp [h2] at h
      | ok res =>
        obtain ⟨cdr, r, st2⟩ := res
        obtain ⟨buf2, c2, -, -, -, -, -, e2⟩ := getAndPut_ok h2
        simp only [h2] at h
        have hl2 : st2.m_leftskip = st.m_leftskip := by rw [e2, e1]
        split at h
        · cases h3 : advanceRptr B st2 (-(postskip : Int)) with
          | error e => simp [h3] at h
          | ok st3 =>
            obtain ⟨buf3, -, e3⟩ := advanceRptr_ok h3
            simp only [h3] at h
            cases h4 : invokeListener st3 r cdr with
            | error e => simp [h4] at h
            | ok res4 =>
              obtain ⟨r4, st4⟩ := res4
              simp [h4] at h
              subst h
              show st4.m_leftskip = st.m_leftskip
              rw [invokeListener_leftskip h4, e3]
              exact hl2
        · cases h3 : notifyOut st2 .ON_RECEIVED cdr with
          | error e => simp [h3] at h
          | ok st3 =>
            obtain ⟨-, e3⟩ := notifyOut_ok h3
            simp only [h3] at h
            have hl3 : st3.m_leftskip = st.m_leftskip := by
              rw [e3]
              exact hl2
            have := ih _ _ _ st3 x h
            cases x with
            | returned r' s' => exact this.trans hl3
            | finished rd r' s' => exact this.trans hl3

theorem pushSkip_leftskip {B : CdrBufferBase β} {st st' : PublisherPeriodic β}
    {r : DataPortStatus} (h : pushSkip B st = .ok (r, st')) :
    st'.m_leftskip = st.m_leftskip ∨
      (st'.m_leftskip : Int) < st.m_skipn + 1 := by
  unfold pushSkip at h
  cases h0 : bufferIsEmpty B st with
  | error e => simp [h0] at h
  | ok res =>
    obtain ⟨e, st1⟩ := res
    obtain ⟨hl1, hs1⟩ := bufferIsEmpty_leftskip h0
    cases e with
    | true =>
      simp [h0] at h
      obtain ⟨-, rfl⟩ := h
      exact Or.inl hl1
    | false =>
      simp only [h0] at h
      cases hb : st1.m_buffer with
      | none => simp [hb] at h
      | some buf =>
        simp only [hb] at h
        split at h
        · simp at h
        · rename_i hneg
          split at h
          · simp at h
          · cases hloop : pushSkipLoop B st1.m_skipn.toNat
                ((B.readable buf + st1.m_leftskip) / (st1.m_skipn.toNat + 1))
                (st1.m_skipn.toNat - st1.m_leftskip) (B.readable buf) .PORT_OK
                st1 with
            | error e => simp [hloop] at h
            | ok x =>
              have hx := pushSkipLoop_leftskip B _ _ _ _ _ st1 x hloop
              simp only [hloop] at h
              cases x with
              | returned r2 st2 =>
                simp at h
                obtain ⟨-, rfl⟩ := h
                exact Or.inl (hx.trans hl1)
              | finished rd r2 st2 =>
                simp only at h
                cases h3 : advanceRptr B st2 (rd : Int) with
                | error e => simp [h3] at h
                | ok st3 =>
                  simp [h3] at h
                  obtain ⟨-, rfl⟩ := h
                  right
                  show (((B.readable buf + st1.m_leftskip) %
                    (st1.m_skipn.toNat + 1) : Nat) : Int) < st.m_skipn + 1
                  have hlt := Nat.mod_lt (B.readable buf + st1.m_leftskip)
                    (Nat.succ_pos st1.m_skipn.toNat)
                  have hnn : (0 : Int) ≤ st1.m_skipn := by omega
                  have htn : ((st1.m_skipn.toNat : Nat) : Int) = st1.m_skipn :=
                    Int.toNat_of_nonneg hnn
                  rw [← hs1]
                  generalize (B.readable buf + st1.m_leftskip) %
                    (st1.m_skipn.toNat + 1) = m at hlt ⊢
                  omega

theorem notifyOut_error {st : PublisherPeriodic β}
    {type : ConnectorDataListenerType} {data : ByteData} {e : Fault}
    (h : notifyOut st type data = .error e) : e = .nullPointer := by
  unfold notifyOut at h
  cases hl : st.m_listeners <;> simp [hl] at h
  exact h.symm

theorem notify_error {st : PublisherPeriodic β} {type : ConnectorListenerType}
    {e : Fault} (h : notify st type = .error e) : e = .nullPointer := by
  unfold notify at h
  cases hl : st.m_listeners <;> simp [hl] at h
  exact h.symm

theorem advanceRptr_error {B : CdrBufferBase β} {st : PublisherPeriodic β}
    {n : Int} {e : Fault} (h : advanceRptr B st n = .error e) :
    e = .nullPointer := by
  unfold advanceRptr at h
  cases hb : st.m_buffer <;> simp [hb] at h
  exact h.symm

theorem getAndPut_error {B : CdrBufferBase β} {st : PublisherPeriodic β}
    {e : Fault} (h : getAndPut B st = .error e) : e = .nullPointer := by
  unfold getAndPut at h
  cases hb : st.m_buffer with
  | none =>
    simp [hb] at h
    exact h.symm
  | some buf =>
    cases hl : st.m_listeners with
    | none =>
      simp [hb, notifyOut, hl] at h
      exact h.symm
    | some l =>
      cases hc : st.m_consumer with
      | none =>
        simp [hb, notifyOut, hl, hc] at h
        exact h.symm
      | some c => simp [hb, notifyOut, hl, hc] at h

theorem invokeListener_error {st : PublisherPeriodic β}
    {status : DataPortStatus} {data : ByteData} {e : Fault}
    (h : invokeListener st status data = .error e) : e = .nullPointer := by
  cases hl : st.m_listeners with
  | none =>
    cases status <;> simp [invokeListener, notifyOut, hl, Except.map] at h <;>
      exact h.symm
  | some l =>
    cases status <;> simp [invokeListener, notifyOut, hl, Except.map] at h

theorem bufferIsEmpty_error {B : CdrBufferBase β} {st : PublisherPeriodic β}
    {e : Fault} (h : bufferIsEmpty B st = .error e) : e = .nullPointer := by
  unfold bufferIsEmpty at h
  cases hb : st.m_buffer with
  | none =>
    simp [hb] at h
    exact h.symm
  | some buf =>
    simp only [hb] at h
    split at h
    · cases h1 : notify st .ON_BUFFER_EMPTY with
      | error e1 =>
        simp [h1] at h
        subst h
        exact notify_error h1
      | ok st1 =>
        cases h2 : notify st1 .ON_SENDER_EMPTY with
        | error e2 =>
          simp [h1, h2] at h
          subst h
          exact notify_error h2
        | ok st2 => simp [h1, h2] at h
    · simp at h

theorem pushSkipLoop_error (B : CdrBufferBase β) (skipn : Nat) (k : Nat) :
    ∀ (postskip readable : Nat) (ret : DataPortStatus)
      (st : PublisherPeriodic β) (e : Fault),
      pushSkipLoop B skipn k postskip readable ret st = .error e →
      e = .nullPointer := by
  induction k with
  | zero =>
    intro postskip readable ret st e h
    simp [pushSkipLoop] at h
  | succ k ih =>
    intro postskip readable ret st e h
    simp only [pushSkipLoop] at h
    cases h1 : advanceRptr B st (postskip : Int) with
    | error e1 =>
      simp [h1] at h
      subst h
      exact advanceRptr_error h1
    | ok st1 =>
      simp only [h1] at h
      cases h2 : getAndPut B st1 with
      | error e2 =>
        simp [h2] at h
        subst h
        exact getAndPut_error h2
      | ok res =>
        obtain ⟨cdr, r, st2⟩ := res
        simp only [h2] at h
        split at h
        · cases h3 : advanceRptr B st2 (-(postskip : Int)) with
          | error e3 =>
            simp [h3] at h
            subst h
            exact advanceRptr_error h3
          | ok st3 =>
            simp only [h3] at h
            cases h4 : invokeListener st3 r cdr with
            | error e4 =>
              simp [h4] at h
              subst h
              exact invokeListener_error h4
            | ok res4 => simp [h4] at h
        · cases h3 : notifyOut st2 .ON_RECEIVED cdr with
          | error e3 =>
            simp [h3] at h
            subst h
            exact notifyOut_error h3
          | ok st3 =>
            simp only [h3] at h
            exact ih _ _ _ st3 e h

theorem pushSkip_asserts_hold {B : CdrBufferBase β} {st : PublisherPeriodic β}
    (h0 : 0 ≤ st.m_skipn) (hl : (st.m_leftskip : Int) ≤ st.m_skipn) :
    pushSkip B st ≠ .error .assertFailed := by
  intro h
  unfold pushSkip at h
  cases hbe : bufferIsEmpty B st with
  | error e =>
    simp [hbe] at h
    subst h
    exact absurd (bufferIsEmpty_error hbe) (by decide)
  | ok res =>
    obtain ⟨e, st1⟩ := res
    obtain ⟨hl1, hs1⟩ := bufferIsEmpty_leftskip hbe
    cases e with
    | true => simp [hbe] at h
    | false =>
      simp only [hbe] at h
      cases hb : st1.m_buffer with
      | none => simp [hb] at h
      | some buf =>
        simp only [hb] at h
        split at h
        · rename_i hneg
          rw [hs1] at hneg
          omega
        · split at h
          · rename_i hlt
            rw [hs1, hl1] at hlt
            omega
          · cases hloop : pushSkipLoop B st1.m_skipn.toNat
                ((B.readable buf + st1.m_leftskip) / (st1.m_skipn.toNat + 1))
                (st1.m_skipn.toNat - st1.m_leftskip) (B.readable buf) .PORT_OK
                st1 with
            | error e =>
              simp [hloop] at h
              subst h
              exact absurd (pushSkipLoop_error B _ _ _ _ _ st1 _ hloop) (by decide)
            | ok x =>
              simp only [hloop] at h
              cases x with
              | returned r2 st2 => simp at h
              | finished rd r2 st2 =>
                simp only at h
                cases h3 : advanceRptr B st2 (rd : Int) with
                | error e =>
                  simp [h3] at h
                  subst h
                  exact absurd (advanceRptr_error h3) (by decide)
                | ok st3 => simp [h3] at h

theorem run_skip_invariant (B : CdrBufferBase β) (fuel : Nat) (ops : List Op) :
    ∀ (st st' : PublisherPeriodic β) (rs : List DataPortStatus),
      run B fuel ops st = .ok (rs, st') →
      st.m_pushPolicy = .PUBLISHER_POLICY_SKIP → 0 ≤ st.m_skipn →
      (st.m_leftskip : Int) ≤ st.m_skipn →
      st'.m_skipn = st.m_skipn ∧ (st'.m_leftskip : Int) ≤ st'.m_skipn := by
  induction ops with
  | nil =>
    intro st st' rs h hpol h0 hl
    simp [run] at h
    obtain ⟨-, rfl⟩ := h
    exact ⟨rfl, hl⟩
  | cons op ops ih =>
    intro st st' rs h hpol h0 hl
    cases op with
    | write data timeout =>
      simp only [run] at h
      cases hw : write B st data timeout with
      | error e => simp [hw] at h
      | ok res =>
        obtain ⟨r, st1⟩ := res
        simp only [hw] at h
        cases hr : run B fuel ops st1 with
        | error e => simp [hr] at h
        | ok res2 =>
          obtain ⟨rs2, st2⟩ := res2
          simp [hr] at h
          obtain ⟨-, rfl⟩ := h
          obtain ⟨⟨-, -, hp, hs, hls, -, -, -, -⟩, -⟩ := write_frame hw
          obtain ⟨hs2, hl2⟩ := ih st1 st2 rs2 hr (hp.trans hpol)
            (by rw [hs]; exact h0) (by rw [hs, hls]; exact hl)
          exact ⟨hs2.trans hs, hl2⟩
    | tick =>
      simp only [run] at h
      cases hw : svc B fuel st with
      | error e => simp [hw] at h
      | ok st1 =>
        simp only [hw] at h
        obtain ⟨hp, hs, -, -⟩ := svc_frame hw
        obtain ⟨ret, s1, hpush, rfl⟩ := svc_ok hw
        have hskip : pushSkip B st = .ok (ret, s1) := by
          simpa [push, hpol] using hpush
        have hls : ((s1.m_leftskip : Nat) : Int) ≤ st.m_skipn := by
          rcases pushSkip_leftskip hskip with h1 | h1
          · rw [h1]
            exact hl
          · omega
        obtain ⟨hs2, hl2⟩ := ih _ st' rs h (hp.trans hpol)
          (by rw [hs]; exact h0) (by rw [hs]; exact hls)
        exact ⟨hs2.trans hs, hl2⟩

theorem setPushPolicy_skipn (conv : Conversions) (st : PublisherPeriodic β)
    (prop : coil.Properties) (c : Str)
    (hc : prop.getProperty "publisher.skip_count".toList = .ok c) :
    ∃ p, setPushPolicy conv st prop =
      .ok { st with
        m_pushPolicy := p
        m_skipn :=
          match conv.stringToInt (if c.isEmpty then "0".toList else c) with
          | some k => if k < 0 then 0 else k
          | none => 0 } := by
  obtain ⟨v, hv⟩ := prop.getProperty_total "publisher.push_policy".toList (by decide)
  refine ⟨if coil.normalize (if v.isEmpty then "new".toList else v) = "all".toList
      then .PUBLISHER_POLICY_ALL
      else if coil.normalize (if v.isEmpty then "new".toList else v) = "fifo".toList
      then .PUBLISHER_POLICY_FIFO
      else if coil.normalize (if v.isEmpty then "new".toList else v) = "skip".toList
      then .PUBLISHER_POLICY_SKIP else .PUBLISHER_POLICY_NEW, ?_⟩
  simp only [setPushPolicy, prop.getPropertyOr_of _ _ _ hv,
    prop.getPropertyOr_of _ _ _ hc]
  cases conv.stringToInt (if c.isEmpty then "0".toList else c) <;>
    dsimp only <;> split_ifs <;> rfl

/-- C24: `init` stores a skip count that is not negative for every
configuration: with `c` the value of `publisher.skip_count` (empty when the key
is missing), a missing value (given that `0` converts to 0), a value that does
not convert and a negative number all give 0, another number is stored as it
is; the carried remainder is not touched.  From an `init` on a publisher whose
remainder is 0 that selected the `skip` policy, every state reached by writes
and ticks, whatever the consumer answers, keeps the skip count and has
`leftskip <= skip count`, so that no assertion of `pushSkip` fails in the next
tick and `skip count - leftskip` does not underflow. -/
theorem skip_count_sanitised (conv : Conversions)
    (factory : PeriodicTaskFactory) (prop : coil.Properties)
    (st0 : PublisherPeriodic β) :
    ∃ c r st1, prop.getProperty "publisher.skip_count".toList = .ok c ∧
      init conv factory st0 prop = .ok (r, st1) ∧
      0 ≤ st1.m_skipn ∧
      (c = [] → conv.stringToInt "0".toList = some 0 → st1.m_skipn = 0) ∧
      (c ≠ [] → conv.stringToInt c = none → st1.m_skipn = 0) ∧
      (∀ k, c ≠ [] → conv.stringToInt c = some k → k < 0 → st1.m_skipn = 0) ∧
      (∀ k, c ≠ [] → conv.stringToInt c = some k → 0 ≤ k → st1.m_skipn = k) ∧
      st1.m_leftskip = st0.m_leftskip ∧
      (st0.m_leftskip = 0 → st1.m_pushPolicy = .PUBLISHER_POLICY_SKIP →
        ∀ (B : CdrBufferBase β) (fuel : Nat) (ops : List Op)
          (rs : List DataPortStatus) (st2 : PublisherPeriodic β),
          run B fuel ops st1 = .ok (rs, st2) →
          st2.m_skipn = st1.m_skipn ∧
          (st2.m_leftskip : Int) ≤ st2.m_skipn ∧
          pushSkip B st2 ≠ .error .assertFailed) := by
  obtain ⟨c, hc⟩ := prop.getProperty_total "publisher.skip_count".toList (by decide)
  obtain ⟨p, hset⟩ := setPushPolicy_skipn conv st0 prop c hc
  obtain ⟨p', n', r, tk, hinit, hset', hn', -⟩ := init_frame conv factory st0 prop
  have hn : n' = match conv.stringToInt (if c.isEmpty then "0".toList else c) with
      | some k => if k < 0 then 0 else k
      | none => 0 := by
    rw [hset] at hset'
    have := congrArg (fun x => x.toOption.map (fun s => s.m_skipn)) hset'
    simpa [Except.toOption] using this.symm
  refine ⟨c, r, _, hc, hinit, hn', ?_, ?_, ?_, ?_, rfl, ?_⟩
  · intro hnil h0
    show n' = 0
    rw [hn, hnil]
    simp only [List.isEmpty_nil, if_true, h0]
    rfl
  · intro hne hnone
    show n' = 0
    have he : c.isEmpty = false := by
      cases c with
      | nil => exact absurd rfl hne
      | cons a l => rfl
    rw [hn, he]
    simp [hnone]
  · intro k hne hk hneg
    show n' = 0
    have he : c.isEmpty = false := by
      cases c with
      | nil => exact absurd rfl hne
      | cons a l => rfl
    rw [hn, he]
    simp [hk, hneg]
  · intro k hne hk hpos
    show n' = k
    have he : c.isEmpty = false := by
      cases c with
      | nil => exact absurd rfl hne
      | cons a l => rfl
    rw [hn, he]
    simp only [Bool.false_eq_true, if_false, hk]
    rw [if_neg (by omega)]
  · intro hleft hpol B fuel ops rs st2 hrun
    obtain ⟨hs, hl⟩ := run_skip_invariant B fuel ops _ st2 rs hrun hpol hn'
      (by
        show ((st0.m_leftskip : Nat) : Int) ≤ n'
        rw [hleft]
        exact hn')
    exact ⟨hs, hl, pushSkip_asserts_hold (by rw [hs]; exact hn') hl⟩

theorem skip_count_sanitised_witness :
    ∃ r st1,
      init plainConversions defaultFactory (PublisherPeriodic.new RingBuffer)
        skipConfig = .ok (r, st1) ∧
      st1.m_skipn = 2 ∧ st1.m_leftskip = 0 := by
  obtain ⟨c, r, st1, hc, hinit, -, -, -, -, hk, hl, -⟩ :=
    skip_count_sanitised plainConversions defaultFactory skipConfig
      (PublisherPeriodic.new RingBuffer)
  have hc' : skipConfig.getProperty "publisher.skip_count".toList =
      .ok "2".toList := by rfl
  rw [hc'] at hc
  cases hc
  exact ⟨r, st1, hinit, hk 2 (by decide) (by decide) (by decide), hl⟩

/-! ### Skip count 0 -/

theorem everyNth_zero (ds : List ByteData) : everyNth 0 0 ds = ds := by
  induction ds with
  | nil => rfl
  | cons d ds ih => simp [everyNth, ih]

/-- C27: on a Ring Buffer holding at least one unread sample, with a consumer
that always answers PORT_OK, a `pushSkip` tick with skip count 0 and carried
remainder 0 and a `pushAll` tick both return PORT_OK and make the same calls in
the same order — the `put`s are those of the unread samples, oldest first —
and they end in the same state: nothing is left unread and the remainder is
0. -/
theorem skip_zero_is_all (fuel : Nat) (st : PublisherPeriodic RingBuffer)
    (b : RingBuffer) (c : InPortConsumer)
    (hb : st.m_buffer = some b) (hc : st.m_consumer = some c)
    (hl : st.m_listeners = some ()) (hwf : b.WF) (hm : 1 ≤ b.readable)
    (hfuel : b.readable < fuel)
    (hn : st.m_skipn = 0) (hleft : st.m_leftskip = 0)
    (hok : ∀ i, c.results i = .PORT_OK) :
    ∃ sa ss b',
      pushAll RingBuffer.ops fuel st = .ok (.PORT_OK, sa) ∧
      pushSkip RingBuffer.ops st = .ok (.PORT_OK, ss) ∧
      newEvents st ss = newEvents st sa ∧
      putSamples (newEvents st ss) = b.unread ∧
      putSamples (newEvents st sa) = b.unread ∧
      ss.m_buffer = some b' ∧ sa.m_buffer = some b' ∧ b'.readable = 0 ∧
      ss.m_leftskip = 0 ∧ sa.m_leftskip = 0 ∧ ss = sa := by
  have hall := pushAll_ring_all_ok fuel st b c hb hc hl hwf hm hfuel
    (fun i _ => hok _)
  have hskip := pushSkip_ring_ok st b c 0 hb hc hl hwf hm (by rw [hn]; rfl)
    (by rw [hleft]) hok
  have hpick : skipPicks 0 ((b.m_fillcount + 0) / (0 + 1)) (0 - 0) b.unread =
      b.unread := by
    have := skipPicks_eq_everyNth 0 b.unread 0 (Nat.le_refl 0)
    rw [RingBuffer.unread_length] at this
    rw [this, everyNth_zero]
  rw [hleft, hpick] at hskip
  have hk : (b.m_fillcount + 0) / (0 + 1) = b.m_fillcount := by simp
  have hmod : (b.m_fillcount + 0) % (0 + 1) = 0 := Nat.mod_one _
  rw [hk, hmod] at hskip
  have hsame : ({ st.after b.m_fillcount (b.advanceRptr (b.m_fillcount : Int))
      (deliveries b.unread) with m_leftskip := 0 } : PublisherPeriodic RingBuffer) =
      st.after b.m_fillcount (b.advanceRptr (b.m_fillcount : Int))
        (deliveries b.unread) := by
    simp [PublisherPeriodic.after, hleft]
  rw [hsame] at hskip
  refine ⟨_, _, b.advanceRptr (b.m_fillcount : Int), hall, hskip, rfl, ?_, ?_,
    rfl, rfl, ?_, hleft, hleft, rfl⟩
  · simp [newEvents, PublisherPeriodic.after, putSamples_deliveries]
  · simp [newEvents, PublisherPeriodic.after, putSamples_deliveries]
  · rw [RingBuffer.advanceRptr_nat b _ (Nat.le_refl _)]
    simp [RingBuffer.readable]

theorem skip_zero_is_all_witness :
    bufferABC.WF ∧ 1 ≤ bufferABC.readable ∧
    ∃ sa ss,
      pushAll RingBuffer.ops 8
          (configured .PUBLISHER_POLICY_SKIP 0 (scripted []) bufferABC) =
        .ok (.PORT_OK, sa) ∧
      pushSkip RingBuffer.ops
          (configured .PUBLISHER_POLICY_SKIP 0 (scripted []) bufferABC) =
        .ok (.PORT_OK, ss) ∧
      ss = sa := by
  obtain ⟨sa, ss, b', h1, h2, -, -, -, -, -, -, -, -, h3⟩ :=
    skip_zero_is_all 8
      (configured .PUBLISHER_POLICY_SKIP 0 (scripted []) bufferABC) bufferABC
      (scripted []) rfl rfl rfl WF_bufferABC (by decide) (by decide) rfl rfl
      (by intro i; simp [scripted])
  exact ⟨WF_bufferABC, by decide, sa, ss, h1, h2, h3⟩

/-! ### Retry after a failed delivery -/

/-- C26 (evaluation at the failing input): skip policy with skip count 1,
`[1]`..`[4]` written, then ticks without a write in between.  The first tick
puts `[2]` (PORT_OK) and `[4]` (PORT_ERROR); the first `put` of the second
tick is made for `[3]`, not for the failed sample `[4]`, and a third tick
makes no `put` at all, so `[4]` is never retried.  The policies `all`, `fifo`
and `new` on the same samples make the first `put` after a failure for the
sample that failed. -/
theorem skip_retry_targets_other_sample :
    putsOf (run RingBuffer.ops 8 (fourWritesThenTicks 1)
        (retryPublisher .PUBLISHER_POLICY_SKIP [.PORT_OK, .PORT_ERROR])) =
      some [([2], .PORT_OK), ([4], .PORT_ERROR)] ∧
    putsOf (run RingBuffer.ops 8 (fourWritesThenTicks 2)
        (retryPublisher .PUBLISHER_POLICY_SKIP [.PORT_OK, .PORT_ERROR])) =
      some [([2], .PORT_OK), ([4], .PORT_ERROR), ([3], .PORT_OK)] ∧
    putsOf (run RingBuffer.ops 8 (fourWritesThenTicks 3)
        (retryPublisher .PUBLISHER_POLICY_SKIP [.PORT_OK, .PORT_ERROR])) =
      some [([2], .PORT_OK), ([4], .PORT_ERROR), ([3], .PORT_OK)] ∧
    putsOf (run RingBuffer.ops 8 (fourWritesThenTicks 2)
        (retryPublisher .PUBLISHER_POLICY_ALL [.PORT_OK, .PORT_ERROR])) =
      some [([1], .PORT_OK), ([2], .PORT_ERROR), ([2], .PORT_OK),
        ([3], .PORT_OK), ([4], .PORT_OK)] ∧
    putsOf (run RingBuffer.ops 8 (fourWritesThenTicks 3)
        (retryPublisher .PUBLISHER_POLICY_FIFO [.PORT_OK, .PORT_ERROR])) =
      some [([1], .PORT_OK), ([2], .PORT_ERROR), ([2], .PORT_OK)] ∧
    putsOf (run RingBuffer.ops 8 (fourWritesThenTicks 2)
        (retryPublisher .PUBLISHER_POLICY_NEW [.PORT_ERROR])) =
      some [([4], .PORT_ERROR), ([4], .PORT_OK)] := by
  refine ⟨by decide, by decide, by decide, by decide, by decide, by decide⟩

/-! ### Null pointers -/

/-- C28 (evaluation at the failing input): on a constructed publisher the
three setters succeed and leave the task null, `init` never having been
called; the `write` that follows passes the three null checks and calls
`m_task->resume()` on the null task.  The same happens when `init` was called
and returned INVALID_ARGS because the factory created no task. -/
theorem write_uses_null_task (B : CdrBufferBase β) (fuel : Nat)
    (c : InPortConsumer) (b : β) (info : ConnectorInfo) (data : ByteData)
    (timeout : Int) :
    (∃ st, steps B fuel (wire c b info) (PublisherPeriodic.new β) = .ok st ∧
      st.m_task = none ∧
      step B fuel (.write data timeout) st = .error .nullPointer) ∧
    ∀ (conv : Conversions) (prop : coil.Properties),
      ∃ st1 st2,
        init conv (fun _ => none) (PublisherPeriodic.new β) prop =
          .ok (.INVALID_ARGS, st1) ∧
        steps B fuel (wire c b info) st1 = .ok st2 ∧
        step B fuel (.write data timeout) st2 = .error .nullPointer := by
  constructor
  · refine ⟨_, rfl, rfl, ?_⟩
    simp [step, write, setListener, setBuffer, setConsumer, PublisherPeriodic.new,
      notifyOut, Except.map]
  · intro conv prop
    obtain ⟨v, hv⟩ := prop.getProperty_total "publisher.push_policy".toList (by decide)
    obtain ⟨k, hk⟩ := prop.getProperty_total "publisher.skip_count".toList (by decide)
    obtain ⟨th, hth⟩ := prop.getProperty_total "thread_type".toList (by decide)
    obtain ⟨s1, h1⟩ := prop.getProperty_total "publisher.push_rate".toList (by decide)
    obtain ⟨s2, h2⟩ := prop.getProperty_total "push_rate".toList (by decide)
    obtain ⟨p, n, hset, -⟩ :=
      setPushPolicy_eq conv (PublisherPeriodic.new β) prop v k hv hk
    have hinit := init_eq conv (fun _ => none) (PublisherPeriodic.new β) prop p n
      th s1 s2 hset hth h1 h2
    refine ⟨_, _, hinit, rfl, ?_⟩
    simp [step, write, setListener, setBuffer, setConsumer, PublisherPeriodic.new,
      notifyOut, Except.map]

/-! ### One delivery attempt -/

theorem invokeListener_receiver (st : PublisherPeriodic β) (r : DataPortStatus)
    (d : ByteData) (hl : st.m_listeners = some ()) (hr : r ≠ .PORT_OK) :
    ∃ ret, invokeListener st r d =
      .ok (ret,
        { st with
            trace := st.trace ++ [Event.notifyOut (receiverListener r) d] }) := by
  cases r <;>
    first
    | exact absurd rfl hr
    | (simp only [invokeListener, notifyOut, hl, Except.map, receiverListener]
       exact ⟨_, rfl⟩)

theorem attempt_failed (st : PublisherPeriodic β) (buf : β) (c : InPortConsumer)
    (hc : st.m_consumer = some c) (hl : st.m_listeners = some ())
    (hfail : c.results c.calls ≠ .PORT_OK) (d : ByteData) :
    ∃ ret st',
      invokeListener
          (st.after 1 buf
            [Event.notifyOut .ON_BUFFER_READ d, Event.notifyOut .ON_SEND d,
             Event.consumerPut d (c.results c.calls)])
          (c.results c.calls) d = .ok (ret, st') ∧
      newEvents st st' = attemptEvents d (c.results c.calls) ∧
      st'.m_buffer = some buf ∧
      st'.m_consumer = some { c with calls := c.calls + 1 } := by
  obtain ⟨ret, h⟩ := invokeListener_receiver
    (st.after 1 buf
      [Event.notifyOut .ON_BUFFER_READ d, Event.notifyOut .ON_SEND d,
       Event.consumerPut d (c.results c.calls)])
    (c.results c.calls) d hl hfail
  refine ⟨ret, _, h, ?_, rfl, ?_⟩
  · simp [newEvents, PublisherPeriodic.after, attemptEvents, hfail]
  · simp [PublisherPeriodic.after, hc]

theorem attempt_ok_events (st : PublisherPeriodic β) (buf : β) (d : ByteData) :
    newEvents st (st.after 1 buf (delivery d)) = attemptEvents d .PORT_OK := by
  simp [newEvents, PublisherPeriodic.after, attemptEvents, delivery]

/-- C23: one delivery attempt of `pushFifo`, of `pushNew` and of an iteration
of the loop of `pushAll`, on the sample `d` at the read pointer (for `pushNew`
after the pointer was moved to the last unread sample).  The calls made are
ON_BUFFER_READ, ON_SEND and `put`, in this order, followed by ON_RECEIVED when
`put` returned PORT_OK and by the one receiver-side listener of the returned
status otherwise; the consumer is called once.  After PORT_OK the read pointer
has advanced by one (and `pushAll` goes on with the next iteration); otherwise
the buffer is as it was at the attempt and the function returns, so no further
`put` is made in the tick. -/
theorem delivery_attempt_order (B : CdrBufferBase β) (fuel : Nat)
    (st : PublisherPeriodic β) (buf : β) (c : InPortConsumer)
    (hb : st.m_buffer = some buf) (hc : st.m_consumer = some c)
    (hl : st.m_listeners = some ()) (he : B.empty buf = false)
    (hr : 0 < B.readable buf) :
    (∃ ret st', pushFifo B st = .ok (ret, st') ∧
      newEvents st st' = attemptEvents (B.get buf) (c.results c.calls) ∧
      st'.m_consumer = some { c with calls := c.calls + 1 } ∧
      st'.m_buffer =
        some (if c.results c.calls = .PORT_OK then B.advanceRptr buf 1 else buf) ∧
      (c.results c.calls = .PORT_OK → ret = .PORT_OK)) ∧
    (∃ ret st', pushNew B st = .ok (ret, st') ∧
      newEvents st st' =
        attemptEvents (B.get (B.advanceRptr buf ((B.readable buf : Int) - 1)))
          (c.results c.calls) ∧
      st'.m_consumer = some { c with calls := c.calls + 1 } ∧
      st'.m_buffer =
        some (if c.results c.calls = .PORT_OK then
            B.advanceRptr (B.advanceRptr buf ((B.readable buf : Int) - 1)) 1
          else B.advanceRptr buf ((B.readable buf : Int) - 1)) ∧
      (c.results c.calls = .PORT_OK → ret = .PORT_OK)) ∧
    (c.results c.calls = .PORT_OK →
      ∃ st1, pushAllLoop B (fuel + 1) st = pushAllLoop B fuel st1 ∧
        newEvents st st1 = attemptEvents (B.get buf) .PORT_OK ∧
        st1.m_consumer = some { c with calls := c.calls + 1 } ∧
        st1.m_buffer = some (B.advanceRptr buf 1)) ∧
    (c.results c.calls ≠ .PORT_OK →
      ∃ ret st', pushAllLoop B (fuel + 1) st = .ok (ret, st') ∧
        newEvents st st' = attemptEvents (B.get buf) (c.results c.calls) ∧
        st'.m_consumer = some { c with calls := c.calls + 1 } ∧
        st'.m_buffer = some buf) := by
  refine ⟨?_, ?_, ?_, ?_⟩
  · by_cases hok : c.results c.calls = .PORT_OK
    · refine ⟨_, _, pushFifo_step_ok B st buf c hb hc hl he hok, ?_, ?_, ?_,
        fun _ => rfl⟩
      · rw [hok]
        exact attempt_ok_events st _ _
      · simp [PublisherPeriodic.after, hc]
      · simp [PublisherPeriodic.after, hok]
    · obtain ⟨ret, st', h, hev, hbuf, hcon⟩ :=
        attempt_failed st buf c hc hl hok (B.get buf)
      refine ⟨ret, st', ?_, hev, hcon, ?_, fun h' => absurd h' hok⟩
      · rw [pushFifo_step_fail B st buf c hb hc hl he hok]
        exact h
      · simp [hbuf, hok]
  · by_cases hok : c.results c.calls = .PORT_OK
    · refine ⟨_, _, pushNew_step_ok B st buf c hb hc hl he hok, ?_, ?_, ?_,
        fun _ => rfl⟩
      · rw [hok]
        simp [newEvents, PublisherPeriodic.after, attemptEvents, delivery]
      · simp [PublisherPeriodic.after, hc]
      · simp [PublisherPeriodic.after, hok]
    · obtain ⟨ret, st', h, hev, hbuf, hcon⟩ :=
        attempt_failed ({ st with m_readback := true })
          (B.advanceRptr buf ((B.readable buf : Int) - 1)) c hc hl hok
          (B.get (B.advanceRptr buf ((B.readable buf : Int) - 1)))
      refine ⟨ret, st', ?_, ?_, hcon, ?_, fun h' => absurd h' hok⟩
      · rw [pushNew_step_fail B st buf c hb hc hl he hok]
        exact h
      · simpa [newEvents] using hev
      · simp [hbuf, hok]
  · intro hok
    refine ⟨_, pushAllLoop_step_ok B fuel st buf c hb hc hl hr hok,
      attempt_ok_events st _ _, ?_, rfl⟩
    simp [PublisherPeriodic.after, hc]
  · intro hok
    obtain ⟨ret, st', h, hev, hbuf, hcon⟩ :=
      attempt_failed st buf c hc hl hok (B.get buf)
    refine ⟨ret, st', ?_, hev, hcon, hbuf⟩
    rw [pushAllLoop_step_fail B fuel st buf c hb hc hl hr hok]
    exact h

theorem delivery_attempt_order_witness :
    ∃ ret st',
      pushFifo RingBuffer.ops (oneSample .SEND_FULL) = .ok (ret, st') ∧
      newEvents (oneSample .SEND_FULL) st' =
        [Event.notifyOut .ON_BUFFER_READ [65], Event.notifyOut .ON_SEND [65],
         Event.consumerPut [65] .SEND_FULL,
         Event.notifyOut .ON_RECEIVER_FULL [65]] := by
  obtain ⟨⟨ret, st', h, hev, -⟩, -⟩ :=
    delivery_attempt_order RingBuffer.ops 1 (oneSample .SEND_FULL)
      ((RingBuffer.create 4 .do_nothing).putAndAdvance [65])
      (scripted [.SEND_FULL]) rfl rfl rfl (by decide) (by decide)
  exact ⟨ret, st', h, hev⟩

/-! ### InPort: the direct connection -/

/-- C21: while the direct-new-data flag is set, `isNew()` returns true,
`isEmpty()` returns false and `read()` returns true with the bound variable
holding the directly written value, passed through `OnReadConvert` when one is
set; none of the three consults a connector, whatever connectors the port has
(none included), and `isNew()` and `isEmpty()` change nothing.  `write(data)`
stores `data` in the bound variable and sets the flag. -/
theorem direct_data_fast_path {α : Type} (st : InPort α) (name : String)
    (h : st.m_directNewData = true) :
    st.isNew = (true, st) ∧ st.isEmpty = (false, st) ∧
    (st.read name).1 = true ∧
    (st.read name).2.m_value =
      (match st.m_OnReadConvert with
       | some convert => convert st.m_value
       | none => st.m_value) ∧
    (∃ evs, (st.read name).2.trace = st.trace ++ evs ∧ noConnectorUse evs) ∧
    ∀ data : α, (st.write data).m_value = data ∧
      (st.write data).m_directNewData = true ∧
      (st.write data).m_OnReadConvert = st.m_OnReadConvert := by
  obtain ⟨nm, v, onr, conv, status, flag, cons, tr⟩ := st
  simp only at h
  subst h
  refine ⟨by simp [InPort.isNew], by simp [InPort.isEmpty], ?_, ?_, ?_,
    fun data => ⟨rfl, rfl, rfl⟩⟩
  · cases onr <;> cases conv <;> simp [InPort.read]
  · cases onr <;> cases conv <;> simp [InPort.read]
  · cases onr <;> cases conv
    · exact ⟨[], by simp [InPort.read], by simp [noConnectorUse]⟩
    · exact ⟨[PortEvent.onReadConvert], by simp [InPort.read],
        by simp [noConnectorUse]⟩
    · exact ⟨[PortEvent.onRead], by simp [InPort.read], by simp [noConnectorUse]⟩
    · exact ⟨[PortEvent.onRead, PortEvent.onReadConvert], by simp [InPort.read],
        by simp [noConnectorUse]⟩

theorem direct_data_fast_path_witness :
    (doublingPort.write 21).m_directNewData = true ∧
    (doublingPort.write 21).isNew.1 = true ∧
    (doublingPort.write 21).isEmpty.1 = false ∧
    ((doublingPort.write 21).read "").1 = true ∧
    ((doublingPort.write 21).read "").2.m_value = 42 := by
  obtain ⟨h1, h2, h3, h4, -, -⟩ :=
    direct_data_fast_path (doublingPort.write 21) "" rfl
  exact ⟨rfl, by rw [h1], by rw [h2], h3, h4⟩

/-- C25 (evaluation at the failing input): a port with an `OnReadConvert`
callback and no connector holding unread data.  After `write(data)` and one
`read()`, which returns true, `isNew()` still returns true: `read` returns
from the direct branch before `m_directNewData = false` when the callback is
set, and a second `read()` converts the value once more.  Without the callback
the flag is cleared and `isNew()` returns false. -/
theorem isNew_after_read_with_convert {α : Type} (st : InPort α) (data : α)
    (name : String) (convert : α → α)
    (hcon : ∀ con ∈ st.m_connectors, con.readable = 0) :
    (((st.setOnReadConvert (some convert)).write data).read name).1 = true ∧
    (((st.setOnReadConvert (some convert)).write data).read name).2.isNew.1 =
      true ∧
    ((((st.setOnReadConvert (some convert)).write data).read name).2.read
      name).2.m_value = convert (convert data) ∧
    (((st.setOnReadConvert none).write data).read name).1 = true ∧
    (((st.setOnReadConvert none).write data).read name).2.isNew.1 = false := by
  obtain ⟨nm, v, onr, conv, status, flag, cons, tr⟩ := st
  simp only at hcon
  refine ⟨?_, ?_, ?_, ?_, ?_⟩
  · cases onr <;> simp [InPort.read, InPort.write, InPort.setOnReadConvert]
  · cases onr <;>
      simp [InPort.read, InPort.write, InPort.setOnReadConvert, InPort.isNew]
  · cases onr <;> simp [InPort.read, InPort.write, InPort.setOnReadConvert]
  · cases onr <;> simp [InPort.read, InPort.write, InPort.setOnReadConvert]
  · cases cons with
    | nil =>
      cases onr <;>
        simp [InPort.read, InPort.write, InPort.setOnReadConvert, InPort.isNew]
    | cons con rest =>
      have h0 : con.readable = 0 := hcon con (List.mem_cons_self _ _)
      cases onr <;>
        simp [InPort.read, InPort.write, InPort.setOnReadConvert, InPort.isNew,
          h0]

theorem isNew_after_read_with_convert_witness :
    (∀ con ∈ (InPort.create "in" 0).m_connectors, con.readable = 0) ∧
    ((doublingPort.write 21).read "").1 = true ∧
    ((doublingPort.write 21).read "").2.isNew.1 = true := by
  have hcon : ∀ con ∈ (InPort.create "in" 0).m_connectors, con.readable = 0 := by
    intro con hmem
    simp [InPort.create] at hmem
  obtain ⟨h1, h2, -⟩ :=
    isNew_after_read_with_convert (InPort.create "in" 0) 21 ""
      (fun v => 2 * v) hcon
  exact ⟨hcon, h1, h2⟩

/-! ### The loop of the Periodic Task -/

theorem TaskLoop.turns_suspended (n : Nat) :
    ∀ t : TaskLoop, t.Suspended → TaskLoop.turns n t = t := by
  induction n with
  | zero => intro t _; rfl
  | succ n ih =>
    intro t h
    have hit : t.iterate = t := by
      obtain ⟨h1, h2, h3⟩ := h
      simp [TaskLoop.iterate, h1, h2, h3]
    simp only [TaskLoop.turns, hit]
    exact ih t h

/-- C22: a suspended task makes no invocation however many turns its loop
takes; after one `signal()` the loop makes exactly one invocation of the
callable, then is Suspended again and makes no further invocation however
many more turns it takes; `resume()` after that lets it run again.  A task
that was constructed, activated and suspended is in the Suspended state. -/
theorem signal_runs_once (t : TaskLoop) (h : t.Suspended) (n m : Nat) :
    (TaskLoop.turns n t).invocations = t.invocations ∧
    (TaskLoop.turns (n + 1) t.signal).invocations = t.invocations + 1 ∧
    (TaskLoop.turns (n + 1) t.signal).Suspended ∧
    (TaskLoop.turns m (TaskLoop.turns (n + 1) t.signal)).invocations =
      t.invocations + 1 ∧
    (TaskLoop.turns (m + 1)
      (TaskLoop.turns (n + 1) t.signal).signal).invocations =
      t.invocations + 2 ∧
    (TaskLoop.turns m (TaskLoop.turns (n + 1) t.signal).resume).invocations =
      t.invocations + 1 + m ∧
    TaskLoop.create.activate.suspend.Suspended := by
  have hone : ∀ (s : TaskLoop), s.Suspended → ∀ k,
      TaskLoop.turns (k + 1) s.signal =
        { s with invocations := s.invocations + 1 } := by
    intro s hs k
    obtain ⟨h1, h2, h3⟩ := hs
    have hsus : TaskLoop.Suspended
        { s with invocations := s.invocations + 1 } := ⟨h1, h2, h3⟩
    have hit : s.signal.iterate = { s with invocations := s.invocations + 1 } := by
      obtain ⟨tk, rel, inv⟩ := s
      simp only at h1 h2 h3
      simp [TaskLoop.signal, TaskLoop.iterate, h1, h2, h3]
    simp only [TaskLoop.turns, hit]
    exact TaskLoop.turns_suspended k _ hsus
  have hs1 : TaskLoop.Suspended { t with invocations := t.invocations + 1 } := h
  have hrun : ∀ (k : Nat) (s : TaskLoop), s.task.m_alive = true →
      s.task.m_suspend = false →
      (TaskLoop.turns k s).invocations = s.invocations + k := by
    intro k
    induction k with
    | zero => intro s _ _; rfl
    | succ k ih =>
      intro s ha hsus
      simp only [TaskLoop.turns]
      have hit : s.iterate = { s with invocations := s.invocations + 1 } := by
        simp [TaskLoop.iterate, ha, hsus]
      rw [hit]
      have := ih { s with invocations := s.invocations + 1 } ha hsus
      rw [this]
      show s.invocations + 1 + k = s.invocations + (k + 1)
      omega
  refine ⟨by rw [TaskLoop.turns_suspended n t h], ?_, ?_, ?_, ?_, ?_, ?_⟩
  · rw [hone t h n]
  · rw [hone t h n]
    exact hs1
  · rw [hone t h n, TaskLoop.turns_suspended m _ hs1]
  · rw [hone t h n, hone _ hs1 m]
  · rw [hone t h n]
    rw [hrun m _ (by simpa [TaskLoop.resume, PeriodicTask.resume] using h.1)
      (by simp [TaskLoop.resume, PeriodicTask.resume])]
    rfl
  · exact ⟨rfl, rfl, rfl⟩

theorem signal_runs_once_witness :
    TaskLoop.create.activate.suspend.Suspended ∧
    (TaskLoop.turns 5 TaskLoop.create.activate.suspend.signal).invocations = 1 ∧
    (TaskLoop.turns 5 TaskLoop.create.activate.suspend.signal).Suspended := by
  obtain ⟨-, h2, h3, -⟩ :=
    signal_runs_once TaskLoop.create.activate.suspend ⟨rfl, rfl, rfl⟩ 4 0
  exact ⟨⟨rfl, rfl, rfl⟩, h2, h3⟩

end PublisherTheorems

end RTC
